import Mathlib

/-!
# WENOEXT: dense 3x3 kernels and the `List3D` container

A shallow embedding of

* `src/libWENOEXT/WENOBase/geometryWENO/mathFunctionsWENO.H`
  (`det2`, `det`, `pivot`, `inv`), with `double` replaced by exact arithmetic
  in a field `K`, and `det2` a second time with every operation rounded to a
  53-bit significand;
* `src/libWENOEXT/WENOBase/geometryWENO/List3D.H`
  (constructors, `operator()`, `resize`, `setZero`, `write`, `read`), with the
  heap buffer `data_` made explicit;
* `src/libWENOEXT/WENOUpwindFit01/WENOUpwindFit01.H` (`weights`; the limiter
  and the coupled-face pick, whose bodies are not available, follow the
  specification).

Conventions of the embedding.

* The preprocessor switches `FP_FAST_FMA` and `FULLDEBUG` are `Bool` arguments.
* A value of type `int` is an `Int`; the products and sums the source forms
  in `int` are reduced modulo `2^32` into the range of `int` (`intMul`,
  `intAdd`).
* Undefined or aborting executions (`std::abort`, `FatalError`, a null or
  out-of-range dereference, a failed `new`, a failed stream read) are values
  `Except.error f` with `f : Fault`.
-/

namespace Foam

/-- Ways in which an execution can stop without producing a result. -/
inductive Fault where
  /-- The statement `FatalErrorInFunction ... exit(FatalError)`. -/
  | fatalError
  /-- The call `std::abort()`. -/
  | abort
  /-- Dereference of `data_` while it is `nullptr`. -/
  | nullDeref
  /-- Access `data_[m]` with `m` outside the allocated buffer. -/
  | outOfBounds
  /-- The expression `new Type[n]` with negative `n`. -/
  | badAlloc
  /-- Division by an exactly zero scalar: no value in a field. -/
  | divideByZero
  /-- The stream could not deliver the requested item. -/
  | ioError
  deriving DecidableEq, Repr

/-! ## mathFunctionsWENO -/

namespace mathFunctionsWENO

/-- A 3x3 matrix of scalars (`geometryWENO::scalarSquareMatrix` at size 3). -/
abbrev Mat3 (K : Type) := Matrix (Fin 3) (Fin 3) K

/-- The fused multiply-add `std::fma(x, y, z)` without rounding: `x*y + z`. -/
def fma {K : Type} [Field K] (x y z : K) : K := x * y + z

/-- The function `det2(a, d, c, b)` (lines 118-140); `fastFma` is whether
`FP_FAST_FMA` is defined. -/
def det2 {K : Type} [Field K] (fastFma : Bool) (a d c b : K) : K :=
  let cb := c * b
  if fastFma then
    let err := fma (-c) b cb
    let dop := fma a d (-cb)
    dop + err
  else
    (a * d) - cb

/-- The function `det(A)` (lines 106-115). -/
def det {K : Type} [Field K] (fastFma : Bool) (A : Mat3 K) : K :=
  det2 fastFma
      (A 0 0) (det2 fastFma (A 1 1) (A 2 2) (A 1 2) (A 2 1))
      (A 0 1) (det2 fastFma (A 1 0) (A 2 2) (A 1 2) (A 2 0))
    + A 0 2 * det2 fastFma (A 1 0) (A 2 1) (A 1 1) (A 2 0)

/-- The three entries `AInv(0,0)`, `AInv(1,0)`, `AInv(2,0)` that `inv`
computes first (lines 218-220). -/
def invFirstColumn {K : Type} [Field K] (fastFma : Bool) (A : Mat3 K) : Fin 3 → K :=
  ![det2 fastFma (A 1 1) (A 2 2) (A 2 1) (A 1 2),
    det2 fastFma (A 1 2) (A 2 0) (A 1 0) (A 2 2),
    det2 fastFma (A 1 0) (A 2 1) (A 2 0) (A 1 1)]

/-- The scalar `Det` of `inv` (line 222). -/
def invDet {K : Type} [Field K] (fastFma : Bool) (A : Mat3 K) : K :=
  A 0 0 * invFirstColumn fastFma A 0 + A 0 1 * invFirstColumn fastFma A 1
    + A 0 2 * invFirstColumn fastFma A 2

/-- The matrix `AInv` of `inv` just before the final division (lines 218-236). -/
def invUndivided {K : Type} [Field K] (fastFma : Bool) (A : Mat3 K) : Mat3 K :=
  Matrix.of
    ![![invFirstColumn fastFma A 0,
        det2 fastFma (A 0 2) (A 2 1) (A 0 1) (A 2 2),
        det2 fastFma (A 0 1) (A 1 2) (A 0 2) (A 1 1)],
      ![invFirstColumn fastFma A 1,
        det2 fastFma (A 0 0) (A 2 2) (A 0 2) (A 2 0),
        det2 fastFma (A 1 0) (A 0 2) (A 0 0) (A 1 2)],
      ![invFirstColumn fastFma A 2,
        det2 fastFma (A 2 0) (A 0 1) (A 0 0) (A 2 1),
        det2 fastFma (A 0 0) (A 1 1) (A 1 0) (A 0 1)]]

/-- The function `inv(A)` (lines 212-239).  With `fullDebug` the test
`Det == 0` raises the fatal error.  Without it the source divides unguarded;
for `Det = 0` the quotient has no value in a field (IEEE arithmetic fills the
matrix with infinities and NaNs), reported here as `Fault.divideByZero`. -/
def inv {K : Type} [Field K] [DecidableEq K] (fullDebug fastFma : Bool) (A : Mat3 K) :
    Except Fault (Mat3 K) :=
  let Det := invDet fastFma A
  if fullDebug && decide (Det = 0) then
    .error Fault.fatalError
  else
    let AInv := invUndivided fastFma A
    if Det = 0 then .error Fault.divideByZero
    else .ok (fun i j => AInv i j / Det)

/-- The constant `I` of `pivot` (lines 146-151). -/
def pivotI {K : Type} [Field K] : Mat3 K :=
  Matrix.of ![![1, 0, 0], ![0, 1, 0], ![0, 0, 1]]

/-- One of the two search loops of `pivot` (lines 156-163 and 185-192):
`for i in rows: if (abs(A(i,col)) > Amax) { maxRowIndex = i; Amax = abs(A(i,col)); }`
run from the state `(maxRowIndex, Amax)`. -/
def pivotSearch {K : Type} [LinearOrderedField K] (A : Mat3 K) (col : Fin 3)
    (rows : List (Fin 3)) (start : Fin 3 × K) : Fin 3 × K :=
  rows.foldl (fun s i => if |A i col| > s.2 then (i, |A i col|) else s) start

/-- The row exchange of `pivot` (lines 168-172 and 198-202): a copy of row `r`,
then `row(P,r) = row(P,s)`, then `row(P,s) = copy`. -/
def pivotSwapRows {K : Type} (P : Mat3 K) (r s : Fin 3) : Mat3 K :=
  let rowCopy := P r
  let P := Matrix.updateRow P r (P s)
  Matrix.updateRow P s rowCopy

/-- All the intermediate values of one run of `pivot`. -/
structure PivotRun (K : Type) where
  /-- The value of `maxRowIndex` after the first search loop. -/
  maxRowIndex0 : Fin 3
  /-- The matrix `P1` after the first row exchange. -/
  P1 : Mat3 K
  /-- The matrix `PA` after the elimination step `PA = M1*PA`. -/
  PA : Mat3 K
  /-- The value of `maxRowIndex` after the second search loop. -/
  maxRowIndex1 : Fin 3
  /-- The matrix `P1` at line 208. -/
  P : Mat3 K
  /-- The final value of the argument `A`. -/
  A : Mat3 K

/-- The body of `pivot` (lines 143-209), statement by statement.  The sentinel
`-1E+15` is `-(10^15)`.  The quotients defining `M1` are only stored in `PA`,
which the source never reads again. -/
def pivotRun {K : Type} [LinearOrderedField K] (A : Mat3 K) : PivotRun K :=
  let I : Mat3 K := pivotI
  let s0 := pivotSearch A 0 [0, 1, 2] (0, -(10 : K) ^ 15)
  let maxRowIndex := s0.1
  let P1 := pivotSwapRows I 0 maxRowIndex
  let PA := P1 * A
  let M1 : Mat3 K := I
  let M1 := Matrix.updateRow M1 1 (Function.update (M1 1) 0 (-1 * PA 1 0 / PA 0 0))
  let M1 := Matrix.updateRow M1 2 (Function.update (M1 2) 0 (-1 * PA 2 0 / PA 0 0))
  let PA := M1 * PA
  let s1 := pivotSearch A 1 [1, 2] (maxRowIndex, -(10 : K) ^ 15)
  let maxRowIndex1 := s1.1
  let P1b := if maxRowIndex1 ≠ 1 then pivotSwapRows I 1 2 * P1 else P1
  { maxRowIndex0 := maxRowIndex, P1 := P1, PA := PA, maxRowIndex1 := maxRowIndex1,
    P := P1b, A := P1b * A }

/-- The function `pivot(A)`: the value of `A` on return. -/
def pivot {K : Type} [LinearOrderedField K] (A : Mat3 K) : Mat3 K :=
  (pivotRun A).A

/-! ### `det2` in `double`

`scalar` is `double`: IEEE 754 binary64, a significand of 53 bits, rounding
to nearest with ties to the even significand.  A `double` is the rational it
stands for; the exponent range is not bounded, so the model is that of finite
operands and results away from overflow and underflow. -/

/-- The integer nearest to `q`, the even one of the two when `q` lies half way
between them. -/
def roundHalfEven (q : ℚ) : ℤ :=
  if q - ⌊q⌋ < 1 / 2 then ⌊q⌋
  else if 1 / 2 < q - ⌊q⌋ then ⌊q⌋ + 1
  else if ⌊q⌋ % 2 = 0 then ⌊q⌋ else ⌊q⌋ + 1

/-- The unit in the last place of a 53-bit significand at the magnitude of
`x`: `2^(e - 52)` for `2^e ≤ |x| < 2^(e+1)`. -/
def ulp (x : ℚ) : ℚ := (2 : ℚ) ^ (Int.log 2 |x| - 52)

/-- The `double` nearest to the rational `x`. -/
def roundDouble (x : ℚ) : ℚ :=
  if x = 0 then 0 else (roundHalfEven (x / ulp x) : ℚ) * ulp x

/-- The call `std::fma(x, y, z)` on `double`: `x*y + z` rounded once. -/
def fmaDouble (x y z : ℚ) : ℚ := roundDouble (x * y + z)

/-- The function `det2(a, d, c, b)` (lines 118-140) on `double`: each product,
sum, difference and `fma` is rounded to a `double`; `fastFma` is whether
`FP_FAST_FMA` is defined. -/
def det2Double (fastFma : Bool) (a d c b : ℚ) : ℚ :=
  let cb := roundDouble (c * b)
  if fastFma then
    let err := fmaDouble (-c) b cb
    let dop := fmaDouble a d (-cb)
    roundDouble (dop + err)
  else
    roundDouble (roundDouble (a * d) - cb)

end mathFunctionsWENO

/-! ## Streams

`List3D::write` and `List3D::read` use OpenFOAM's `Ostream` and `Istream`,
which are not part of this repository.  Only the calls the two functions make
are modelled: `format()`, `os << int`, `os << endl`, `os << element`,
`os.write(char*, n)`, `is >> int`, `is >> element`, `is.read(char*, n)`.
A stream is the sequence of items written to it; reading skips line ends
before an item, as the token reader of `Istream` skips white space.

What a read does when the item it asks for is not the next one in the stream
is decided by `Istream`, not by this repository: it raises `FatalIOError`, or
it marks the stream bad, leaves its target as it was and delivers nothing
from then on.  The reads take that choice as their argument `fatal`;
`List3D::read` itself never tests the state of the stream. -/

/-- The type `IOstream::streamFormat`. -/
inductive StreamFormat where
  | ASCII
  | BINARY
  deriving DecidableEq, Repr

/-- One item of a stream; `W` is the type of the text of one element. -/
inductive StreamItem (W : Type) where
  /-- An `int` written by `os << n`. -/
  | label (n : Int)
  /-- The line end written by `os << endl`. -/
  | endl
  /-- The text of one element written by `os << data_[i]`. -/
  | word (w : W)
  /-- The bytes written by one call `os.write(buf, count)`. -/
  | block (bytes : List UInt8)

/-- Whether the item is a line end. -/
def StreamItem.isEndl {W : Type} : StreamItem W → Bool
  | .endl => true
  | _ => false

/-- A stream: its format and its items (for an `Ostream` the items written so
far, for an `Istream` the items not yet read). -/
structure IOstream (W : Type) where
  format : StreamFormat
  items : List (StreamItem W)

/-- How the element type `Type` meets a stream: `os << v`, `is >> v`,
`sizeof(Type)` and the object representation that `reinterpret_cast<char*>`
exposes. -/
structure ElementCodec (T W : Type) where
  /-- The text that `os << v` writes. -/
  print : T → W
  /-- The value that `is >> v` reads from a text, if the text is accepted. -/
  parse : W → Option T
  /-- The value of `sizeof(Type)`. -/
  sizeOf : Nat
  /-- The bytes of a stored value. -/
  toBytes : T → List UInt8
  /-- The value stored by `sizeof(Type)` bytes. -/
  ofBytes : List UInt8 → T
  /-- A stored value occupies `sizeof(Type)` bytes. -/
  toBytes_length : ∀ v, (toBytes v).length = sizeOf
  /-- The element type is trivial (the `static_assert` of `List3D.H`, line 69):
  a stored value is the value its bytes stand for. -/
  ofBytes_toBytes : ∀ v, ofBytes (toBytes v) = v

/-- The element type `unsigned char`: the text of a value is the value, its
byte view is the value. -/
def byteCodec : ElementCodec UInt8 UInt8 where
  print := fun v => v
  parse := fun w => some w
  sizeOf := 1
  toBytes := fun v => [v]
  ofBytes := fun b => b.headD 0
  toBytes_length := fun _ => rfl
  ofBytes_toBytes := fun _ => rfl

/-- A read that did not find its item: a fatal error if the stream raises
one, otherwise no value (the target of the read keeps its content) and a
stream that delivers nothing further. -/
def IOstream.missing {W α : Type} (fatal : Bool) (is : IOstream W) :
    Except Fault (Option α × IOstream W) :=
  if fatal then .error Fault.ioError else .ok (none, { is with items := [] })

/-- The call `is >> n` for an `int`: skip line ends, take a label. -/
def IOstream.readLabel {W : Type} (fatal : Bool) (is : IOstream W) :
    Except Fault (Option Int × IOstream W) :=
  match is.items.dropWhile StreamItem.isEndl with
  | .label n :: rest => .ok (some n, { is with items := rest })
  | _ => is.missing fatal

/-- The call `is >> v` for an element: skip line ends, take a text, parse it. -/
def IOstream.readElement {T W : Type} (codec : ElementCodec T W) (fatal : Bool)
    (is : IOstream W) : Except Fault (Option T × IOstream W) :=
  match is.items.dropWhile StreamItem.isEndl with
  | .word w :: rest =>
    match codec.parse w with
    | some v => .ok (some v, { is with items := rest })
    | none => is.missing fatal
  | _ => is.missing fatal

/-- The call `is.read(buf, count)`: skip line ends, take the block of `count`
bytes that one call `os.write(buf, count)` wrote. -/
def IOstream.readBlock {W : Type} (fatal : Bool) (is : IOstream W) (count : Nat) :
    Except Fault (Option (List UInt8) × IOstream W) :=
  match is.items.dropWhile StreamItem.isEndl with
  | .block bytes :: rest =>
    if bytes.length = count then .ok (some bytes, { is with items := rest })
    else is.missing fatal
  | _ => is.missing fatal

/-! ## The type int

The sizes and the index arithmetic of `List3D` have type `int`: 32 bits, two's
complement.  A product or sum whose exact value leaves the range of `int` is
undefined behaviour in C++; the model gives it the value the machine
instruction leaves, the exact value reduced modulo `2^32`. -/

/-- The largest `int`, `INT_MAX`. -/
def intMax : Int := 2147483647

/-- The smallest `int`, `INT_MIN`. -/
def intMin : Int := -2147483648

/-- The `int` congruent to `n` modulo `2^32`. -/
def wrapInt (n : Int) : Int := (n + 2147483648) % 4294967296 - 2147483648

/-- The product `a * b` of two `int`. -/
def intMul (a b : Int) : Int := wrapInt (a * b)

/-- The sum `a + b` of two `int`. -/
def intAdd (a b : Int) : Int := wrapInt (a + b)

/-! ## Memory -/

/-- The loop `for (int i = 0; i < n; ++i) body(i)` acting on a state. -/
def forLoop {σ : Type} (n : Int) (body : Nat → σ → Except Fault σ) (s : σ) : Except Fault σ :=
  (List.range n.toNat).foldlM (fun s i => body i s) s

/-- The expression `new Type[n]`.  The elements are left uninitialised by
C++; their content is the arbitrary `fresh`. -/
def newArray {T : Type} (fresh : Nat → T) (n : Int) : Except Fault (List T) :=
  if n < 0 then .error Fault.badAlloc else .ok ((List.range n.toNat).map fresh)

/-- The read `p[m]` from a buffer pointer `p` (`none` is `nullptr`). -/
def load {T : Type} (p : Option (List T)) (m : Int) : Except Fault T :=
  match p with
  | none => .error Fault.nullDeref
  | some buf =>
    if m < 0 then .error Fault.outOfBounds
    else
      match buf[m.toNat]? with
      | some v => .ok v
      | none => .error Fault.outOfBounds

/-- The write `p[m] = v` through a buffer pointer `p`. -/
def store {T : Type} (p : Option (List T)) (m : Int) (v : T) :
    Except Fault (Option (List T)) :=
  match p with
  | none => .error Fault.nullDeref
  | some buf =>
    if m < 0 then .error Fault.outOfBounds
    else if m.toNat < buf.length then .ok (some (buf.set m.toNat v))
    else .error Fault.outOfBounds

/-- The first `n` elements stored by a run of bytes, `sizeof(Type)` bytes each. -/
def decodeBytes {T W : Type} (codec : ElementCodec T W) : Nat → List UInt8 → List T
  | 0, _ => []
  | n + 1, bytes => codec.ofBytes (bytes.take codec.sizeOf) :: decodeBytes codec n (bytes.drop codec.sizeOf)

/-- Writing `bytes` over the start of the buffer at `reinterpret_cast<char*>(p)`;
`bytes` holds `n * sizeof(Type)` bytes. -/
def storeBytes {T W : Type} (codec : ElementCodec T W) (p : Option (List T)) (n : Nat)
    (bytes : List UInt8) : Except Fault (Option (List T)) :=
  if n = 0 then .ok p
  else
    match p with
    | none => .error Fault.nullDeref
    | some buf =>
      if n ≤ buf.length then .ok (some (decodeBytes codec n bytes ++ buf.drop n))
      else .error Fault.outOfBounds

/-- The target of `is >> n`: it takes the value read, and keeps its content
if the stream delivered none. -/
def assignRead {α : Type} (target : α) (value : Option α) : α := value.getD target

/-- The target `p[m]` of `is >> p[m]`: it takes the value read, and keeps its
content if the stream delivered none. -/
def storeRead {T : Type} (p : Option (List T)) (m : Int) (value : Option T) :
    Except Fault (Option (List T)) :=
  match value with
  | some v => store p m v
  | none => .ok p

/-- The target `p` of `is.read(reinterpret_cast<char*>(p), n * sizeof(Type))`:
it takes the bytes read, and keeps its content if the stream delivered none. -/
def storeBytesRead {T W : Type} (codec : ElementCodec T W) (p : Option (List T)) (n : Nat)
    (bytes : Option (List UInt8)) : Except Fault (Option (List T)) :=
  match bytes with
  | some bytes => storeBytes codec p n bytes
  | none => .ok p

/-! ## List3D -/

/-- The data members of `Foam::List3D<Type>` with their default member
initialisers; `data_ = none` is `nullptr`, `data_ = some buf` is a pointer to
the array `buf` obtained from `new Type[buf.length]`. -/
structure List3D (T : Type) where
  sizeX_ : Int := 0
  sizeY_ : Int := 0
  sizeZ_ : Int := 0
  data_ : Option (List T) := none

namespace List3D

variable {T W : Type}

/-- The `int` expression `sizeX*sizeY*sizeZ` of the sized constructor, of
`resize` and of `read` (there named `fullSize`, `newSize`, `oldSize`). -/
def fullSize (sizeX sizeY sizeZ : Int) : Int := intMul (intMul sizeX sizeY) sizeZ

/-- The member `size()`: the `int` expression `sizeX_*sizeY_*sizeZ_`. -/
def size (L : List3D T) : Int := fullSize L.sizeX_ L.sizeY_ L.sizeZ_

/-- The member `sizeX()`. -/
def sizeX (L : List3D T) : Int := L.sizeX_

/-- The member `sizeY()`. -/
def sizeY (L : List3D T) : Int := L.sizeY_

/-- The member `sizeZ()`. -/
def sizeZ (L : List3D T) : Int := L.sizeZ_

/-- The number of elements of the array `data_` points to (0 for `nullptr`). -/
def bufferLength (L : List3D T) : Nat :=
  match L.data_ with
  | none => 0
  | some buf => buf.length

/-- The element stored at flat offset `m` of the buffer, if there is one. -/
def element? (L : List3D T) (m : Nat) : Option T :=
  match L.data_ with
  | none => none
  | some buf => buf[m]?

/-- The constructor `List3D()` (line 81). -/
def defaultConstruct : List3D T := {}

/-- The constructor `List3D(sizeX, sizeY, sizeZ)` (lines 138-143). -/
def construct (fresh : Nat → T) (sizeX sizeY sizeZ : Int) : Except Fault (List3D T) := do
  let this : List3D T := { sizeX_ := sizeX, sizeY_ := sizeY, sizeZ_ := sizeZ }
  let data ← newArray fresh (fullSize this.sizeX_ this.sizeY_ this.sizeZ_)
  pure { this with data_ := some data }

/-- The copy assignment `this = other` for two distinct objects (lines
173-190); the old buffer of `this` is deleted. -/
def copyAssign (fresh : Nat → T) (this other : List3D T) : Except Fault (List3D T) := do
  let this := { this with sizeX_ := other.sizeX_, sizeY_ := other.sizeY_,
                          sizeZ_ := other.sizeZ_ }
  let fullSize := fullSize this.sizeX_ this.sizeY_ this.sizeZ_
  let data ← newArray fresh fullSize
  let data ← forLoop fullSize (fun i data => do
    let v ← load other.data_ i
    store data i v) (some data)
  pure { this with data_ := data }

/-- The copy constructor `List3D(const List3D& other)` (lines 154-170): the
same statements, run on the default member initialisers. -/
def copyConstruct (fresh : Nat → T) (other : List3D T) : Except Fault (List3D T) :=
  copyAssign fresh {} other

/-- The move assignment `this = std::move(other)` for two distinct objects
(lines 207-219); returns the new `this` and the new `other`. -/
def moveAssign (this other : List3D T) : List3D T × List3D T :=
  let this := { this with sizeX_ := other.sizeX_, sizeY_ := other.sizeY_,
                          sizeZ_ := other.sizeZ_ }
  let this := { this with data_ := other.data_ }
  let other := { other with data_ := none }
  (this, other)

/-- The move constructor `List3D(List3D&& other)` (lines 193-204): the same
statements, run on the default member initialisers. -/
def moveConstruct (other : List3D T) : List3D T × List3D T :=
  moveAssign {} other

/-- The `int` index expression `i*(sizeY_*sizeZ_) + j*(sizeZ_) + k` of
`operator()`. -/
def flatIndex (L : List3D T) (i j k : Int) : Int :=
  intAdd (intAdd (intMul i (intMul L.sizeY_ L.sizeZ_)) (intMul j L.sizeZ_)) k

/-- The check of `operator()` under `FULLDEBUG` (lines 229 and 246). -/
def boundsCheckFails (L : List3D T) (i j k : Int) : Bool :=
  decide (L.flatIndex i j k > fullSize L.sizeX_ L.sizeY_ L.sizeZ_)

/-- Reading `L(i,j,k)` (lines 242-256). -/
def access (fullDebug : Bool) (L : List3D T) (i j k : Int) : Except Fault T :=
  if fullDebug && L.boundsCheckFails i j k then .error Fault.abort
  else load L.data_ (L.flatIndex i j k)

/-- The assignment `L(i,j,k) = v` through the reference returned by the
non-const `operator()` (lines 225-239). -/
def assign (fullDebug : Bool) (L : List3D T) (i j k : Int) (v : T) :
    Except Fault (List3D T) :=
  if fullDebug && L.boundsCheckFails i j k then .error Fault.abort
  else do
    let data ← store L.data_ (L.flatIndex i j k) v
    pure { L with data_ := data }

/-- The member `resize(sizeX, sizeY, sizeZ)` (lines 259-278). -/
def resize (fresh : Nat → T) (L : List3D T) (sizeX sizeY sizeZ : Int) :
    Except Fault (List3D T) :=
  let oldSize := fullSize L.sizeX_ L.sizeY_ L.sizeZ_
  let L := { L with sizeX_ := sizeX, sizeY_ := sizeY, sizeZ_ := sizeZ }
  let newSize := fullSize L.sizeX_ L.sizeY_ L.sizeZ_
  if newSize > oldSize then do
    let tmp ← newArray fresh newSize
    let tmp ← forLoop oldSize (fun i tmp => do
      let v ← load L.data_ i
      store tmp i v) (some tmp)
    pure { L with data_ := tmp }
  else
    pure L

/-- The member `setZero()` (lines 281-289). -/
def setZero [Zero T] (L : List3D T) : Except Fault (List3D T) := do
  let fullSize := fullSize L.sizeX_ L.sizeY_ L.sizeZ_
  let data ← forLoop fullSize (fun i data => store data i 0) L.data_
  pure { L with data_ := data }

/-- The member `read(is)` (lines 320-351); returns the new `this` and the rest
of the stream.  `fatal` is how the stream treats a missing item.  The message
sent to `std::cout` is not modelled. -/
def read (codec : ElementCodec T W) (fatal : Bool) (fresh : Nat → T) (L : List3D T)
    (is : IOstream W) : Except Fault (List3D T × IOstream W) :=
  if is.format = StreamFormat.ASCII then do
    let (x, is) ← is.readLabel fatal
    let (y, is) ← is.readLabel fatal
    let (z, is) ← is.readLabel fatal
    let L := { L with sizeX_ := assignRead L.sizeX_ x, sizeY_ := assignRead L.sizeY_ y,
                      sizeZ_ := assignRead L.sizeZ_ z }
    let fullSize := fullSize L.sizeX_ L.sizeY_ L.sizeZ_
    let data ← newArray fresh fullSize
    let (data, is) ← forLoop fullSize (fun i (s : Option (List T) × IOstream W) => do
      let (v, is) ← s.2.readElement codec fatal
      let data ← storeRead s.1 i v
      pure (data, is)) (some data, is)
    pure ({ L with data_ := data }, is)
  else do
    let (x, is) ← is.readLabel fatal
    let (y, is) ← is.readLabel fatal
    let (z, is) ← is.readLabel fatal
    let L := { L with sizeX_ := assignRead L.sizeX_ x, sizeY_ := assignRead L.sizeY_ y,
                      sizeZ_ := assignRead L.sizeZ_ z }
    let fullSize := fullSize L.sizeX_ L.sizeY_ L.sizeZ_
    let data ← newArray fresh fullSize
    let (bytes, is) ← is.readBlock fatal (fullSize.toNat * codec.sizeOf)
    let data ← storeBytesRead codec (some data) fullSize.toNat bytes
    pure ({ L with data_ := data }, is)

/-- The constructor `List3D(Istream& is)` (lines 146-150). -/
def constructFromStream (codec : ElementCodec T W) (fatal : Bool) (fresh : Nat → T)
    (is : IOstream W) : Except Fault (List3D T × IOstream W) :=
  read codec fatal fresh {} is

/-- The owned buffer has exactly `sizeX*sizeY*sizeZ` elements, a number that
`size()` reports as it is (the `int` product does not overflow). -/
def BufferExact (L : List3D T) : Prop :=
  L.size = L.sizeX_ * L.sizeY_ * L.sizeZ_ ∧ (L.bufferLength : Int) = L.size

/-- The owned buffer has at least `sizeX*sizeY*sizeZ` elements, a number that
`size()` reports as it is (the `int` product does not overflow). -/
def BufferCovers (L : List3D T) : Prop :=
  L.size = L.sizeX_ * L.sizeY_ * L.sizeZ_ ∧ L.size ≤ (L.bufferLength : Int)

instance (L : List3D T) : Decidable L.BufferExact := by
  unfold BufferExact; infer_instance

instance (L : List3D T) : Decidable L.BufferCovers := by
  unfold BufferCovers; infer_instance

end List3D

/-! ## WENOUpwindFit01

Only `WENOUpwindFit01.H` is part of the sources: `weights` is defined there,
`calcLimiter` and `coupledRiemannSolver` are declared there and defined in a
file that is not available. -/

namespace WENOUpwindFit01

/-- Modelled from the spec: OpenFOAM's `pos`, which `weights` applies to
`faceFlux_` and which is not part of this repository.  It is 1 for a flux that
is positive or zero (section 4.5: a zero flux is resolved to the owner side)
and 0 for a negative flux. -/
def pos {K : Type} [LinearOrderedField K] (s : K) : K := if s ≥ 0 then 1 else 0

/-- The member `weights(vf)` (lines 212-219): `pos(faceFlux_)`, face by face. -/
def weights {K : Type} [LinearOrderedField K] (faceFlux : List K) : List K :=
  faceFlux.map pos

/-- The two cells of a face. -/
inductive Side where
  | owner
  | neighbour
  deriving DecidableEq, Repr

/-- Modelled from the spec: the upwind pick of `coupledRiemannSolver`
(declared at lines 98-104, body not available), section 4.5: the owner side if
the flux points from owner to neighbour, otherwise the neighbour side, a zero
flux being resolved to the owner side. -/
def coupledRiemannSolverSide {K : Type} [LinearOrderedField K] (flux : K) : Side :=
  if flux > 0 then Side.owner
  else if flux = 0 then Side.owner
  else Side.neighbour

end WENOUpwindFit01

/-! ## Theorems: mathFunctionsWENO -/

namespace mathFunctionsWENO

theorem det2_eq {K : Type} [Field K] (fastFma : Bool) (a d c b : K) :
    det2 fastFma a d c b = a * d - c * b := by
  cases fastFma
  · simp [det2]
  · simp only [det2, fma, if_true]
    ring

theorem invDet_eq_det {K : Type} [Field K] (fastFma : Bool) (A : Mat3 K) :
    invDet fastFma A = Matrix.det A := by
  simp only [invDet, invFirstColumn, det2_eq, Matrix.det_fin_three]
  simp
  ring

/-- C6: in exact arithmetic `det2(a,d,c,b)` is `a*d - c*b` on either
preprocessor branch, the compensated expression `fma(a,d,-cb) + fma(-c,b,cb)`
has that value, and the two branches return the same value. -/
theorem det2_compensated_eq_fallback {K : Type} [Field K] (a d c b : K) :
    (∀ fastFma : Bool, det2 fastFma a d c b = a * d - c * b)
      ∧ det2 true a d c b = fma a d (-(c * b)) + fma (-c) b (c * b)
      ∧ det2 false a d c b = a * d - c * b
      ∧ det2 true a d c b = det2 false a d c b := by
  refine ⟨fun f => det2_eq f a d c b, ?_, ?_, ?_⟩
  · simp [det2]
  · simp [det2]
  · rw [det2_eq, det2_eq]

/-- C2: `det(A)` is the first-row cofactor expansion with signs +,-,+ built
from `det2`, and that value is the determinant of `A`. -/
theorem det_first_row_expansion {K : Type} [Field K] (fastFma : Bool) (A : Mat3 K) :
    det fastFma A
        = A 0 0 * det2 fastFma (A 1 1) (A 2 2) (A 1 2) (A 2 1)
          - A 0 1 * det2 fastFma (A 1 0) (A 2 2) (A 1 2) (A 2 0)
          + A 0 2 * det2 fastFma (A 1 0) (A 2 1) (A 1 1) (A 2 0)
      ∧ det fastFma A = Matrix.det A := by
  constructor
  · simp only [det]
    rw [det2_eq fastFma (A 0 0)]
  · simp only [det, det2_eq, Matrix.det_fin_three]
    ring

/-- C1: for a 3x3 matrix `A` over a field with non-zero determinant, `inv(A)`
returns a matrix (in every build) and that matrix times `A` is the identity. -/
theorem inv_mul_eq_one {K : Type} [Field K] [DecidableEq K] (fullDebug fastFma : Bool)
    (A : Mat3 K) (hdet : Matrix.det A ≠ 0) :
    ∃ B : Mat3 K, inv fullDebug fastFma A = .ok B ∧ B * A = 1 := by
  have hD : invDet fastFma A ≠ 0 := by rw [invDet_eq_det]; exact hdet
  refine ⟨fun i j => invUndivided fastFma A i j / invDet fastFma A, ?_, ?_⟩
  · simp [inv, hD]
  · have hD2 := hD
    rw [invDet_eq_det, Matrix.det_fin_three] at hD2
    ext i j
    rw [Matrix.mul_apply, Fin.sum_univ_three]
    simp only [invDet_eq_det, Matrix.det_fin_three]
    fin_cases i <;> fin_cases j <;>
      simp [invUndivided, invFirstColumn, det2_eq] <;>
      field_simp <;> ring

/-- C1, at a concrete matrix over the rationals. -/
theorem inv_mul_eq_one_witness :
    Matrix.det (Matrix.of ![![1, 2, 3], ![0, 1, 4], ![5, 6, 0]] : Mat3 ℚ) ≠ 0
      ∧ ∃ B : Mat3 ℚ,
          inv true true (Matrix.of ![![1, 2, 3], ![0, 1, 4], ![5, 6, 0]] : Mat3 ℚ) = .ok B
            ∧ B * (Matrix.of ![![1, 2, 3], ![0, 1, 4], ![5, 6, 0]] : Mat3 ℚ) = 1 :=
  have h : Matrix.det (Matrix.of ![![1, 2, 3], ![0, 1, 4], ![5, 6, 0]] : Mat3 ℚ) ≠ 0 := by
    rw [Matrix.det_fin_three]
    simp
    norm_num
  ⟨h, inv_mul_eq_one true true _ h⟩

theorem pivotSwapRows_mul {K : Type} [Field K] (r s : Fin 3) (M : Mat3 K) :
    pivotSwapRows (pivotI : Mat3 K) r s * M = M.submatrix (Equiv.swap r s) id := by
  ext i j
  rw [Matrix.mul_apply, Fin.sum_univ_three]
  fin_cases r <;> fin_cases s <;> fin_cases i <;>
    simp [pivotSwapRows, pivotI, Matrix.updateRow_apply, Equiv.swap_apply_def,
      Matrix.vecHead, Matrix.vecTail]

theorem pivotSearch_col0_max {K : Type} [LinearOrderedField K] (A : Mat3 K) (i : Fin 3) :
    |A i 0| ≤ |A (pivotSearch A 0 [0, 1, 2] (0, -(10 : K) ^ 15)).1 0| := by
  have h0 : -(10 : K) ^ 15 < |A 0 0| :=
    lt_of_lt_of_le (neg_lt_zero.mpr (by positivity)) (abs_nonneg _)
  simp only [pivotSearch, List.foldl, gt_iff_lt, if_pos h0]
  split_ifs with h1 h2 h3 <;> fin_cases i <;> simp at * <;> linarith

theorem pivotSearch_col1_index {K : Type} [LinearOrderedField K] (A : Mat3 K) (m : Fin 3) :
    (pivotSearch A 1 [1, 2] (m, -(10 : K) ^ 15)).1 = 1
      ∨ (pivotSearch A 1 [1, 2] (m, -(10 : K) ^ 15)).1 = 2 := by
  have h0 : -(10 : K) ^ 15 < |A 1 1| :=
    lt_of_lt_of_le (neg_lt_zero.mpr (by positivity)) (abs_nonneg _)
  simp only [pivotSearch, List.foldl, gt_iff_lt, if_pos h0]
  split_ifs <;> simp

/-- C3: `pivot(A)` returns `P*A` for a permutation matrix `P`: there is a
permutation `σ` of the row indices with `pivot(A) = permMatrix σ * A`, so row
`i` of the result is row `σ i` of the input (each input row exactly once), and
the entry at row 0, column 0 of the result has the largest magnitude among the
column-0 entries of the input. -/
theorem pivot_is_row_permutation {K : Type} [LinearOrderedField K] (A : Mat3 K) :
    ∃ σ : Equiv.Perm (Fin 3),
      pivot A = Equiv.Perm.permMatrix K σ * A
        ∧ (∀ i j, pivot A i j = A (σ i) j)
        ∧ ∀ i, |A i 0| ≤ |pivot A 0 0| := by
  have hmax := pivotSearch_col0_max A
  by_cases h1 : (pivotSearch A 1 [1, 2]
      ((pivotSearch A 0 [0, 1, 2] (0, -(10 : K) ^ 15)).1, -(10 : K) ^ 15)).1 = 1
  · have hp : pivot A
        = A.submatrix (Equiv.swap 0 (pivotSearch A 0 [0, 1, 2] (0, -(10 : K) ^ 15)).1) id := by
      simp only [pivot, pivotRun, h1, ne_eq, not_true_eq_false, if_false]
      exact pivotSwapRows_mul _ _ _
    refine ⟨Equiv.swap 0 (pivotSearch A 0 [0, 1, 2] (0, -(10 : K) ^ 15)).1, ?_, ?_, ?_⟩
    · rw [hp, PEquiv.toPEquiv_mul_matrix]
    · intro i j
      rw [hp]
      rfl
    · intro i
      rw [hp]
      simpa using hmax i
  · have hp : pivot A
        = A.submatrix ((Equiv.swap 0 (pivotSearch A 0 [0, 1, 2] (0, -(10 : K) ^ 15)).1
            * Equiv.swap 1 2 : Equiv.Perm (Fin 3))) id := by
      simp only [pivot, pivotRun, h1, ne_eq, not_false_eq_true, if_true]
      rw [Matrix.mul_assoc, pivotSwapRows_mul, pivotSwapRows_mul]
      rfl
    refine ⟨Equiv.swap 0 (pivotSearch A 0 [0, 1, 2] (0, -(10 : K) ^ 15)).1
            * Equiv.swap 1 2, ?_, ?_, ?_⟩
    · rw [hp, PEquiv.toPEquiv_mul_matrix]
    · intro i j
      rw [hp]
      rfl
    · intro i
      rw [hp]
      have h0 : (Equiv.swap (1 : Fin 3) 2) 0 = 0 := by decide
      simpa [h0] using hmax i

end mathFunctionsWENO

/-! ## Theorems: loops and memory -/

theorem foldlM_range_total {σ : Type} (Inv : Nat → σ → Prop)
    (body : Nat → σ → Except Fault σ) (n : Nat) (s0 : σ) (h0 : Inv 0 s0)
    (hstep : ∀ i s, i < n → Inv i s → ∃ s', body i s = .ok s' ∧ Inv (i + 1) s') :
    ∃ s, (List.range n).foldlM (fun s i => body i s) s0 = .ok s ∧ Inv n s := by
  induction n with
  | zero => exact ⟨s0, rfl, h0⟩
  | succ n ih =>
    obtain ⟨s, hs, hI⟩ := ih (fun i s hi => hstep i s (Nat.lt_succ_of_lt hi))
    obtain ⟨s', hs', hI'⟩ := hstep n s (Nat.lt_succ_self n) hI
    refine ⟨s', ?_, hI'⟩
    rw [List.range_succ, List.foldlM_append, hs]
    simpa using hs'

/-- Total correctness of a counted loop: an invariant that holds at entry and
that each iteration re-establishes (returning normally) holds at exit, and the
loop returns normally. -/
theorem forLoop_total {σ : Type} (Inv : Nat → σ → Prop)
    (body : Nat → σ → Except Fault σ) (n : Int) (s0 : σ) (h0 : Inv 0 s0)
    (hstep : ∀ i s, i < n.toNat → Inv i s → ∃ s', body i s = .ok s' ∧ Inv (i + 1) s') :
    ∃ s, forLoop n body s0 = .ok s ∧ Inv n.toNat s :=
  foldlM_range_total Inv body n.toNat s0 h0 hstep

theorem foldlM_preserves {σ : Type} (P : σ → Prop) (body : Nat → σ → Except Fault σ)
    (hP : ∀ i s s', P s → body i s = .ok s' → P s') (l : List Nat) :
    ∀ s0 s, P s0 → l.foldlM (fun s i => body i s) s0 = .ok s → P s := by
  induction l with
  | nil =>
    intro s0 s h0 h
    simp only [List.foldlM, pure, Except.pure, Except.ok.injEq] at h
    exact h ▸ h0
  | cons a l ih =>
    intro s0 s h0 h
    rw [List.foldlM_cons] at h
    cases hb : body a s0 with
    | error e => rw [hb] at h; cases h
    | ok s1 =>
      rw [hb] at h
      exact ih s1 s (hP a s0 s1 h0 hb) h

/-- Partial correctness of a counted loop: a property that every normally
returning iteration preserves holds at exit if it held at entry. -/
theorem forLoop_preserves {σ : Type} (P : σ → Prop) (body : Nat → σ → Except Fault σ)
    (hP : ∀ i s s', P s → body i s = .ok s' → P s') (n : Int) (s0 s : σ)
    (h0 : P s0) (h : forLoop n body s0 = .ok s) : P s :=
  foldlM_preserves P body hP _ s0 s h0 h

theorem ok_bind {α β : Type} (a : α) (f : α → Except Fault β) :
    (Except.ok a >>= f) = f a := rfl

theorem error_bind {α β : Type} (e : Fault) (f : α → Except Fault β) :
    (Except.error e >>= f) = Except.error e := rfl

theorem newArray_ok {T : Type} (fresh : Nat → T) (n : Int) (hn : 0 ≤ n) :
    newArray fresh n = .ok ((List.range n.toNat).map fresh) := by
  simp [newArray, not_lt.mpr hn]

theorem newArray_length {T : Type} (fresh : Nat → T) (n : Int) (buf : List T)
    (h : newArray fresh n = .ok buf) : 0 ≤ n ∧ buf.length = n.toNat := by
  unfold newArray at h
  split_ifs at h with hn
  simp only [Except.ok.injEq] at h
  subst h
  exact ⟨not_lt.mp hn, by simp⟩

theorem load_ok {T : Type} (buf : List T) (m : Nat) (hm : m < buf.length) :
    load (some buf) (m : Int) = .ok buf[m] := by
  simp [load, List.getElem?_eq_getElem hm]

theorem store_ok {T : Type} (buf : List T) (m : Nat) (v : T) (hm : m < buf.length) :
    store (some buf) (m : Int) v = .ok (some (buf.set m v)) := by
  simp [store, hm]

theorem store_length {T : Type} (p p' : Option (List T)) (m : Int) (v : T) (N : Nat)
    (hp : ∃ l, p = some l ∧ l.length = N) (h : store p m v = .ok p') :
    ∃ l, p' = some l ∧ l.length = N := by
  obtain ⟨l, rfl, hl⟩ := hp
  unfold store at h
  simp only at h
  split_ifs at h with h1 h2
  simp only [Except.ok.injEq] at h
  subst h
  exact ⟨_, rfl, by simp [hl]⟩

/-- The copy loop `for (i < n) dst[i] = src[i]` returns normally when both
buffers have `n` elements, keeps the length of `dst`, and leaves `dst` equal
to `src` below `n` and untouched from `n` on. -/
theorem copyLoop_total {T : Type} (src dst : List T) (n : Int)
    (hsrc : n ≤ (src.length : Int)) (hdst : n ≤ (dst.length : Int)) :
    ∃ l, forLoop n (fun i tmp => do
            let v ← load (some src) i
            store tmp i v) (some dst) = .ok (some l)
      ∧ l.length = dst.length
      ∧ ∀ m : Nat, l[m]? = if m < n.toNat then src[m]? else dst[m]? := by
  obtain ⟨s, hs, l, rfl, hlen, hl⟩ := forLoop_total
    (fun i (s : Option (List T)) => ∃ l, s = some l ∧ l.length = dst.length
      ∧ ∀ m : Nat, l[m]? = if m < i then src[m]? else dst[m]?)
    (fun i tmp => do
      let v ← load (some src) i
      store tmp i v) n (some dst) ⟨dst, rfl, rfl, fun m => by simp⟩
    (by
      rintro i s hi ⟨l, rfl, hlen, hl⟩
      have hi1 : i < src.length := by omega
      have hi2 : i < l.length := by omega
      refine ⟨some (l.set i src[i]), ?_, _, rfl, by simp [hlen], ?_⟩
      · simp only [load_ok src i hi1, bind, Except.bind]
        exact store_ok l i _ hi2
      · intro m
        rw [List.getElem?_set, hl m]
        by_cases hmi : i = m
        · subst hmi
          simp [hi2, List.getElem?_eq_getElem hi1]
        · simp only [hmi, if_false]
          by_cases hlt : m < i
          · simp [hlt, Nat.lt_succ_of_lt hlt]
          · have : ¬ m < i + 1 := by omega
            simp [hlt, this])
  exact ⟨l, hs, hlen, hl⟩

/-! ## Theorems: the type int -/

/-- A value within the range of `int` is its own reduction. -/
theorem wrapInt_of_range (n : Int) (h0 : intMin ≤ n) (h1 : n ≤ intMax) : wrapInt n = n := by
  unfold intMin at h0
  unfold intMax at h1
  unfold wrapInt
  omega

/-- A reduced value lies within the range of `int`. -/
theorem wrapInt_range (n : Int) : intMin ≤ wrapInt n ∧ wrapInt n ≤ intMax := by
  unfold intMin intMax wrapInt
  omega

/-- Reducing a factor first does not change the reduced product. -/
theorem wrapInt_mul_left (a c : Int) : wrapInt (wrapInt a * c) = wrapInt (a * c) := by
  have h : wrapInt a = a - 4294967296 * ((a + 2147483648) / 4294967296) := by
    unfold wrapInt
    omega
  have h2 : wrapInt a * c = a * c - 4294967296 * (((a + 2147483648) / 4294967296) * c) := by
    rw [h]
    ring
  rw [h2]
  unfold wrapInt
  omega

/-- Reducing a factor first does not change the reduced product. -/
theorem wrapInt_mul_right (a c : Int) : wrapInt (a * wrapInt c) = wrapInt (a * c) := by
  rw [mul_comm, wrapInt_mul_left, mul_comm]

/-- Reducing the summands first does not change the reduced sum. -/
theorem wrapInt_add (a c : Int) : wrapInt (wrapInt a + wrapInt c) = wrapInt (a + c) := by
  unfold wrapInt
  omega

/-- Reducing the left summand first does not change the reduced sum. -/
theorem wrapInt_add_left (a c : Int) : wrapInt (wrapInt a + c) = wrapInt (a + c) := by
  unfold wrapInt
  omega

/-! ## Theorems: List3D -/

namespace List3D

variable {T W : Type}

/-- The `int` product of three sizes is the exact product reduced once. -/
theorem fullSize_eq_wrapInt (x y z : Int) : fullSize x y z = wrapInt (x * y * z) := by
  unfold fullSize intMul
  exact wrapInt_mul_left (x * y) z

/-- The `int` product of three sizes is the exact product when that is
representable. -/
theorem fullSize_exact (x y z : Int) (h0 : intMin ≤ x * y * z) (h1 : x * y * z ≤ intMax) :
    fullSize x y z = x * y * z := by
  rw [fullSize_eq_wrapInt, wrapInt_of_range _ h0 h1]

/-- The `int` index expression is the exact offset reduced once. -/
theorem flatIndex_eq_wrapInt (L : List3D T) (i j k : Int) :
    L.flatIndex i j k = wrapInt (i * (L.sizeY_ * L.sizeZ_) + j * L.sizeZ_ + k) := by
  unfold flatIndex intAdd intMul
  rw [wrapInt_mul_right, wrapInt_add, wrapInt_add_left]

theorem size_range (L : List3D T) : intMin ≤ L.size ∧ L.size ≤ intMax := by
  unfold size
  rw [fullSize_eq_wrapInt]
  exact wrapInt_range _

theorem element?_of_data (L : List3D T) (buf : List T) (h : L.data_ = some buf) (m : Nat) :
    L.element? m = buf[m]? := by
  simp [element?, h]

theorem bufferLength_of_data (L : List3D T) (buf : List T) (h : L.data_ = some buf) :
    L.bufferLength = buf.length := by
  simp [bufferLength, h]

/-- A container whose volume is positive and covered by its buffer owns a
buffer. -/
theorem data_of_covers (L : List3D T) (hL : L.BufferCovers) (hpos : 0 < L.size) :
    ∃ buf, L.data_ = some buf ∧ L.size ≤ (buf.length : Int) := by
  obtain ⟨-, hL⟩ := hL
  unfold bufferLength at hL
  cases hd : L.data_ with
  | none => rw [hd] at hL; simp at hL; omega
  | some buf => rw [hd] at hL; exact ⟨buf, rfl, hL⟩

/-- Non-negative sizes whose exact product does not exceed what `size()`
reports have that product as their `int` product. -/
theorem fullSize_of_le_size (L : List3D T) (x y z : Int)
    (hx : 0 ≤ x) (hy : 0 ≤ y) (hz : 0 ≤ z) (h : x * y * z ≤ L.size) :
    fullSize x y z = x * y * z := by
  have hnew : 0 ≤ x * y * z := mul_nonneg (mul_nonneg hx hy) hz
  obtain ⟨-, hmax⟩ := size_range L
  exact fullSize_exact x y z (by unfold intMin; omega) (by omega)

/-- C8: a `resize(x,y,z)` whose new volume does not exceed the old one, the
volumes compared as the `int` products the source forms, or the new one being
the exact product of non-negative `x,y,z`, returns normally, leaves the buffer
as it is (same pointer, same length, every stored element, also those beyond
the new volume) and sets the dimensions to `(x,y,z)`. -/
theorem resize_not_larger_keeps_buffer (fresh : Nat → T) (L : List3D T) (x y z : Int)
    (h : fullSize x y z ≤ L.size ∨ (0 ≤ x ∧ 0 ≤ y ∧ 0 ≤ z ∧ x * y * z ≤ L.size)) :
    ∃ L', resize fresh L x y z = .ok L'
      ∧ L'.data_ = L.data_
      ∧ L'.bufferLength = L.bufferLength
      ∧ (∀ m, L'.element? m = L.element? m)
      ∧ L'.sizeX = x ∧ L'.sizeY = y ∧ L'.sizeZ = z := by
  have h' : fullSize x y z ≤ L.size := by
    rcases h with h | ⟨hx, hy, hz, h⟩
    · exact h
    · rw [fullSize_of_le_size L x y z hx hy hz h]
      exact h
  refine ⟨{ L with sizeX_ := x, sizeY_ := y, sizeZ_ := z }, ?_, rfl, rfl, fun _ => rfl,
    rfl, rfl, rfl⟩
  unfold size at h'
  simp only [resize, gt_iff_lt, not_lt.mpr h', if_false]
  rfl

/-- C8, at a concrete container: 2x2x1 resized to 1x1x1. -/
theorem resize_not_larger_keeps_buffer_witness :
    ((0 : Int) ≤ 1 ∧ (0 : Int) ≤ 1 ∧ (0 : Int) ≤ 1
        ∧ (1 : Int) * 1 * 1 ≤ (⟨2, 2, 1, some [10, 20, 30, 40]⟩ : List3D Int).size)
      ∧ ∃ L', resize (fun _ => 0) (⟨2, 2, 1, some [10, 20, 30, 40]⟩ : List3D Int) 1 1 1 = .ok L'
          ∧ L'.data_ = (⟨2, 2, 1, some [10, 20, 30, 40]⟩ : List3D Int).data_
          ∧ L'.bufferLength = (⟨2, 2, 1, some [10, 20, 30, 40]⟩ : List3D Int).bufferLength
          ∧ (∀ m, L'.element? m = (⟨2, 2, 1, some [10, 20, 30, 40]⟩ : List3D Int).element? m)
          ∧ L'.sizeX = 1 ∧ L'.sizeY = 1 ∧ L'.sizeZ = 1 :=
  ⟨by decide, resize_not_larger_keeps_buffer (fun _ => 0) _ 1 1 1 (Or.inr (by decide))⟩

/-- A growing `resize` onto a size that the `int` product reports exactly:
the result, with the new buffer made explicit. -/
theorem resize_grow_result (fresh : Nat → T) (L : List3D T) (x y z : Int)
    (hL : L.BufferCovers) (hnew : 0 ≤ fullSize x y z) (hgrow : fullSize x y z > L.size) :
    ∃ l : List T, resize fresh L x y z = .ok ⟨x, y, z, some l⟩
      ∧ (l.length : Int) = fullSize x y z
      ∧ ∀ m : Nat, (m : Int) < L.size →
          (∃ v, L.element? m = some v) ∧ l[m]? = L.element? m := by
  have hsz : fullSize L.sizeX_ L.sizeY_ L.sizeZ_ = L.size := rfl
  by_cases hpos : 0 < L.size
  · obtain ⟨buf, hbuf, hcov⟩ := data_of_covers L hL hpos
    obtain ⟨l, hloop, hlen, hl⟩ := copyLoop_total buf
      ((List.range (fullSize x y z).toNat).map fresh) L.size hcov (by simp; omega)
    refine ⟨l, ?_, ?_, ?_⟩
    · simp only [resize, hsz, gt_iff_lt, if_pos (show L.size < fullSize x y z from hgrow),
        newArray_ok fresh _ hnew, ok_bind, hbuf, hloop]
      rfl
    · simp [hlen, Int.toNat_of_nonneg hnew]
    · intro m hm
      have hm' : m < L.size.toNat := by omega
      have hmb : m < buf.length := by omega
      rw [element?_of_data L buf hbuf]
      refine ⟨⟨buf[m], List.getElem?_eq_getElem hmb⟩, ?_⟩
      simp [hl m, hm']
  · have hloop : forLoop L.size (fun i tmp => do
          let v ← load L.data_ i
          store tmp i v) (some ((List.range (fullSize x y z).toNat).map fresh))
        = .ok (some ((List.range (fullSize x y z).toNat).map fresh)) := by
      have : L.size.toNat = 0 := by omega
      simp [forLoop, this, pure, Except.pure]
    refine ⟨(List.range (fullSize x y z).toNat).map fresh, ?_, ?_, ?_⟩
    · simp only [resize, hsz, gt_iff_lt, if_pos (show L.size < fullSize x y z from hgrow),
        newArray_ok fresh _ hnew, ok_bind, hloop]
      rfl
    · simp [Int.toNat_of_nonneg hnew]
    · intro m hm
      omega

/-- C7 as stated fails: `resize(65536, 65536, 1)` on the default container
(volume 0) has non-negative arguments whose product `2^32` exceeds 0, yet the
`int` product `newSize` is 0, the test `newSize > oldSize` is false and no
buffer is allocated: the dimensions become 65536, 65536, 1 over a buffer of 0
elements.  The same call on a 2x2x1 container keeps its 4 elements. -/
theorem resize_overflow_allocates_nothing :
    (defaultConstruct : List3D Int).BufferCovers
      ∧ (65536 : Int) * 65536 * 1 > (defaultConstruct : List3D Int).size
      ∧ fullSize 65536 65536 1 = 0
      ∧ resize (fun _ => 0) (defaultConstruct : List3D Int) 65536 65536 1
          = .ok ⟨65536, 65536, 1, none⟩
      ∧ ((⟨65536, 65536, 1, none⟩ : List3D Int).bufferLength : Int) ≠ 65536 * 65536 * 1
      ∧ resize (fun _ => 0) (⟨2, 2, 1, some [10, 20, 30, 40]⟩ : List3D Int) 65536 65536 1
          = .ok ⟨65536, 65536, 1, some [10, 20, 30, 40]⟩ := by
  refine ⟨by decide, by decide, by decide, rfl, by decide, rfl⟩

/-- C7, amended: on a container whose buffer covers its volume `n`, a
`resize(x,y,z)` with non-negative `x,y,z`, `x*y*z > n` and `x*y*z` at most
`INT_MAX` returns normally; afterwards the dimensions are `x,y,z`, the buffer
has `x*y*z` elements, and every flat offset `m < n` holds the element it held
before. -/
theorem resize_larger_copies_prefix (fresh : Nat → T) (L : List3D T) (x y z : Int)
    (hx : 0 ≤ x) (hy : 0 ≤ y) (hz : 0 ≤ z) (hL : L.BufferCovers) (hgrow : x * y * z > L.size)
    (hrep : x * y * z ≤ intMax) :
    ∃ L', resize fresh L x y z = .ok L'
      ∧ L'.sizeX = x ∧ L'.sizeY = y ∧ L'.sizeZ = z
      ∧ (L'.bufferLength : Int) = x * y * z
      ∧ ∀ m : Nat, (m : Int) < L.size →
          (∃ v, L.element? m = some v) ∧ L'.element? m = L.element? m := by
  have hnew : 0 ≤ x * y * z := mul_nonneg (mul_nonneg hx hy) hz
  have hN : fullSize x y z = x * y * z :=
    fullSize_exact x y z (by unfold intMin; omega) hrep
  obtain ⟨l, hres, hlen, hl⟩ := resize_grow_result fresh L x y z hL (by omega) (by omega)
  refine ⟨_, hres, rfl, rfl, rfl, ?_, ?_⟩
  · simp only [bufferLength]
    omega
  · intro m hm
    obtain ⟨hv, hm'⟩ := hl m hm
    exact ⟨hv, by simpa [element?] using hm'⟩

/-- C7 (amended), at a concrete container: 2x2x1 resized to 2x3x1. -/
theorem resize_larger_copies_prefix_witness :
    (0 : Int) ≤ 2 ∧ (0 : Int) ≤ 3 ∧ (0 : Int) ≤ 1
      ∧ (⟨2, 2, 1, some [10, 20, 30, 40]⟩ : List3D Int).BufferCovers
      ∧ (2 : Int) * 3 * 1 > (⟨2, 2, 1, some [10, 20, 30, 40]⟩ : List3D Int).size
      ∧ (2 : Int) * 3 * 1 ≤ intMax
      ∧ ∃ L', resize (fun _ => 0) (⟨2, 2, 1, some [10, 20, 30, 40]⟩ : List3D Int) 2 3 1 = .ok L'
          ∧ L'.sizeX = 2 ∧ L'.sizeY = 3 ∧ L'.sizeZ = 1
          ∧ (L'.bufferLength : Int) = 2 * 3 * 1
          ∧ ∀ m : Nat, (m : Int) < (⟨2, 2, 1, some [10, 20, 30, 40]⟩ : List3D Int).size →
              (∃ v, (⟨2, 2, 1, some [10, 20, 30, 40]⟩ : List3D Int).element? m = some v)
                ∧ L'.element? m = (⟨2, 2, 1, some [10, 20, 30, 40]⟩ : List3D Int).element? m :=
  ⟨by decide, by decide, by decide, by decide, by decide, by decide,
    resize_larger_copies_prefix (fun _ => 0) _ 2 3 1 (by decide) (by decide) (by decide)
      (by decide) (by decide) (by decide)⟩

end List3D

namespace List3D

variable {T W : Type}

/-- In-range indices have an exact offset in `[0, X*Y*Z)`. -/
theorem offset_bounds (X Y Z i j k : Int)
    (hi : 0 ≤ i ∧ i < X) (hj : 0 ≤ j ∧ j < Y) (hk : 0 ≤ k ∧ k < Z) :
    0 ≤ i * (Y * Z) + j * Z + k ∧ i * (Y * Z) + j * Z + k < X * Y * Z := by
  obtain ⟨hi0, hi1⟩ := hi
  obtain ⟨hj0, hj1⟩ := hj
  obtain ⟨hk0, hk1⟩ := hk
  have hY : 0 < Y := by omega
  have hZ : 0 < Z := by omega
  have hYZ : 0 < Y * Z := mul_pos hY hZ
  constructor
  · have h1 : 0 ≤ i * (Y * Z) := mul_nonneg hi0 hYZ.le
    have h2 : 0 ≤ j * Z := mul_nonneg hj0 hZ.le
    omega
  · have h1 : (i + 1) * (Y * Z) ≤ X * (Y * Z) :=
      mul_le_mul_of_nonneg_right (by omega) hYZ.le
    have h2 : (j + 1) * Z ≤ Y * Z :=
      mul_le_mul_of_nonneg_right (by omega) hZ.le
    nlinarith [h1, h2]

/-- Indices with `j`, `k` in range and the same exact offset are the same
indices. -/
theorem offset_injective (Y Z i j k i' j' k' : Int)
    (hj : 0 ≤ j ∧ j < Y) (hk : 0 ≤ k ∧ k < Z)
    (hj' : 0 ≤ j' ∧ j' < Y) (hk' : 0 ≤ k' ∧ k' < Z)
    (h : i * (Y * Z) + j * Z + k = i' * (Y * Z) + j' * Z + k') :
    i = i' ∧ j = j' ∧ k = k' := by
  obtain ⟨hj0, hj1⟩ := hj
  obtain ⟨hk0, hk1⟩ := hk
  obtain ⟨hj0', hj1'⟩ := hj'
  obtain ⟨hk0', hk1'⟩ := hk'
  have hZ : 0 < Z := by omega
  have hjk : ∀ a b : Int, 0 ≤ a → a < Y → 0 ≤ b → b < Z →
      0 ≤ a * Z + b ∧ a * Z + b < Y * Z := by
    intro a b ha0 ha1 hb0 hb1
    have h1 : 0 ≤ a * Z := mul_nonneg ha0 hZ.le
    have h2 : (a + 1) * Z ≤ Y * Z :=
      mul_le_mul_of_nonneg_right (by omega) hZ.le
    constructor
    · omega
    · nlinarith [h2]
  obtain ⟨p0, p1⟩ := hjk j k hj0 hj1 hk0 hk1
  obtain ⟨q0, q1⟩ := hjk j' k' hj0' hj1' hk0' hk1'
  have hii : i = i' := by
    rcases lt_trichotomy i i' with hlt | heq | hgt
    · exfalso
      have : (i + 1) * (Y * Z) ≤ i' * (Y * Z) :=
        mul_le_mul_of_nonneg_right (by omega) (by omega)
      nlinarith [this]
    · exact heq
    · exfalso
      have : (i' + 1) * (Y * Z) ≤ i * (Y * Z) :=
        mul_le_mul_of_nonneg_right (by omega) (by omega)
      nlinarith [this]
  subst hii
  have h' : j * Z + k = j' * Z + k' := by omega
  have hjj : j = j' := by
    rcases lt_trichotomy j j' with hlt | heq | hgt
    · exfalso
      have : (j + 1) * Z ≤ j' * Z :=
        mul_le_mul_of_nonneg_right (by omega) hZ.le
      nlinarith [this]
    · exact heq
    · exfalso
      have : (j' + 1) * Z ≤ j * Z :=
        mul_le_mul_of_nonneg_right (by omega) hZ.le
      nlinarith [this]
  subst hjj
  exact ⟨rfl, rfl, by omega⟩

/-- On a container whose `int` volume is the exact one, the `int` index
expression of in-range indices is the exact offset. -/
theorem flatIndex_exact (L : List3D T) (hno : L.size = L.sizeX_ * L.sizeY_ * L.sizeZ_)
    (i j k : Int)
    (hi : 0 ≤ i ∧ i < L.sizeX_) (hj : 0 ≤ j ∧ j < L.sizeY_) (hk : 0 ≤ k ∧ k < L.sizeZ_) :
    L.flatIndex i j k = i * (L.sizeY_ * L.sizeZ_) + j * L.sizeZ_ + k := by
  obtain ⟨h0, h1⟩ := offset_bounds L.sizeX_ L.sizeY_ L.sizeZ_ i j k hi hj hk
  obtain ⟨-, hmax⟩ := size_range L
  rw [flatIndex_eq_wrapInt]
  apply wrapInt_of_range
  · unfold intMin
    omega
  · omega

/-- In-range indices have a flat offset in `[0, sizeX*sizeY*sizeZ)`. -/
theorem flatIndex_bounds (L : List3D T) (hno : L.size = L.sizeX_ * L.sizeY_ * L.sizeZ_)
    (i j k : Int)
    (hi : 0 ≤ i ∧ i < L.sizeX_) (hj : 0 ≤ j ∧ j < L.sizeY_) (hk : 0 ≤ k ∧ k < L.sizeZ_) :
    0 ≤ L.flatIndex i j k ∧ L.flatIndex i j k < L.size := by
  obtain ⟨h0, h1⟩ := offset_bounds L.sizeX_ L.sizeY_ L.sizeZ_ i j k hi hj hk
  rw [flatIndex_exact L hno i j k hi hj hk, hno]
  exact ⟨h0, h1⟩

/-- In-range indices with the same flat offset are the same indices. -/
theorem flatIndex_injective (L : List3D T) (hno : L.size = L.sizeX_ * L.sizeY_ * L.sizeZ_)
    (i j k i' j' k' : Int)
    (hi : 0 ≤ i ∧ i < L.sizeX_) (hj : 0 ≤ j ∧ j < L.sizeY_) (hk : 0 ≤ k ∧ k < L.sizeZ_)
    (hi' : 0 ≤ i' ∧ i' < L.sizeX_) (hj' : 0 ≤ j' ∧ j' < L.sizeY_)
    (hk' : 0 ≤ k' ∧ k' < L.sizeZ_)
    (h : L.flatIndex i j k = L.flatIndex i' j' k') : i = i' ∧ j = j' ∧ k = k' := by
  rw [flatIndex_exact L hno i j k hi hj hk, flatIndex_exact L hno i' j' k' hi' hj' hk'] at h
  exact offset_injective L.sizeY_ L.sizeZ_ i j k i' j' k' hj hk hj' hk' h

theorem boundsCheck_passes (L : List3D T) (i j k : Int)
    (h : L.flatIndex i j k < L.size) : L.boundsCheckFails i j k = false := by
  unfold size at h
  simp only [boundsCheckFails, gt_iff_lt, decide_eq_false_iff_not, not_lt]
  omega

/-- C5: on a container whose buffer covers its volume, with `(i,j,k)` and
`(i',j',k')` in range: the assignment `L(i,j,k) = v` returns normally, a read
of `(i,j,k)` then returns `v`, a read of a different `(i',j',k')` returns the
value it returned before the assignment, and the dimensions are unchanged.
This holds with and without the `FULLDEBUG` check. -/
theorem assign_access_frame (fullDebug : Bool) (L : List3D T) (i j k i' j' k' : Int) (v : T)
    (hL : L.BufferCovers)
    (hi : 0 ≤ i ∧ i < L.sizeX) (hj : 0 ≤ j ∧ j < L.sizeY) (hk : 0 ≤ k ∧ k < L.sizeZ)
    (hi' : 0 ≤ i' ∧ i' < L.sizeX) (hj' : 0 ≤ j' ∧ j' < L.sizeY)
    (hk' : 0 ≤ k' ∧ k' < L.sizeZ) :
    ∃ L', assign fullDebug L i j k v = .ok L'
      ∧ access fullDebug L' i j k = .ok v
      ∧ ((i', j', k') ≠ (i, j, k) →
          ∃ w, access fullDebug L i' j' k' = .ok w ∧ access fullDebug L' i' j' k' = .ok w)
      ∧ L'.sizeX = L.sizeX ∧ L'.sizeY = L.sizeY ∧ L'.sizeZ = L.sizeZ := by
  obtain ⟨hb0, hb1⟩ := flatIndex_bounds L hL.1 i j k hi hj hk
  obtain ⟨hb0', hb1'⟩ := flatIndex_bounds L hL.1 i' j' k' hi' hj' hk'
  obtain ⟨buf, hbuf, hcov⟩ := data_of_covers L hL (by omega)
  obtain ⟨n, hn⟩ := Int.eq_ofNat_of_zero_le hb0
  obtain ⟨n', hn'⟩ := Int.eq_ofNat_of_zero_le hb0'
  have hnb : n < buf.length := by omega
  have hnb' : n' < buf.length := by omega
  have hchk := boundsCheck_passes L i j k hb1
  have hchk' := boundsCheck_passes L i' j' k' hb1'
  refine ⟨{ L with data_ := some (buf.set n v) }, ?_, ?_, ?_, rfl, rfl, rfl⟩
  · simp only [assign, hchk, Bool.and_false, hbuf, hn, store_ok buf n v hnb, ok_bind]
    rfl
  · have hchk2 : boundsCheckFails { L with data_ := some (buf.set n v) } i j k = false := hchk
    have hidx : flatIndex { L with data_ := some (buf.set n v) } i j k = (n : Int) := hn
    simp only [access, hchk2, Bool.and_false, hidx]
    rw [load_ok _ n (by simpa using hnb)]
    simp
  · intro hne
    have hnn : n ≠ n' := by
      intro heq
      apply hne
      have := flatIndex_injective L hL.1 i' j' k' i j k hi' hj' hk' hi hj hk
        (by rw [hn, hn', heq])
      obtain ⟨h1, h2, h3⟩ := this
      rw [h1, h2, h3]
    refine ⟨buf[n'], ?_, ?_⟩
    · simp only [access, hchk', Bool.and_false, hbuf, hn']
      exact load_ok buf n' hnb'
    · have hchk2 : boundsCheckFails { L with data_ := some (buf.set n v) } i' j' k' = false :=
        hchk'
      have hidx : flatIndex { L with data_ := some (buf.set n v) } i' j' k' = (n' : Int) := hn'
      simp only [access, hchk2, Bool.and_false, hidx]
      rw [load_ok _ n' (by simpa using hnb')]
      simp [List.getElem_set_ne hnn]

/-- C5, at a concrete container: 2x2x1, assigning `(1,1,0)`, observing `(0,1,0)`. -/
theorem assign_access_frame_witness :
    (⟨2, 2, 1, some [10, 20, 30, 40]⟩ : List3D Int).BufferCovers
      ∧ ∃ L', assign true (⟨2, 2, 1, some [10, 20, 30, 40]⟩ : List3D Int) 1 1 0 7 = .ok L'
          ∧ access true L' 1 1 0 = .ok 7
          ∧ (((0 : Int), (1 : Int), (0 : Int)) ≠ (1, 1, 0) →
              ∃ w, access true (⟨2, 2, 1, some [10, 20, 30, 40]⟩ : List3D Int) 0 1 0 = .ok w
                ∧ access true L' 0 1 0 = .ok w)
          ∧ L'.sizeX = (⟨2, 2, 1, some [10, 20, 30, 40]⟩ : List3D Int).sizeX
          ∧ L'.sizeY = (⟨2, 2, 1, some [10, 20, 30, 40]⟩ : List3D Int).sizeY
          ∧ L'.sizeZ = (⟨2, 2, 1, some [10, 20, 30, 40]⟩ : List3D Int).sizeZ :=
  ⟨by decide,
    assign_access_frame true (⟨2, 2, 1, some [10, 20, 30, 40]⟩ : List3D Int) 1 1 0 0 1 0 7
      (by decide) (by decide) (by decide) (by decide) (by decide) (by decide) (by decide)⟩

end List3D

/-! ## Theorems: write and read -/

theorem forLoop_zero {σ : Type} (n : Int) (hn : n ≤ 0) (body : Nat → σ → Except Fault σ)
    (s : σ) : forLoop n body s = .ok s := by
  have : n.toNat = 0 := by omega
  simp [forLoop, this, pure, Except.pure]

namespace List3D

variable {T W : Type}

theorem readLabel_cons (fatal : Bool) (fmt : StreamFormat) (n : Int)
    (rest : List (StreamItem W)) :
    IOstream.readLabel fatal { format := fmt, items := StreamItem.label n :: rest }
      = .ok (some n, { format := fmt, items := rest }) := by
  simp [IOstream.readLabel, List.dropWhile, StreamItem.isEndl]

theorem readLabel_endl_cons (fatal : Bool) (fmt : StreamFormat) (n : Int)
    (rest : List (StreamItem W)) :
    IOstream.readLabel fatal
        { format := fmt, items := StreamItem.endl :: StreamItem.label n :: rest }
      = .ok (some n, { format := fmt, items := rest }) := by
  simp [IOstream.readLabel, List.dropWhile, StreamItem.isEndl]

theorem readElement_endl_cons (codec : ElementCodec T W) (fatal : Bool) (fmt : StreamFormat)
    (w : W) (v : T) (hparse : codec.parse w = some v) (rest : List (StreamItem W)) :
    IOstream.readElement codec fatal
        { format := fmt, items := StreamItem.endl :: StreamItem.word w :: rest }
      = .ok (some v, { format := fmt, items := rest }) := by
  simp [IOstream.readElement, List.dropWhile, StreamItem.isEndl, hparse]

/-- The element loop of `read` in ASCII format, run on a line end followed by
at least `n` element texts, each with its line end: it returns normally, fills
the buffer with the values of the first `n` texts, and leaves the line end
before the remaining texts in the stream. -/
theorem readLoop_prefix (codec : ElementCodec T W) (fatal : Bool) (g : T → T)
    (hparse : ∀ v, codec.parse (codec.print v) = some (g v)) (fmt : StreamFormat)
    (n : Int) (vs : List T) (hlen : n.toNat ≤ vs.length) (dst : List T)
    (hdst : dst.length = n.toNat) :
    forLoop n (fun i (s : Option (List T) × IOstream W) => do
            let (v, is) ← s.2.readElement codec fatal
            let data ← storeRead s.1 i v
            pure (data, is))
          (some dst, { format := fmt, items := StreamItem.endl ::
              vs.flatMap (fun v => [StreamItem.word (codec.print v), StreamItem.endl]) })
        = .ok (some ((vs.take n.toNat).map g), IOstream.mk fmt (StreamItem.endl ::
              (vs.drop n.toNat).flatMap
                (fun v => [StreamItem.word (codec.print v), StreamItem.endl]))) := by
  obtain ⟨s, hs, l, hl1, hl2, hl3, hl4⟩ := forLoop_total
    (fun i (s : Option (List T) × IOstream W) => ∃ l, s.1 = some l ∧ l.length = n.toNat
      ∧ (∀ m : Nat, m < i → l[m]? = (vs.map g)[m]?)
      ∧ s.2 = IOstream.mk fmt (StreamItem.endl ::
          (vs.drop i).flatMap (fun v => [StreamItem.word (codec.print v), StreamItem.endl])))
    (fun i (s : Option (List T) × IOstream W) => do
            let (v, is) ← s.2.readElement codec fatal
            let data ← storeRead s.1 i v
            pure (data, is))
    n (some dst, IOstream.mk fmt (StreamItem.endl ::
              vs.flatMap (fun v => [StreamItem.word (codec.print v), StreamItem.endl])))
    ⟨dst, rfl, hdst, fun m hm => by omega, by simp⟩
    (by
      rintro i ⟨p, is⟩ hi ⟨l, hp, hll, hpre, his⟩
      simp only at hp his
      subst hp
      subst his
      have hi' : i < vs.length := by omega
      have hil : i < l.length := by omega
      refine ⟨(some (l.set i (g vs[i])), IOstream.mk fmt (StreamItem.endl ::
          (vs.drop (i + 1)).flatMap
            (fun v => [StreamItem.word (codec.print v), StreamItem.endl]))), ?_,
        l.set i (g vs[i]), rfl, by simp [hll], ?_, rfl⟩
      · simp only [List.drop_eq_getElem_cons hi', List.flatMap_cons, List.cons_append,
          List.nil_append, readElement_endl_cons codec fatal fmt _ _ (hparse _), ok_bind,
          storeRead, store_ok l i _ hil]
        rfl
      · intro m hm
        rw [List.getElem?_set]
        by_cases hmi : i = m
        · subst hmi
          simp [hil, List.getElem?_eq_getElem hi']
        · simp only [hmi, if_false]
          exact hpre m (by omega))
  have hlv : l = (vs.take n.toNat).map g := by
    apply List.ext_getElem?
    intro m
    by_cases hm : m < n.toNat
    · rw [hl3 m hm, List.getElem?_map, List.getElem?_map, List.getElem?_take_of_lt hm]
    · rw [List.getElem?_eq_none (by omega), List.getElem?_eq_none (by simp; omega)]
  rw [hs]
  obtain ⟨s1, s2⟩ := s
  simp only at hl1 hl4
  rw [hl1, hl4, hlv]

end List3D

namespace List3D

variable {T W : Type}

theorem storeBytes_full (codec : ElementCodec T W) (dst : List T) (n : Nat)
    (hdst : dst.length = n) (bytes : List UInt8) :
    storeBytes codec (some dst) n bytes = .ok (some (decodeBytes codec n bytes)) := by
  by_cases hn : n = 0
  · subst hn
    have : dst = [] := List.length_eq_zero.mp hdst
    simp [storeBytes, decodeBytes, this]
  · simp [storeBytes, hn, hdst, List.drop_of_length_le (le_of_eq hdst)]

end List3D

/-! ## Theorems: the buffer-length invariant and moves -/

theorem bind_eq_ok {α β : Type} (m : Except Fault α) (f : α → Except Fault β) (b : β) :
    (m >>= f) = .ok b ↔ ∃ a, m = .ok a ∧ f a = .ok b := by
  cases m with
  | error e => simp [error_bind]
  | ok a => simp [ok_bind]

theorem decodeBytes_length {T W : Type} (codec : ElementCodec T W) (n : Nat)
    (bytes : List UInt8) : (decodeBytes codec n bytes).length = n := by
  induction n generalizing bytes with
  | zero => rfl
  | succ n ih => simp [decodeBytes, ih]

theorem copyBody_length {T : Type} (src : Option (List T)) (N : Nat) (i : Nat)
    (s s' : Option (List T)) (hs : ∃ l, s = some l ∧ l.length = N)
    (h : (do let v ← load src i; store s i v) = Except.ok s') :
    ∃ l, s' = some l ∧ l.length = N := by
  obtain ⟨v, _, hv⟩ := (bind_eq_ok _ _ _).mp h
  exact store_length s s' i v N hs hv

theorem storeRead_length {T : Type} (p p' : Option (List T)) (m : Int) (v : Option T) (N : Nat)
    (hp : ∃ l, p = some l ∧ l.length = N) (h : storeRead p m v = .ok p') :
    ∃ l, p' = some l ∧ l.length = N := by
  cases v with
  | none =>
    simp only [storeRead, Except.ok.injEq] at h
    exact h ▸ hp
  | some v => exact store_length p p' m v N hp h

namespace List3D

variable {T W : Type}

theorem bufferExact_covers (L : List3D T) (h : L.BufferExact) : L.BufferCovers :=
  ⟨h.1, le_of_eq h.2.symm⟩

/-- The sized constructor allocates as many elements as `size()` reports. -/
theorem construct_length (fresh : Nat → T) (x y z : Int) (L' : List3D T)
    (h : construct fresh x y z = .ok L') :
    L'.sizeX_ = x ∧ L'.sizeY_ = y ∧ L'.sizeZ_ = z ∧ (L'.bufferLength : Int) = L'.size := by
  obtain ⟨data, hdata, hL'⟩ := (bind_eq_ok _ _ _).mp h
  obtain ⟨hn, hlen⟩ := newArray_length fresh _ data hdata
  have hn' : 0 ≤ fullSize x y z := hn
  simp only [pure, Except.pure, Except.ok.injEq] at hL'
  subst hL'
  refine ⟨rfl, rfl, rfl, ?_⟩
  simp only [bufferLength, size, hlen]
  omega

/-- The copy allocates as many elements as `size()` reports. -/
theorem copyAssign_length (fresh : Nat → T) (this other L' : List3D T)
    (h : copyAssign fresh this other = .ok L') :
    L'.sizeX_ = other.sizeX_ ∧ L'.sizeY_ = other.sizeY_ ∧ L'.sizeZ_ = other.sizeZ_
      ∧ (L'.bufferLength : Int) = L'.size := by
  obtain ⟨data, hdata, h2⟩ := (bind_eq_ok _ _ _).mp h
  obtain ⟨p, hp, hL'⟩ := (bind_eq_ok _ _ _).mp h2
  obtain ⟨hn, hlen⟩ := newArray_length fresh _ data hdata
  have hn' : 0 ≤ fullSize other.sizeX_ other.sizeY_ other.sizeZ_ := hn
  obtain ⟨l, rfl, hl⟩ := forLoop_preserves (fun s => ∃ l, s = some l ∧ l.length = data.length)
    _ (fun i s s' hs hb => copyBody_length other.data_ data.length i s s' hs hb) _ _ p
    ⟨data, rfl, rfl⟩ hp
  simp only [pure, Except.pure, Except.ok.injEq] at hL'
  subst hL'
  refine ⟨rfl, rfl, rfl, ?_⟩
  simp only [bufferLength, size, hl, hlen]
  omega

theorem copyAssign_exact (fresh : Nat → T) (this other L' : List3D T)
    (hother : other.BufferCovers) (h : copyAssign fresh this other = .ok L') :
    L'.BufferExact := by
  obtain ⟨h1, h2, h3, h4⟩ := copyAssign_length fresh this other L' h
  refine ⟨?_, h4⟩
  have := hother.1
  simp only [size, h1, h2, h3] at this ⊢
  exact this

/-- What `resize` leaves: the new dimensions, and either a new buffer of as
many elements as `size()` reports (when the `int` volume grew) or the buffer
it found. -/
theorem resize_length (fresh : Nat → T) (L : List3D T) (x y z : Int) (L' : List3D T)
    (h : resize fresh L x y z = .ok L') :
    L'.sizeX_ = x ∧ L'.sizeY_ = y ∧ L'.sizeZ_ = z
      ∧ (fullSize x y z > L.size → (L'.bufferLength : Int) = L'.size)
      ∧ (¬ fullSize x y z > L.size → L'.data_ = L.data_) := by
  have hsz : fullSize L.sizeX_ L.sizeY_ L.sizeZ_ = L.size := rfl
  by_cases hgrow : fullSize x y z > L.size
  · simp only [resize, hsz, if_pos hgrow] at h
    obtain ⟨data, hdata, h2⟩ := (bind_eq_ok _ _ _).mp h
    obtain ⟨p, hp, hL'⟩ := (bind_eq_ok _ _ _).mp h2
    obtain ⟨hn, hlen⟩ := newArray_length fresh _ data hdata
    obtain ⟨l, rfl, hl⟩ := forLoop_preserves
      (fun s => ∃ l, s = some l ∧ l.length = data.length)
      _ (fun i s s' hs hb => copyBody_length L.data_ data.length i s s' hs hb) _ _ p
      ⟨data, rfl, rfl⟩ hp
    simp only [pure, Except.pure, Except.ok.injEq] at hL'
    subst hL'
    refine ⟨rfl, rfl, rfl, fun _ => ?_, fun hc => absurd hgrow hc⟩
    simp only [bufferLength, size, hl, hlen]
    omega
  · simp only [resize, hsz, if_neg hgrow, pure, Except.pure, Except.ok.injEq] at h
    subst h
    exact ⟨rfl, rfl, rfl, fun hc => absurd hc hgrow, fun _ => rfl⟩

/-- After a `resize` of a container whose buffer covers its volume, the
buffer has at least as many elements as `size()` reports, and exactly as many
if the `int` volume grew. -/
theorem resize_size_le (fresh : Nat → T) (L : List3D T) (x y z : Int) (L' : List3D T)
    (hL : L.BufferCovers) (h : resize fresh L x y z = .ok L') :
    L'.size ≤ (L'.bufferLength : Int)
      ∧ (fullSize x y z > L.size → (L'.bufferLength : Int) = L'.size) := by
  obtain ⟨h1, h2, h3, h4, h5⟩ := resize_length fresh L x y z L' h
  refine ⟨?_, h4⟩
  by_cases hgrow : fullSize x y z > L.size
  · exact le_of_eq (h4 hgrow).symm
  · have hd := h5 hgrow
    have hcov : L.size ≤ (L.bufferLength : Int) := hL.2
    have hs : L'.size = fullSize x y z := by simp only [size, h1, h2, h3]
    have hb : L'.bufferLength = L.bufferLength := by simp only [bufferLength, hd]
    rw [hs, hb]
    omega

theorem store_bufferLength (p p' : Option (List T)) (m : Int) (v : T)
    (h : store p m v = .ok p') (a b c : Int) :
    (List3D.mk a b c p').bufferLength = (List3D.mk a b c p).bufferLength := by
  cases p with
  | none => simp [store] at h
  | some l =>
    obtain ⟨l', rfl, hl'⟩ := store_length (some l) p' m v l.length ⟨l, rfl, rfl⟩ h
    simp [bufferLength, hl']

theorem setZero_frame [Zero T] (L L' : List3D T) (h : setZero L = .ok L') :
    L'.bufferLength = L.bufferLength
      ∧ L'.sizeX_ = L.sizeX_ ∧ L'.sizeY_ = L.sizeY_ ∧ L'.sizeZ_ = L.sizeZ_ := by
  obtain ⟨p, hp, hL'⟩ := (bind_eq_ok _ _ _).mp h
  have hlen := forLoop_preserves
    (fun s => (List3D.mk 0 0 0 s).bufferLength = (List3D.mk 0 0 0 L.data_).bufferLength)
    _ (fun i s s' hs hb => (store_bufferLength s s' i 0 hb 0 0 0).trans hs) _ _ p rfl hp
  simp only [pure, Except.pure, Except.ok.injEq] at hL'
  subst hL'
  exact ⟨hlen, rfl, rfl, rfl⟩

theorem assign_frame (fullDebug : Bool) (L L' : List3D T) (i j k : Int) (v : T)
    (h : assign fullDebug L i j k v = .ok L') :
    L'.bufferLength = L.bufferLength
      ∧ L'.sizeX_ = L.sizeX_ ∧ L'.sizeY_ = L.sizeY_ ∧ L'.sizeZ_ = L.sizeZ_ := by
  unfold assign at h
  split_ifs at h
  obtain ⟨p, hp, hL'⟩ := (bind_eq_ok _ _ _).mp h
  simp only [pure, Except.pure, Except.ok.injEq] at hL'
  subst hL'
  exact ⟨store_bufferLength L.data_ p _ v hp 0 0 0, rfl, rfl, rfl⟩

/-- An operation that keeps the dimensions and the length of the buffer keeps
both predicates on the buffer. -/
theorem covers_of_frame (L L' : List3D T)
    (h : L'.bufferLength = L.bufferLength
      ∧ L'.sizeX_ = L.sizeX_ ∧ L'.sizeY_ = L.sizeY_ ∧ L'.sizeZ_ = L.sizeZ_)
    (hL : L.BufferCovers) : L'.BufferCovers ∧ (L.BufferExact → L'.BufferExact) := by
  obtain ⟨h1, h2, h3, h4⟩ := h
  have hs : L'.size = L.size := by simp only [size, h2, h3, h4]
  refine ⟨⟨?_, ?_⟩, fun hex => ⟨?_, ?_⟩⟩
  · rw [hs, h2, h3, h4]
    exact hL.1
  · rw [hs, h1]
    exact hL.2
  · rw [hs, h2, h3, h4]
    exact hex.1
  · rw [hs, h1]
    exact hex.2

/-- The buffer that `read` allocates has as many elements as `size()` reports. -/
theorem read_length (codec : ElementCodec T W) (fatal : Bool) (fresh : Nat → T)
    (L L' : List3D T) (is rest : IOstream W)
    (h : read codec fatal fresh L is = .ok (L', rest)) :
    (L'.bufferLength : Int) = L'.size := by
  unfold read at h
  split_ifs at h
  · obtain ⟨⟨x, is1⟩, _, h⟩ := (bind_eq_ok _ _ _).mp h
    obtain ⟨⟨y, is2⟩, _, h⟩ := (bind_eq_ok _ _ _).mp h
    obtain ⟨⟨z, is3⟩, _, h⟩ := (bind_eq_ok _ _ _).mp h
    obtain ⟨data, hdata, h⟩ := (bind_eq_ok _ _ _).mp h
    obtain ⟨⟨p, is4⟩, hp, h⟩ := (bind_eq_ok _ _ _).mp h
    obtain ⟨hn, hlen⟩ := newArray_length fresh _ data hdata
    obtain ⟨l, hl1, hl⟩ := forLoop_preserves
      (fun (s : Option (List T) × IOstream W) => ∃ l, s.1 = some l ∧ l.length = data.length)
      _ (fun i s s' hs hb => by
          obtain ⟨⟨v, is5⟩, _, hb⟩ := (bind_eq_ok _ _ _).mp hb
          obtain ⟨d, hd, hb⟩ := (bind_eq_ok _ _ _).mp hb
          simp only [pure, Except.pure, Except.ok.injEq] at hb
          subst hb
          exact storeRead_length s.1 d i v data.length hs hd) _ _ (p, is4)
      ⟨data, rfl, rfl⟩ hp
    simp only at hl1
    subst hl1
    simp only [pure, Except.pure, Except.ok.injEq, Prod.mk.injEq] at h
    obtain ⟨h, _⟩ := h
    subst h
    simp only [bufferLength, size, hl, hlen]
    simp only at hn
    omega
  · obtain ⟨⟨x, is1⟩, _, h⟩ := (bind_eq_ok _ _ _).mp h
    obtain ⟨⟨y, is2⟩, _, h⟩ := (bind_eq_ok _ _ _).mp h
    obtain ⟨⟨z, is3⟩, _, h⟩ := (bind_eq_ok _ _ _).mp h
    obtain ⟨data, hdata, h⟩ := (bind_eq_ok _ _ _).mp h
    obtain ⟨⟨bytes, is4⟩, _, h⟩ := (bind_eq_ok _ _ _).mp h
    obtain ⟨p, hp, h⟩ := (bind_eq_ok _ _ _).mp h
    obtain ⟨hn, hlen⟩ := newArray_length fresh _ data hdata
    have hpl : ∃ l, p = some l ∧ l.length = data.length := by
      cases bytes with
      | none =>
        simp only [storeBytesRead, Except.ok.injEq] at hp
        exact ⟨data, hp.symm, rfl⟩
      | some bytes =>
        simp only [storeBytesRead] at hp
        rw [storeBytes_full codec data _ hlen] at hp
        simp only [Except.ok.injEq] at hp
        exact ⟨_, hp.symm, by rw [decodeBytes_length, hlen]⟩
    obtain ⟨l, rfl, hl⟩ := hpl
    simp only [pure, Except.pure, Except.ok.injEq, Prod.mk.injEq] at h
    obtain ⟨h, _⟩ := h
    subst h
    simp only [bufferLength, size, hl, hlen]
    simp only at hn
    omega

/-- C9 as stated fails: a 2x2x1 container with a 4-element buffer satisfies
`length = sizeX*sizeY*sizeZ`; after `resize(1,1,1)` the buffer still has 4
elements while the volume is 1.  Nor does the predicate hold after every
construction: `List3D(65536, 65536, 1)` allocates `65536*65536*1` elements,
an `int` product that is 0, and owns a buffer of 0 elements under the
dimensions 65536, 65536, 1. -/
theorem bufferExact_not_preserved_by_resize :
    (⟨2, 2, 1, some [10, 20, 30, 40]⟩ : List3D Int).BufferExact
      ∧ (∃ L', resize (fun _ => 0) (⟨2, 2, 1, some [10, 20, 30, 40]⟩ : List3D Int) 1 1 1 = .ok L'
          ∧ L'.bufferLength = 4 ∧ L'.size = 1 ∧ ¬ L'.BufferExact)
      ∧ construct (fun _ => (0 : Int)) 65536 65536 1 = .ok ⟨65536, 65536, 1, some []⟩
      ∧ ((⟨65536, 65536, 1, some []⟩ : List3D Int).bufferLength : Int) ≠ 65536 * 65536 * 1
      ∧ ¬ (⟨65536, 65536, 1, some []⟩ : List3D Int).BufferCovers :=
  ⟨by decide, ⟨⟨1, 1, 1, some [10, 20, 30, 40]⟩, rfl, rfl, rfl, by decide⟩, rfl, by decide,
    by decide⟩

/-- C9, amended: the predicate "the owned buffer has at least
`sizeX*sizeY*sizeZ` elements" holds after construction and is preserved by
resize, setZero, element assignment, copy construction and assignment, move
construction and assignment (for the destination) and read, as long as the
`int` product of the new dimensions is their exact product.  The buffer has
exactly `sizeX*sizeY*sizeZ` elements after default and sized construction,
copy, read and a growing resize, and setZero, element assignment and a move
hand exactness on.  Whatever the new dimensions, the buffer has as many
elements as `size()` reports after sized construction, read and a growing
resize, and at least as many after any resize. -/
theorem bufferCovers_invariant [Zero T] (codec : ElementCodec T W) (fatal : Bool)
    (fresh : Nat → T) (L other : List3D T) (hL : L.BufferCovers)
    (hother : other.BufferCovers) :
    (defaultConstruct : List3D T).BufferExact
      ∧ (∀ x y z L', construct fresh x y z = .ok L' →
          (L'.bufferLength : Int) = L'.size
            ∧ (fullSize x y z = x * y * z → L'.BufferExact))
      ∧ (∀ x y z L', resize fresh L x y z = .ok L' →
          L'.size ≤ (L'.bufferLength : Int)
            ∧ (fullSize x y z > L.size → (L'.bufferLength : Int) = L'.size)
            ∧ (fullSize x y z = x * y * z →
                L'.BufferCovers ∧ (x * y * z > L.size → L'.BufferExact)))
      ∧ (∀ L', setZero L = .ok L' → L'.BufferCovers ∧ (L.BufferExact → L'.BufferExact))
      ∧ (∀ fullDebug i j k v L', assign fullDebug L i j k v = .ok L' →
          L'.BufferCovers ∧ (L.BufferExact → L'.BufferExact))
      ∧ (∀ L', copyConstruct fresh other = .ok L' → L'.BufferExact)
      ∧ (∀ L', copyAssign fresh L other = .ok L' → L'.BufferExact)
      ∧ ((moveConstruct other).1.BufferCovers
          ∧ (other.BufferExact → (moveConstruct other).1.BufferExact))
      ∧ ((moveAssign L other).1.BufferCovers
          ∧ (other.BufferExact → (moveAssign L other).1.BufferExact))
      ∧ (∀ is L' rest, read codec fatal fresh L is = .ok (L', rest) →
          (L'.bufferLength : Int) = L'.size
            ∧ (L'.size = L'.sizeX_ * L'.sizeY_ * L'.sizeZ_ → L'.BufferExact)) := by
  refine ⟨⟨rfl, rfl⟩, ?_, ?_,
    fun L' h => covers_of_frame L L' (setZero_frame L L' h) hL,
    fun fullDebug i j k v L' h => covers_of_frame L L' (assign_frame fullDebug L L' i j k v h) hL,
    fun L' h => copyAssign_exact fresh {} other L' hother h,
    fun L' h => copyAssign_exact fresh L other L' hother h,
    ⟨hother, fun h => h⟩, ⟨hother, fun h => h⟩, ?_⟩
  · intro x y z L' h
    obtain ⟨h1, h2, h3, h4⟩ := construct_length fresh x y z L' h
    refine ⟨h4, fun hrep => ⟨?_, h4⟩⟩
    simp only [size, h1, h2, h3]
    exact hrep
  · intro x y z L' h
    obtain ⟨h1, h2, h3, -, -⟩ := resize_length fresh L x y z L' h
    obtain ⟨hle, hgrow⟩ := resize_size_le fresh L x y z L' hL h
    have hs : L'.size = fullSize x y z := by simp only [size, h1, h2, h3]
    refine ⟨hle, hgrow, fun hrep => ?_⟩
    have hno : L'.size = L'.sizeX_ * L'.sizeY_ * L'.sizeZ_ := by
      rw [hs, h1, h2, h3]
      exact hrep
    refine ⟨⟨hno, hle⟩, fun hgt => ⟨hno, hgrow ?_⟩⟩
    rw [hrep]
    exact hgt
  · intro is L' rest h
    have hlen := read_length codec fatal fresh L L' is rest h
    exact ⟨hlen, fun hno => ⟨hno, hlen⟩⟩

end List3D

namespace List3D

variable {T W : Type}

/-- C9 (amended), at concrete containers of bytes. -/
theorem bufferCovers_invariant_witness :
    (⟨2, 2, 1, some [10, 20, 30, 40]⟩ : List3D UInt8).BufferCovers
      ∧ (⟨1, 2, 1, some [5, 6]⟩ : List3D UInt8).BufferCovers
      ∧ ((∀ x y z L', resize (fun _ => 0) (⟨2, 2, 1, some [10, 20, 30, 40]⟩ : List3D UInt8) x y z
              = .ok L' →
            L'.size ≤ (L'.bufferLength : Int)
              ∧ (fullSize x y z > (⟨2, 2, 1, some [10, 20, 30, 40]⟩ : List3D UInt8).size →
                  (L'.bufferLength : Int) = L'.size)
              ∧ (fullSize x y z = x * y * z →
                  L'.BufferCovers
                    ∧ (x * y * z > (⟨2, 2, 1, some [10, 20, 30, 40]⟩ : List3D UInt8).size →
                        L'.BufferExact)))
          ∧ (∀ L', copyAssign (fun _ => 0) (⟨2, 2, 1, some [10, 20, 30, 40]⟩ : List3D UInt8)
              (⟨1, 2, 1, some [5, 6]⟩ : List3D UInt8) = .ok L' → L'.BufferExact)
          ∧ (moveAssign (⟨2, 2, 1, some [10, 20, 30, 40]⟩ : List3D UInt8)
              (⟨1, 2, 1, some [5, 6]⟩ : List3D UInt8)).1.BufferCovers) :=
  have h := bufferCovers_invariant byteCodec true
    (fun _ => 0) (⟨2, 2, 1, some [10, 20, 30, 40]⟩ : List3D UInt8)
    (⟨1, 2, 1, some [5, 6]⟩ : List3D UInt8) (by decide) (by decide)
  ⟨by decide, by decide, h.2.2.1, h.2.2.2.2.2.2.1, h.2.2.2.2.2.2.2.2.1.1⟩

/-- Both moves, for any source and destination: the destination receives the
source's dimensions and buffer pointer; the source keeps its dimensions and
has `data_ = nullptr`. -/
theorem moveAssign_effect (this other : List3D T) :
    (moveAssign this other).1 = other
      ∧ (moveConstruct other).1 = other
      ∧ (moveAssign this other).2 = { other with data_ := none }
      ∧ (moveConstruct other).2 = { other with data_ := none } :=
  ⟨rfl, rfl, rfl, rfl⟩

/-- C10: both moves evaluated at a 2x2x1 source holding `[10,20,30,40]`.  The
destination receives the dimensions and the buffer.  The source is left with
`data_ = nullptr`, yet its `sizeX()`, `sizeY()`, `sizeZ()` are still 2, 2, 1 and
its `size()` is still 4 instead of 0; `setZero()` on it dereferences the null
pointer. -/
theorem move_source_keeps_dimensions :
    (moveConstruct (⟨2, 2, 1, some [10, 20, 30, 40]⟩ : List3D Int)).1
        = ⟨2, 2, 1, some [10, 20, 30, 40]⟩
      ∧ (moveAssign (⟨1, 1, 1, some [5]⟩ : List3D Int) ⟨2, 2, 1, some [10, 20, 30, 40]⟩).1
        = ⟨2, 2, 1, some [10, 20, 30, 40]⟩
      ∧ (moveConstruct (⟨2, 2, 1, some [10, 20, 30, 40]⟩ : List3D Int)).2
        = ⟨2, 2, 1, none⟩
      ∧ (moveAssign (⟨1, 1, 1, some [5]⟩ : List3D Int) ⟨2, 2, 1, some [10, 20, 30, 40]⟩).2
        = ⟨2, 2, 1, none⟩
      ∧ (moveConstruct (⟨2, 2, 1, some [10, 20, 30, 40]⟩ : List3D Int)).2.size = 4
      ∧ (moveConstruct (⟨2, 2, 1, some [10, 20, 30, 40]⟩ : List3D Int)).2.sizeX = 2
      ∧ (moveConstruct (⟨2, 2, 1, some [10, 20, 30, 40]⟩ : List3D Int)).2.sizeY = 2
      ∧ (moveConstruct (⟨2, 2, 1, some [10, 20, 30, 40]⟩ : List3D Int)).2.sizeZ = 1
      ∧ ¬ (moveConstruct (⟨2, 2, 1, some [10, 20, 30, 40]⟩ : List3D Int)).2.BufferCovers
      ∧ setZero (moveConstruct (⟨2, 2, 1, some [10, 20, 30, 40]⟩ : List3D Int)).2
        = .error Fault.nullDeref :=
  ⟨rfl, rfl, rfl, rfl, rfl, rfl, rfl, rfl, by decide, rfl⟩

end List3D

/-! ## Theorems: the checked build, setZero -/

namespace List3D

variable {T W : Type}

theorem access_of_offset (fullDebug : Bool) (L : List3D T) (i j k : Int) (hL : L.BufferCovers)
    (h0 : 0 ≤ L.flatIndex i j k) (h1 : L.flatIndex i j k < L.size) :
    ∃ w, access fullDebug L i j k = .ok w
      ∧ L.element? (L.flatIndex i j k).toNat = some w := by
  obtain ⟨buf, hbuf, hcov⟩ := data_of_covers L hL (by omega)
  obtain ⟨n, hn⟩ := Int.eq_ofNat_of_zero_le h0
  have hnb : n < buf.length := by omega
  refine ⟨buf[n], ?_, ?_⟩
  · simp only [access, boundsCheck_passes L i j k h1, Bool.and_false, hbuf, hn]
    exact load_ok buf n hnb
  · rw [element?_of_data L buf hbuf, hn]
    simp [List.getElem?_eq_getElem hnb]

/-- C11 as stated fails: in a 2x2x1 container the access `(0,2,0)` has
`j = 2` outside `[0, sizeY)`, yet the checked build does not abort: the flat
offset is 2, the test `2 > 4` is false, and the element of `(1,0,0)` is
returned. -/
theorem checked_access_misses_axis_violation :
    ¬ ((0 : Int) ≤ 2 ∧ (2 : Int) < (⟨2, 2, 1, some [10, 20, 30, 40]⟩ : List3D Int).sizeY)
      ∧ access true (⟨2, 2, 1, some [10, 20, 30, 40]⟩ : List3D Int) 0 2 0 = .ok 30
      ∧ access true (⟨2, 2, 1, some [10, 20, 30, 40]⟩ : List3D Int) 1 0 0 = .ok 30 :=
  ⟨by decide, rfl, rfl⟩

/-- C11, amended: in the checked build, on a container whose buffer covers
its volume, an access (read or assignment) whose flat offset
`i*(sizeY*sizeZ) + j*sizeZ + k` is greater than `sizeX*sizeY*sizeZ` aborts; an
access with all three indices in range does not abort and returns its
element; and an access whose flat offset lies in `[0, sizeX*sizeY*sizeZ)`
returns the element at that offset without aborting, whether or not each
index is in its own range. -/
theorem checked_access_aborts_above_volume (L : List3D T) (i j k : Int) (hL : L.BufferCovers) :
    (L.flatIndex i j k > L.size →
        access true L i j k = .error Fault.abort
          ∧ ∀ v, assign true L i j k v = .error Fault.abort)
      ∧ ((0 ≤ i ∧ i < L.sizeX) ∧ (0 ≤ j ∧ j < L.sizeY) ∧ (0 ≤ k ∧ k < L.sizeZ) →
          ∃ w, access true L i j k = .ok w)
      ∧ (0 ≤ L.flatIndex i j k ∧ L.flatIndex i j k < L.size →
          ∃ w, access true L i j k = .ok w
            ∧ L.element? (L.flatIndex i j k).toNat = some w) := by
  refine ⟨?_, ?_, ?_⟩
  · intro h
    have hchk : L.boundsCheckFails i j k = true := by
      simp only [boundsCheckFails, decide_eq_true_eq]
      exact h
    exact ⟨by simp [access, hchk], fun v => by simp [assign, hchk]⟩
  · rintro ⟨hi, hj, hk⟩
    obtain ⟨h0, h1⟩ := flatIndex_bounds L hL.1 i j k hi hj hk
    obtain ⟨w, hw, _⟩ := access_of_offset true L i j k hL h0 h1
    exact ⟨w, hw⟩
  · rintro ⟨h0, h1⟩
    exact access_of_offset true L i j k hL h0 h1

/-- C11 (amended), at a concrete 2x2x1 container and the access `(3,0,0)`. -/
theorem checked_access_aborts_above_volume_witness :
    (⟨2, 2, 1, some [10, 20, 30, 40]⟩ : List3D Int).BufferCovers
      ∧ ((⟨2, 2, 1, some [10, 20, 30, 40]⟩ : List3D Int).flatIndex 3 0 0
            > (⟨2, 2, 1, some [10, 20, 30, 40]⟩ : List3D Int).size →
          access true (⟨2, 2, 1, some [10, 20, 30, 40]⟩ : List3D Int) 3 0 0 = .error Fault.abort
            ∧ ∀ v, assign true (⟨2, 2, 1, some [10, 20, 30, 40]⟩ : List3D Int) 3 0 0 v
                = .error Fault.abort) :=
  ⟨by decide,
    (checked_access_aborts_above_volume (⟨2, 2, 1, some [10, 20, 30, 40]⟩ : List3D Int) 3 0 0
      (by decide)).1⟩

/-- C13: on a container whose buffer covers its volume, `setZero()` returns
normally; afterwards every flat offset below `sizeX*sizeY*sizeZ` holds 0,
every in-range coordinate `(i,j,k)` reads 0 (in either build), and `sizeX`,
`sizeY`, `sizeZ` are unchanged. -/
theorem setZero_zeroes_volume [Zero T] (L : List3D T) (hL : L.BufferCovers) :
    ∃ L', setZero L = .ok L'
      ∧ L'.sizeX = L.sizeX ∧ L'.sizeY = L.sizeY ∧ L'.sizeZ = L.sizeZ
      ∧ (∀ m : Nat, (m : Int) < L.size → L'.element? m = some 0)
      ∧ ∀ (fullDebug : Bool) (i j k : Int),
          (0 ≤ i ∧ i < L.sizeX) → (0 ≤ j ∧ j < L.sizeY) → (0 ≤ k ∧ k < L.sizeZ) →
          access fullDebug L' i j k = .ok 0 := by
  have hsz : fullSize L.sizeX_ L.sizeY_ L.sizeZ_ = L.size := rfl
  have key : ∃ p, forLoop L.size (fun i data => store data i (0 : T)) L.data_ = .ok p
      ∧ (List3D.mk L.sizeX_ L.sizeY_ L.sizeZ_ p).bufferLength = L.bufferLength
      ∧ ∀ m : Nat, (m : Int) < L.size →
          (List3D.mk L.sizeX_ L.sizeY_ L.sizeZ_ p).element? m = some 0 := by
    by_cases hpos : 0 < L.size
    · obtain ⟨buf, hbuf, hcov⟩ := data_of_covers L hL hpos
      obtain ⟨s, hs, l, rfl, hlen, hl⟩ := forLoop_total
        (fun i (s : Option (List T)) => ∃ l, s = some l ∧ l.length = buf.length
          ∧ ∀ m : Nat, m < i → l[m]? = some 0)
        (fun i data => store data i (0 : T)) L.size L.data_
        ⟨buf, hbuf, rfl, fun m hm => by omega⟩
        (by
          rintro i s hi ⟨l, rfl, hlen, hl⟩
          have hil : i < l.length := by omega
          refine ⟨some (l.set i 0), store_ok l i 0 hil, _, rfl, by simp [hlen], ?_⟩
          intro m hm
          rw [List.getElem?_set]
          by_cases hmi : i = m
          · subst hmi
            simp [hil]
          · simp only [hmi, if_false]
            exact hl m (by omega))
      refine ⟨some l, hs, ?_, ?_⟩
      · simp [bufferLength, hbuf, hlen]
      · intro m hm
        exact hl m (by omega)
    · exact ⟨L.data_, forLoop_zero L.size (by omega) _ _, rfl, fun m hm => by omega⟩
  obtain ⟨p, hp, hlen, hzero⟩ := key
  refine ⟨{ L with data_ := p }, ?_, rfl, rfl, rfl, hzero, ?_⟩
  · simp only [setZero, hsz, hp, ok_bind]
    rfl
  · intro fullDebug i j k hi hj hk
    have hL' : (List3D.mk L.sizeX_ L.sizeY_ L.sizeZ_ p).BufferCovers := by
      have h2 : L.size ≤ (L.bufferLength : Int) := hL.2
      refine ⟨hL.1, ?_⟩
      rw [hlen]
      exact h2
    obtain ⟨h0, h1⟩ := flatIndex_bounds (List3D.mk L.sizeX_ L.sizeY_ L.sizeZ_ p) hL'.1 i j k
      hi hj hk
    obtain ⟨w, hw, hw'⟩ := access_of_offset fullDebug _ i j k hL' h0 h1
    have hz := hzero (flatIndex (List3D.mk L.sizeX_ L.sizeY_ L.sizeZ_ p) i j k).toNat
      (by rw [Int.toNat_of_nonneg h0]; exact h1)
    rw [hz] at hw'
    simp only [Option.some.injEq] at hw'
    rw [hw, ← hw']

/-- C13, at a concrete 2x2x1 container of integers. -/
theorem setZero_zeroes_volume_witness :
    (⟨2, 2, 1, some [10, 20, 30, 40]⟩ : List3D Int).BufferCovers
      ∧ ∃ L', setZero (⟨2, 2, 1, some [10, 20, 30, 40]⟩ : List3D Int) = .ok L'
          ∧ L'.sizeX = (⟨2, 2, 1, some [10, 20, 30, 40]⟩ : List3D Int).sizeX
          ∧ L'.sizeY = (⟨2, 2, 1, some [10, 20, 30, 40]⟩ : List3D Int).sizeY
          ∧ L'.sizeZ = (⟨2, 2, 1, some [10, 20, 30, 40]⟩ : List3D Int).sizeZ
          ∧ (∀ m : Nat, (m : Int) < (⟨2, 2, 1, some [10, 20, 30, 40]⟩ : List3D Int).size →
              L'.element? m = some 0)
          ∧ ∀ (fullDebug : Bool) (i j k : Int),
              (0 ≤ i ∧ i < (⟨2, 2, 1, some [10, 20, 30, 40]⟩ : List3D Int).sizeX) →
              (0 ≤ j ∧ j < (⟨2, 2, 1, some [10, 20, 30, 40]⟩ : List3D Int).sizeY) →
              (0 ≤ k ∧ k < (⟨2, 2, 1, some [10, 20, 30, 40]⟩ : List3D Int).sizeZ) →
              access fullDebug L' i j k = .ok 0 :=
  ⟨by decide, setZero_zeroes_volume (⟨2, 2, 1, some [10, 20, 30, 40]⟩ : List3D Int) (by decide)⟩

end List3D

namespace mathFunctionsWENO

/-- C12: in the checked build and exact arithmetic, `inv(A)` raises the fatal
error exactly when the determinant of `A` (equivalently the value of
`det(A)`) is 0, and returns a matrix exactly when it is not. -/
theorem inv_checked_fatal_iff_singular {K : Type} [Field K] [DecidableEq K] (fastFma : Bool)
    (A : Mat3 K) :
    (inv true fastFma A = .error Fault.fatalError ↔ Matrix.det A = 0)
      ∧ (Matrix.det A = 0 ↔ det fastFma A = 0)
      ∧ ((∃ B, inv true fastFma A = .ok B) ↔ Matrix.det A ≠ 0) := by
  have hD := invDet_eq_det fastFma A
  have hdet : det fastFma A = Matrix.det A := by
    simp only [det, det2_eq, Matrix.det_fin_three]
    ring
  refine ⟨?_, by rw [hdet], ?_⟩
  · by_cases h : Matrix.det A = 0
    · simp [inv, hD, h]
    · simp [inv, hD, h]
  · by_cases h : Matrix.det A = 0
    · simp [inv, hD, h]
    · simp [inv, hD, h]

end mathFunctionsWENO

/-! ## Theorems: read and the number of elements in the stream -/

namespace List3D

variable {T W : Type}

/-- C14 as stated fails: an ASCII stream whose dimension integers 1, 1, 1 are
followed by two elements (one more than `1*1*1`) is read without failure,
whether or not the stream raises fatal errors; the container gets the first
element and the second stays in the stream. -/
theorem read_accepts_surplus_elements :
    read byteCodec true (fun _ => 0) {}
        (IOstream.mk StreamFormat.ASCII
          [StreamItem.label 1, StreamItem.endl, StreamItem.label 1, StreamItem.endl,
            StreamItem.label 1, StreamItem.endl, StreamItem.word 5, StreamItem.endl,
            StreamItem.word 6, StreamItem.endl])
      = .ok (⟨1, 1, 1, some [5]⟩,
          IOstream.mk StreamFormat.ASCII [StreamItem.endl, StreamItem.word 6, StreamItem.endl])
    ∧ read byteCodec false (fun _ => 0) {}
        (IOstream.mk StreamFormat.ASCII
          [StreamItem.label 1, StreamItem.endl, StreamItem.label 1, StreamItem.endl,
            StreamItem.label 1, StreamItem.endl, StreamItem.word 5, StreamItem.endl,
            StreamItem.word 6, StreamItem.endl])
      = .ok (⟨1, 1, 1, some [5]⟩,
          IOstream.mk StreamFormat.ASCII [StreamItem.endl, StreamItem.word 6, StreamItem.endl]) :=
  ⟨rfl, rfl⟩

/-- C14, amended: `read` takes exactly `x*y*z` elements (the `int` product)
after the three dimension integers `x`, `y`, `z` and makes no test of how many
there are.  An ASCII stream that holds at least `x*y*z` elements after them,
each text being read as the value `g v` of the element `v` written, is read
normally into a container with the first `x*y*z` of them; any further
elements stay unread in the stream. -/
theorem read_takes_volume_elements (codec : ElementCodec T W) (g : T → T)
    (hparse : ∀ v, codec.parse (codec.print v) = some (g v)) (fatal : Bool) (fresh : Nat → T)
    (this : List3D T) (x y z : Int) (vs : List T)
    (hn : 0 ≤ fullSize x y z) (hvs : fullSize x y z ≤ (vs.length : Int)) :
    read codec fatal fresh this (IOstream.mk StreamFormat.ASCII
        (StreamItem.label x :: StreamItem.endl :: StreamItem.label y :: StreamItem.endl
          :: StreamItem.label z :: StreamItem.endl
          :: vs.flatMap (fun v => [StreamItem.word (codec.print v), StreamItem.endl])))
      = .ok (⟨x, y, z, some ((vs.take (fullSize x y z).toNat).map g)⟩,
          IOstream.mk StreamFormat.ASCII (StreamItem.endl ::
            (vs.drop (fullSize x y z).toNat).flatMap
              (fun v => [StreamItem.word (codec.print v), StreamItem.endl]))) := by
  have hpre := readLoop_prefix codec fatal g hparse StreamFormat.ASCII (fullSize x y z) vs
    (by omega) ((List.range (fullSize x y z).toNat).map fresh) (by simp)
  simp only [read, if_true, readLabel_cons, readLabel_endl_cons, ok_bind, assignRead,
    Option.getD_some, newArray_ok fresh _ hn, hpre]
  rfl

/-- C14 (amended), at a concrete element type and stream: dimensions 2, 1, 1
followed by three elements. -/
theorem read_takes_volume_elements_witness :
    (∀ v : UInt8, byteCodec.parse (byteCodec.print v) = some (id v))
      ∧ (0 : Int) ≤ fullSize 2 1 1
      ∧ fullSize 2 1 1 ≤ (([7, 8, 9] : List UInt8).length : Int)
      ∧ read byteCodec true (fun _ => 0) ({} : List3D UInt8)
          (IOstream.mk StreamFormat.ASCII
            (StreamItem.label 2 :: StreamItem.endl :: StreamItem.label 1 :: StreamItem.endl
              :: StreamItem.label 1 :: StreamItem.endl
              :: ([7, 8, 9] : List UInt8).flatMap
                  (fun v => [StreamItem.word (byteCodec.print v), StreamItem.endl])))
        = .ok (⟨2, 1, 1, some ((([7, 8, 9] : List UInt8).take (fullSize 2 1 1).toNat).map id)⟩,
            IOstream.mk StreamFormat.ASCII (StreamItem.endl ::
              (([7, 8, 9] : List UInt8).drop (fullSize 2 1 1).toNat).flatMap
                (fun v => [StreamItem.word (byteCodec.print v), StreamItem.endl]))) :=
  ⟨fun _ => rfl, by decide, by decide,
    read_takes_volume_elements byteCodec id (fun _ => rfl) true (fun _ => 0) ({} : List3D UInt8)
      2 1 1 [7, 8, 9] (by decide) (by decide)⟩

end List3D

/-! ## Theorems: WENOUpwindFit01 -/

namespace WENOUpwindFit01

/-- C16: for every face, the weight returned by `weights` and the side picked
on a coupled face depend only on the sign of the face flux: weight 1 and the
owner side for a flux that is positive or exactly zero, weight 0 and the
neighbour side for a negative flux; the weight is never anything but 0 or 1,
and a zero flux resolves to the owner side. -/
theorem upwind_side_by_flux_sign {K : Type} [LinearOrderedField K] (faceFlux : List K)
    (f : Nat) (flux : K) (hf : faceFlux[f]? = some flux) :
    (0 ≤ flux → (weights faceFlux)[f]? = some 1
        ∧ coupledRiemannSolverSide flux = Side.owner)
      ∧ (flux < 0 → (weights faceFlux)[f]? = some 0
        ∧ coupledRiemannSolverSide flux = Side.neighbour)
      ∧ ((weights faceFlux)[f]? = some 1 ∨ (weights faceFlux)[f]? = some 0)
      ∧ (flux = 0 → (weights faceFlux)[f]? = some 1
        ∧ coupledRiemannSolverSide flux = Side.owner) := by
  have hw : (weights faceFlux)[f]? = some (pos flux) := by
    simp [weights, hf]
  have hpos : 0 ≤ flux → (weights faceFlux)[f]? = some 1
      ∧ coupledRiemannSolverSide flux = Side.owner := by
    intro h
    refine ⟨by rw [hw]; simp [pos, h], ?_⟩
    rcases lt_or_eq_of_le h with h1 | h1
    · simp [coupledRiemannSolverSide, h1]
    · simp [coupledRiemannSolverSide, ← h1]
  have hneg : flux < 0 → (weights faceFlux)[f]? = some 0
      ∧ coupledRiemannSolverSide flux = Side.neighbour := by
    intro h
    refine ⟨by rw [hw]; simp [pos, not_le.mpr h], ?_⟩
    simp [coupledRiemannSolverSide, not_lt.mpr h.le, h.ne]
  refine ⟨hpos, hneg, ?_, fun h0 => hpos (le_of_eq h0.symm)⟩
  rcases le_or_lt 0 flux with h | h
  · exact Or.inl (hpos h).1
  · exact Or.inr (hneg h).1

/-- C16, at three concrete faces with fluxes 2, 0 and -3: the face with zero
flux. -/
theorem upwind_side_by_flux_sign_witness :
    ([2, 0, -3] : List ℚ)[1]? = some 0
      ∧ ((0 : ℚ) = 0 → (weights ([2, 0, -3] : List ℚ))[1]? = some 1
          ∧ coupledRiemannSolverSide (0 : ℚ) = Side.owner) :=
  ⟨rfl, (upwind_side_by_flux_sign ([2, 0, -3] : List ℚ) 1 0 rfl).2.2.2⟩

end WENOUpwindFit01

/-! ## Theorems: the second pivot, the adjugate, the index map -/

namespace mathFunctionsWENO

/-- The second search of `pivot` compares the column-1 entries of rows 1 and 2
of the matrix passed in, whatever the first search found. -/
theorem pivotRun_maxRowIndex1 {K : Type} [LinearOrderedField K] (A : Mat3 K) :
    (pivotRun A).maxRowIndex1 = if |A 2 1| > |A 1 1| then 2 else 1 := by
  have h0 : -(10 : K) ^ 15 < |A 1 1| :=
    lt_of_lt_of_le (neg_lt_zero.mpr (by positivity)) (abs_nonneg _)
  simp only [pivotRun, pivotSearch, List.foldl, gt_iff_lt, if_pos h0]
  split_ifs <;> rfl

/-- C18: `pivot` evaluated at the rational matrix with rows `(2,4,0)`,
`(1,3,0)`, `(1,0,1)`.  Row 0 already holds the column-0 maximum, so no first
swap occurs; after elimination rows 1 and 2 have the column-1 entries 1 and
-2, so the row with the larger magnitude is row 2.  The second search reads
the column-1 entries 3 and 0 of the matrix passed in instead, keeps
`maxRowIndex = 1`, applies no swap, and returns the matrix unchanged: index 1
holds the row with the smaller eliminated entry. -/
theorem pivot_second_search_reads_input :
    (pivotRun (Matrix.of ![![2, 4, 0], ![1, 3, 0], ![1, 0, 1]] : Mat3 ℚ)).maxRowIndex0 = 0
      ∧ (pivotRun (Matrix.of ![![2, 4, 0], ![1, 3, 0], ![1, 0, 1]] : Mat3 ℚ)).PA 1 0 = 0
      ∧ (pivotRun (Matrix.of ![![2, 4, 0], ![1, 3, 0], ![1, 0, 1]] : Mat3 ℚ)).PA 2 0 = 0
      ∧ (pivotRun (Matrix.of ![![2, 4, 0], ![1, 3, 0], ![1, 0, 1]] : Mat3 ℚ)).PA 1 1 = 1
      ∧ (pivotRun (Matrix.of ![![2, 4, 0], ![1, 3, 0], ![1, 0, 1]] : Mat3 ℚ)).PA 2 1 = -2
      ∧ (pivotRun (Matrix.of ![![2, 4, 0], ![1, 3, 0], ![1, 0, 1]] : Mat3 ℚ)).maxRowIndex1 = 1
      ∧ pivot (Matrix.of ![![2, 4, 0], ![1, 3, 0], ![1, 0, 1]] : Mat3 ℚ)
          = Matrix.of ![![2, 4, 0], ![1, 3, 0], ![1, 0, 1]] := by
  have hs0 : (pivotSearch (Matrix.of ![![2, 4, 0], ![1, 3, 0], ![1, 0, 1]] : Mat3 ℚ) 0
      [0, 1, 2] (0, -(10 : ℚ) ^ 15)).1 = 0 := by
    norm_num [pivotSearch, List.foldl, Matrix.vecHead, Matrix.vecTail]
  have hs1 : (pivotRun (Matrix.of ![![2, 4, 0], ![1, 3, 0], ![1, 0, 1]] : Mat3 ℚ)).maxRowIndex1
      = 1 := by
    rw [pivotRun_maxRowIndex1]
    norm_num [Matrix.vecHead, Matrix.vecTail]
  have hP1 : pivotSwapRows (pivotI : Mat3 ℚ) 0 0 = 1 := by
    ext i j
    fin_cases i <;> fin_cases j <;>
      simp [pivotSwapRows, pivotI, Matrix.updateRow_apply, Matrix.vecHead, Matrix.vecTail]
  have hrun0 : (pivotRun (Matrix.of ![![2, 4, 0], ![1, 3, 0], ![1, 0, 1]] : Mat3 ℚ)).maxRowIndex0
      = 0 := hs0
  have hPA : ∀ i j,
      (pivotRun (Matrix.of ![![2, 4, 0], ![1, 3, 0], ![1, 0, 1]] : Mat3 ℚ)).PA i j
        = (Matrix.of ![![2, 4, 0], ![0, 1, 0], ![0, -2, 1]] : Mat3 ℚ) i j := by
    intro i j
    simp only [pivotRun, hs0, hP1, Matrix.one_mul]
    rw [Matrix.mul_apply, Fin.sum_univ_three]
    fin_cases i <;> fin_cases j <;>
      norm_num [pivotI, Matrix.updateRow_apply, Function.update_apply, Matrix.vecHead,
        Matrix.vecTail, Fin.ext_iff]
  refine ⟨hrun0, ?_, ?_, ?_, ?_, hs1, ?_⟩
  · rw [hPA]; rfl
  · rw [hPA]; rfl
  · rw [hPA]; rfl
  · rw [hPA]; rfl
  · have hif : (pivotRun (Matrix.of ![![2, 4, 0], ![1, 3, 0], ![1, 0, 1]] : Mat3 ℚ)).maxRowIndex1
        = 1 := hs1
    simp only [pivotRun, hs0] at hif
    simp only [pivot, pivotRun, hs0, hif, ne_eq, not_true_eq_false, if_false, hP1,
      Matrix.one_mul]

/-- C19: in exact arithmetic the scalar `Det` of `inv` is the dot product of
row 0 of `A` with column 0 of the undivided matrix, it equals `det(A)` (and
the determinant of `A`), and the undivided matrix built by `inv` is the
adjugate of `A`. -/
theorem inv_det_and_adjugate {K : Type} [Field K] (fastFma : Bool) (A : Mat3 K) :
    invDet fastFma A = Matrix.dotProduct (A 0) (fun i => invUndivided fastFma A i 0)
      ∧ invDet fastFma A = det fastFma A
      ∧ invDet fastFma A = Matrix.det A
      ∧ invUndivided fastFma A = Matrix.adjugate A := by
  have hdet : det fastFma A = Matrix.det A := by
    simp only [det, det2_eq, Matrix.det_fin_three]
    ring
  refine ⟨?_, by rw [hdet, invDet_eq_det], invDet_eq_det fastFma A, ?_⟩
  · simp [invDet, invUndivided, Matrix.dotProduct, Fin.sum_univ_three]
  · rw [Matrix.adjugate_fin_three]
    ext i j
    fin_cases i <;> fin_cases j <;>
      simp [invUndivided, invFirstColumn, det2_eq] <;> ring

end mathFunctionsWENO

namespace List3D

variable {T W : Type}

/-- Every offset in `[0, X*Y*Z)` is the exact offset of an in-range triple. -/
theorem offset_surjective (X Y Z : Int) (hY : 0 < Y) (hZ : 0 < Z)
    (m : Int) (h0 : 0 ≤ m) (h1 : m < X * Y * Z) :
    ∃ i j k : Int, (0 ≤ i ∧ i < X) ∧ (0 ≤ j ∧ j < Y) ∧ (0 ≤ k ∧ k < Z)
      ∧ i * (Y * Z) + j * Z + k = m := by
  have hYZ : 0 < Y * Z := mul_pos hY hZ
  refine ⟨m / (Y * Z), (m % (Y * Z)) / Z, (m % (Y * Z)) % Z,
    ⟨?_, ?_⟩, ⟨?_, ?_⟩, ⟨?_, ?_⟩, ?_⟩
  · exact Int.ediv_nonneg h0 hYZ.le
  · apply Int.ediv_lt_of_lt_mul hYZ
    rw [mul_assoc] at h1
    exact h1
  · exact Int.ediv_nonneg (Int.emod_nonneg _ hYZ.ne') hZ.le
  · apply Int.ediv_lt_of_lt_mul hZ
    exact Int.emod_lt_of_pos _ hYZ
  · exact Int.emod_nonneg _ hZ.ne'
  · exact Int.emod_lt_of_pos _ hZ
  · have e1 := Int.ediv_add_emod m (Y * Z)
    have e2 := Int.ediv_add_emod (m % (Y * Z)) Z
    linarith [mul_comm (m / (Y * Z)) (Y * Z), mul_comm (m % (Y * Z) / Z) Z]

/-- C20 as stated fails: in a 46341 x 46341 x 1 container, whose dimensions
are positive, the in-range triple `(46340, 46340, 0)` has the exact offset
2147488280, above `INT_MAX`; the `int` index expression of `operator()` has
the value -2147479016 there, which is not an offset in
`[0, sizeX*sizeY*sizeZ)`, and `size()` reports -2147479015. -/
theorem flatIndex_leaves_int_range :
    ((0 : Int) < (⟨46341, 46341, 1, none⟩ : List3D Int).sizeX
        ∧ (0 : Int) < (⟨46341, 46341, 1, none⟩ : List3D Int).sizeY
        ∧ (0 : Int) < (⟨46341, 46341, 1, none⟩ : List3D Int).sizeZ)
      ∧ ((0 : Int) ≤ 46340 ∧ (46340 : Int) < (⟨46341, 46341, 1, none⟩ : List3D Int).sizeX)
      ∧ ((0 : Int) ≤ 46340 ∧ (46340 : Int) < (⟨46341, 46341, 1, none⟩ : List3D Int).sizeY)
      ∧ ((0 : Int) ≤ 0 ∧ (0 : Int) < (⟨46341, 46341, 1, none⟩ : List3D Int).sizeZ)
      ∧ (46340 : Int) * (46341 * 1) + 46340 * 1 + 0 = 2147488280
      ∧ intMax < 2147488280
      ∧ (⟨46341, 46341, 1, none⟩ : List3D Int).flatIndex 46340 46340 0 = -2147479016
      ∧ (⟨46341, 46341, 1, none⟩ : List3D Int).size = -2147479015
      ∧ (⟨46341, 46341, 1, none⟩ : List3D Int).flatIndex 46340 46340 0
          ∉ Set.Ico (0 : Int) ((46341 : Int) * 46341 * 1) := by
  refine ⟨by decide, by decide, by decide, by decide, by decide, by decide, by decide,
    by decide, ?_⟩
  intro h
  have h0 : (0 : Int) ≤ (⟨46341, 46341, 1, none⟩ : List3D Int).flatIndex 46340 46340 0 := h.1
  revert h0
  decide

/-- C20, amended: for positive dimensions whose product is at most `INT_MAX`,
the index map of `operator()` sends the in-range triples bijectively onto the
offsets `[0, sizeX*sizeY*sizeZ)`: every in-range triple has its offset in that
range, distinct in-range triples have distinct offsets, and every offset of
the range is reached. -/
theorem flatIndex_bijOn (L : List3D T) (hX : 0 < L.sizeX) (hY : 0 < L.sizeY)
    (hZ : 0 < L.sizeZ) (hrep : L.sizeX * L.sizeY * L.sizeZ ≤ intMax) :
    Set.BijOn (fun t : Int × Int × Int => L.flatIndex t.1 t.2.1 t.2.2)
      {t | (0 ≤ t.1 ∧ t.1 < L.sizeX) ∧ (0 ≤ t.2.1 ∧ t.2.1 < L.sizeY)
            ∧ (0 ≤ t.2.2 ∧ t.2.2 < L.sizeZ)}
      (Set.Ico 0 (L.sizeX * L.sizeY * L.sizeZ)) := by
  have hXp : 0 < L.sizeX_ := hX
  have hYp : 0 < L.sizeY_ := hY
  have hZp : 0 < L.sizeZ_ := hZ
  have hrep' : L.sizeX_ * L.sizeY_ * L.sizeZ_ ≤ intMax := hrep
  have hpos : 0 < L.sizeX_ * L.sizeY_ * L.sizeZ_ := mul_pos (mul_pos hXp hYp) hZp
  have hno : L.size = L.sizeX_ * L.sizeY_ * L.sizeZ_ :=
    fullSize_exact _ _ _ (by unfold intMin; omega) hrep'
  refine ⟨?_, ?_, ?_⟩
  · rintro ⟨i, j, k⟩ ⟨hi, hj, hk⟩
    have hb := flatIndex_bounds L hno i j k hi hj hk
    rw [hno] at hb
    exact hb
  · rintro ⟨i, j, k⟩ ⟨hi, hj, hk⟩ ⟨i', j', k'⟩ ⟨hi', hj', hk'⟩ h
    obtain ⟨h1, h2, h3⟩ := flatIndex_injective L hno i j k i' j' k' hi hj hk hi' hj' hk' h
    rw [h1, h2, h3]
  · rintro m ⟨h0, h1⟩
    obtain ⟨i, j, k, hi, hj, hk, h⟩ :=
      offset_surjective L.sizeX_ L.sizeY_ L.sizeZ_ hYp hZp m h0 h1
    refine ⟨(i, j, k), ⟨hi, hj, hk⟩, ?_⟩
    show L.flatIndex i j k = m
    rw [flatIndex_exact L hno i j k hi hj hk, h]

/-- C20 (amended), at a concrete 2x3x4 container. -/
theorem flatIndex_bijOn_witness :
    (0 : Int) < (⟨2, 3, 4, none⟩ : List3D Int).sizeX
      ∧ (0 : Int) < (⟨2, 3, 4, none⟩ : List3D Int).sizeY
      ∧ (0 : Int) < (⟨2, 3, 4, none⟩ : List3D Int).sizeZ
      ∧ (⟨2, 3, 4, none⟩ : List3D Int).sizeX * (⟨2, 3, 4, none⟩ : List3D Int).sizeY
          * (⟨2, 3, 4, none⟩ : List3D Int).sizeZ ≤ intMax
      ∧ Set.BijOn
          (fun t : Int × Int × Int => (⟨2, 3, 4, none⟩ : List3D Int).flatIndex t.1 t.2.1 t.2.2)
          {t | (0 ≤ t.1 ∧ t.1 < (⟨2, 3, 4, none⟩ : List3D Int).sizeX)
                ∧ (0 ≤ t.2.1 ∧ t.2.1 < (⟨2, 3, 4, none⟩ : List3D Int).sizeY)
                ∧ (0 ≤ t.2.2 ∧ t.2.2 < (⟨2, 3, 4, none⟩ : List3D Int).sizeZ)}
          (Set.Ico 0 ((⟨2, 3, 4, none⟩ : List3D Int).sizeX
            * (⟨2, 3, 4, none⟩ : List3D Int).sizeY * (⟨2, 3, 4, none⟩ : List3D Int).sizeZ)) :=
  ⟨by decide, by decide, by decide, by decide,
    flatIndex_bijOn (⟨2, 3, 4, none⟩ : List3D Int) (by decide) (by decide) (by decide)
      (by decide)⟩

end List3D

/-! ## Theorems: the determinant after pivot, resize and the 3-D block -/

namespace mathFunctionsWENO

theorem det_eq_matrix_det {K : Type} [Field K] (fastFma : Bool) (A : Mat3 K) :
    det fastFma A = Matrix.det A := by
  simp only [det, det2_eq, Matrix.det_fin_three]
  ring

/-- The result of `pivot` is the input with its rows reordered by a
permutation. -/
theorem pivot_eq_submatrix {K : Type} [LinearOrderedField K] (A : Mat3 K) :
    ∃ σ : Equiv.Perm (Fin 3), pivot A = A.submatrix σ id := by
  by_cases h1 : (pivotSearch A 1 [1, 2]
      ((pivotSearch A 0 [0, 1, 2] (0, -(10 : K) ^ 15)).1, -(10 : K) ^ 15)).1 = 1
  · refine ⟨Equiv.swap 0 (pivotSearch A 0 [0, 1, 2] (0, -(10 : K) ^ 15)).1, ?_⟩
    simp only [pivot, pivotRun, h1, ne_eq, not_true_eq_false, if_false]
    exact pivotSwapRows_mul _ _ _
  · refine ⟨Equiv.swap 0 (pivotSearch A 0 [0, 1, 2] (0, -(10 : K) ^ 15)).1
        * Equiv.swap 1 2, ?_⟩
    simp only [pivot, pivotRun, h1, ne_eq, not_false_eq_true, if_true]
    rw [Matrix.mul_assoc, pivotSwapRows_mul, pivotSwapRows_mul]
    rfl

/-- C21: in exact arithmetic, `det(pivot(A))` equals `det(A)` or `-det(A)`
(with either `det2` branch); hence `pivot` maps singular matrices to singular
ones and non-singular matrices to non-singular ones. -/
theorem det_pivot_eq_or_neg {K : Type} [LinearOrderedField K] (fastFma : Bool) (A : Mat3 K) :
    (det fastFma (pivot A) = det fastFma A ∨ det fastFma (pivot A) = -det fastFma A)
      ∧ (det fastFma (pivot A) = 0 ↔ det fastFma A = 0)
      ∧ (Matrix.det (pivot A) = 0 ↔ Matrix.det A = 0) := by
  obtain ⟨σ, hσ⟩ := pivot_eq_submatrix A
  have hdet : Matrix.det (pivot A) = Matrix.det A ∨ Matrix.det (pivot A) = -Matrix.det A := by
    rw [hσ, Matrix.det_permute]
    rcases Int.units_eq_one_or (Equiv.Perm.sign σ) with h | h
    · left
      simp [h]
    · right
      simp [h]
  have hzero : Matrix.det (pivot A) = 0 ↔ Matrix.det A = 0 := by
    rcases hdet with h | h
    · rw [h]
    · rw [h, neg_eq_zero]
  refine ⟨?_, ?_, hzero⟩
  · rw [det_eq_matrix_det, det_eq_matrix_det]
    exact hdet
  · rw [det_eq_matrix_det, det_eq_matrix_det]
    exact hzero

end mathFunctionsWENO

namespace List3D

variable {T W : Type}

/-- C22: there are a container and a growing `resize` that changes `sizeY`
after which a coordinate in range before and after reads a different value.
A 2x2x1 container holding `[10,20,30,40]` is resized to 2x3x1 (volume 6 > 4):
`(1,0,0)` read 30 at flat offset 2 before and reads 40 at flat offset 3 after,
in either build and whatever the new storage held. -/
theorem resize_flat_prefix_moves_block (fresh : Nat → Int) :
    ∃ (L L' : List3D Int) (x y z i j k v v' : Int),
      x * y * z > L.size
        ∧ (x ≠ L.sizeX ∨ y ≠ L.sizeY)
        ∧ ((0 ≤ i ∧ i < L.sizeX) ∧ (0 ≤ j ∧ j < L.sizeY) ∧ (0 ≤ k ∧ k < L.sizeZ))
        ∧ ((0 ≤ i ∧ i < x) ∧ (0 ≤ j ∧ j < y) ∧ (0 ≤ k ∧ k < z))
        ∧ L.BufferExact
        ∧ resize fresh L x y z = .ok L'
        ∧ (∀ fullDebug : Bool, access fullDebug L i j k = .ok v)
        ∧ (∀ fullDebug : Bool, access fullDebug L' i j k = .ok v')
        ∧ v ≠ v' := by
  refine ⟨⟨2, 2, 1, some [10, 20, 30, 40]⟩,
    ⟨2, 3, 1, some [10, 20, 30, 40, fresh 4, fresh 5]⟩, 2, 3, 1, 1, 0, 0, 30, 40,
    by decide, Or.inr (by decide), by decide, by decide, by decide, rfl, ?_, ?_, by decide⟩
  · intro fullDebug
    cases fullDebug <;> rfl
  · intro fullDebug
    cases fullDebug <;> rfl
/-- C23 as stated fails: a 1x2x1 container holding `[10, 20]` is resized to
`(2147483647, 2, 1)`, with `sizeY` and `sizeZ` unchanged and a larger
`sizeX`.  The `int` product `newSize` is -2, nothing is reallocated, and
`size()` reports -2 afterwards; in the checked build the coordinate `(0,0,0)`,
in range before the resize, read 10 before and aborts after, its flat offset
0 being greater than -2. -/
theorem resize_first_axis_overflow_aborts :
    (⟨1, 2, 1, some [10, 20]⟩ : List3D Int).BufferCovers
      ∧ (2147483647 : Int) > (⟨1, 2, 1, some [10, 20]⟩ : List3D Int).sizeX
      ∧ resize (fun _ => 0) (⟨1, 2, 1, some [10, 20]⟩ : List3D Int) 2147483647
          (⟨1, 2, 1, some [10, 20]⟩ : List3D Int).sizeY
          (⟨1, 2, 1, some [10, 20]⟩ : List3D Int).sizeZ
        = .ok ⟨2147483647, 2, 1, some [10, 20]⟩
      ∧ (⟨2147483647, 2, 1, some [10, 20]⟩ : List3D Int).size = -2
      ∧ ((0 : Int) ≤ 0 ∧ (0 : Int) < (⟨1, 2, 1, some [10, 20]⟩ : List3D Int).sizeX)
      ∧ ((0 : Int) ≤ 0 ∧ (0 : Int) < (⟨1, 2, 1, some [10, 20]⟩ : List3D Int).sizeY)
      ∧ ((0 : Int) ≤ 0 ∧ (0 : Int) < (⟨1, 2, 1, some [10, 20]⟩ : List3D Int).sizeZ)
      ∧ access true (⟨1, 2, 1, some [10, 20]⟩ : List3D Int) 0 0 0 = .ok 10
      ∧ access true (⟨2147483647, 2, 1, some [10, 20]⟩ : List3D Int) 0 0 0
        = .error Fault.abort :=
  ⟨by decide, by decide, rfl, by decide, by decide, by decide, by decide, rfl, rfl⟩

/-- C23, amended: on a container with non-negative dimensions whose buffer
covers its volume, `resize(X', sizeY, sizeZ)` with `X' > sizeX` and
`X'*sizeY*sizeZ` at most `INT_MAX` returns normally, sets `sizeX` to `X'`,
leaves `sizeY` and `sizeZ`, and every coordinate `(i,j,k)` that was in range
before reads the same value after as before, in either build. -/
theorem resize_first_axis_keeps_block (fresh : Nat → T) (L : List3D T) (X' : Int)
    (hL : L.BufferCovers) (hx : 0 ≤ L.sizeX) (hy : 0 ≤ L.sizeY) (hz : 0 ≤ L.sizeZ)
    (hX : X' > L.sizeX) (hrep : X' * L.sizeY * L.sizeZ ≤ intMax) :
    ∃ L', resize fresh L X' L.sizeY L.sizeZ = .ok L'
      ∧ L'.sizeX = X' ∧ L'.sizeY = L.sizeY ∧ L'.sizeZ = L.sizeZ
      ∧ ∀ (fullDebug : Bool) (i j k : Int),
          (0 ≤ i ∧ i < L.sizeX) → (0 ≤ j ∧ j < L.sizeY) → (0 ≤ k ∧ k < L.sizeZ) →
          ∃ v, access fullDebug L i j k = .ok v ∧ access fullDebug L' i j k = .ok v := by
  have hx' : 0 ≤ L.sizeX_ := hx
  have hy' : 0 ≤ L.sizeY_ := hy
  have hz' : 0 ≤ L.sizeZ_ := hz
  have hX' : L.sizeX_ < X' := hX
  have hrep' : X' * L.sizeY_ * L.sizeZ_ ≤ intMax := hrep
  have hsz : L.size = L.sizeX_ * (L.sizeY_ * L.sizeZ_) := by
    rw [hL.1]
    ring
  have hnewsz : X' * L.sizeY_ * L.sizeZ_ = X' * (L.sizeY_ * L.sizeZ_) := by ring
  have hYZ0 : 0 ≤ L.sizeY_ * L.sizeZ_ := mul_nonneg hy' hz'
  have hnew : 0 ≤ X' * L.sizeY_ * L.sizeZ_ := by
    rw [hnewsz]
    exact mul_nonneg (by omega) hYZ0
  have hN : fullSize X' L.sizeY_ L.sizeZ_ = X' * L.sizeY_ * L.sizeZ_ :=
    fullSize_exact _ _ _ (by unfold intMin; omega) hrep'
  by_cases hYZ : 0 < L.sizeY_ * L.sizeZ_
  · have hgrow : X' * L.sizeY_ * L.sizeZ_ > L.size := by
      rw [hsz, hnewsz]
      exact mul_lt_mul_of_pos_right hX' hYZ
    obtain ⟨l, hres, hlen, hl⟩ := resize_grow_result fresh L X' L.sizeY_ L.sizeZ_ hL
      (by omega) (by omega)
    refine ⟨⟨X', L.sizeY_, L.sizeZ_, some l⟩, hres, rfl, rfl, rfl, ?_⟩
    intro fullDebug i j k hi hj hk
    obtain ⟨h0, h1⟩ := flatIndex_bounds L hL.1 i j k hi hj hk
    obtain ⟨v, hv, hv'⟩ := access_of_offset fullDebug L i j k hL h0 h1
    have hs' : (List3D.mk X' L.sizeY_ L.sizeZ_ (some l)).size = X' * L.sizeY_ * L.sizeZ_ := hN
    have hL' : (List3D.mk X' L.sizeY_ L.sizeZ_ (some l)).BufferCovers := by
      refine ⟨hs', ?_⟩
      rw [hs']
      simp only [bufferLength]
      omega
    have hflat : (List3D.mk X' L.sizeY_ L.sizeZ_ (some l)).flatIndex i j k
        = L.flatIndex i j k := rfl
    have h1' : (List3D.mk X' L.sizeY_ L.sizeZ_ (some l)).flatIndex i j k
        < (List3D.mk X' L.sizeY_ L.sizeZ_ (some l)).size := by
      rw [hflat, hs']
      exact lt_trans h1 hgrow
    obtain ⟨w, hw, hw'⟩ := access_of_offset fullDebug _ i j k hL' (by rw [hflat]; exact h0) h1'
    have hm : (((L.flatIndex i j k).toNat : Nat) : Int) < L.size := by
      rw [Int.toNat_of_nonneg h0]
      exact h1
    have hval := (hl (L.flatIndex i j k).toNat hm).2
    rw [hflat, element?_of_data _ l rfl, hval, hv'] at hw'
    simp only [Option.some.injEq] at hw'
    exact ⟨v, hv, by rw [hw, ← hw']⟩
  · have hYZeq : L.sizeY_ * L.sizeZ_ = 0 := by omega
    have hnot : ¬ fullSize X' L.sizeY_ L.sizeZ_ > fullSize L.sizeX_ L.sizeY_ L.sizeZ_ := by
      have e1 : X' * L.sizeY_ * L.sizeZ_ = 0 := by rw [hnewsz, hYZeq, mul_zero]
      have e2 : L.size = 0 := by rw [hsz, hYZeq, mul_zero]
      have e3 : fullSize L.sizeX_ L.sizeY_ L.sizeZ_ = L.size := rfl
      omega
    refine ⟨{ L with sizeX_ := X' }, ?_, rfl, rfl, rfl, ?_⟩
    · simp only [resize, sizeY, sizeZ, if_neg hnot]
      rfl
    · intro fullDebug i j k hi hj hk
      exfalso
      have hY : 0 < L.sizeY_ := lt_of_le_of_lt hj.1 hj.2
      have hZ : 0 < L.sizeZ_ := lt_of_le_of_lt hk.1 hk.2
      exact hYZ (mul_pos hY hZ)

/-- C23 (amended), at a concrete 2x2x1 container grown to 3x2x1. -/
theorem resize_first_axis_keeps_block_witness :
    (⟨2, 2, 1, some [10, 20, 30, 40]⟩ : List3D Int).BufferCovers
      ∧ (3 : Int) > (⟨2, 2, 1, some [10, 20, 30, 40]⟩ : List3D Int).sizeX
      ∧ (3 : Int) * (⟨2, 2, 1, some [10, 20, 30, 40]⟩ : List3D Int).sizeY
          * (⟨2, 2, 1, some [10, 20, 30, 40]⟩ : List3D Int).sizeZ ≤ intMax
      ∧ ∃ L', resize (fun _ => 0) (⟨2, 2, 1, some [10, 20, 30, 40]⟩ : List3D Int) 3
              (⟨2, 2, 1, some [10, 20, 30, 40]⟩ : List3D Int).sizeY
              (⟨2, 2, 1, some [10, 20, 30, 40]⟩ : List3D Int).sizeZ = .ok L'
          ∧ L'.sizeX = 3
          ∧ L'.sizeY = (⟨2, 2, 1, some [10, 20, 30, 40]⟩ : List3D Int).sizeY
          ∧ L'.sizeZ = (⟨2, 2, 1, some [10, 20, 30, 40]⟩ : List3D Int).sizeZ
          ∧ ∀ (fullDebug : Bool) (i j k : Int),
              (0 ≤ i ∧ i < (⟨2, 2, 1, some [10, 20, 30, 40]⟩ : List3D Int).sizeX) →
              (0 ≤ j ∧ j < (⟨2, 2, 1, some [10, 20, 30, 40]⟩ : List3D Int).sizeY) →
              (0 ≤ k ∧ k < (⟨2, 2, 1, some [10, 20, 30, 40]⟩ : List3D Int).sizeZ) →
              ∃ v, access fullDebug (⟨2, 2, 1, some [10, 20, 30, 40]⟩ : List3D Int) i j k = .ok v
                ∧ access fullDebug L' i j k = .ok v :=
  ⟨by decide, by decide, by decide,
    resize_first_axis_keeps_block (fun _ => 0) (⟨2, 2, 1, some [10, 20, 30, 40]⟩ : List3D Int) 3
      (by decide) (by decide) (by decide) (by decide) (by decide) (by decide)⟩

end List3D

/-! ## Theorems: `det2` in `double` -/

namespace mathFunctionsWENO

/-- Rounding to the nearest integer moves a number by at most 1/2. -/
theorem roundHalfEven_abs_sub_le (q : ℚ) : |(roundHalfEven q : ℚ) - q| ≤ 1 / 2 := by
  have h0 : (⌊q⌋ : ℚ) ≤ q := Int.floor_le q
  have h1 : q < (⌊q⌋ : ℚ) + 1 := Int.lt_floor_add_one q
  unfold roundHalfEven
  split_ifs with ha hb hc
  · rw [abs_le]
    constructor <;> linarith
  · push_cast
    rw [abs_le]
    constructor <;> linarith
  · have he : q - ⌊q⌋ = 1 / 2 := le_antisymm (not_lt.mp hb) (not_lt.mp ha)
    rw [abs_le]
    constructor <;> linarith
  · have he : q - ⌊q⌋ = 1 / 2 := le_antisymm (not_lt.mp hb) (not_lt.mp ha)
    push_cast
    rw [abs_le]
    constructor <;> linarith

/-- An integer is its own rounding. -/
theorem roundHalfEven_intCast (z : ℤ) : roundHalfEven (z : ℚ) = z := by
  unfold roundHalfEven
  simp

/-- Rounding to the nearest integer does not cross an integer. -/
theorem roundHalfEven_mono_int (q : ℚ) (z : ℤ) :
    ((z : ℚ) ≤ q → z ≤ roundHalfEven q) ∧ (q ≤ (z : ℚ) → roundHalfEven q ≤ z) := by
  have h0 : (⌊q⌋ : ℚ) ≤ q := Int.floor_le q
  have h1 : q < (⌊q⌋ : ℚ) + 1 := Int.lt_floor_add_one q
  constructor
  · intro h
    have hz : z ≤ ⌊q⌋ := Int.le_floor.mpr h
    unfold roundHalfEven
    split_ifs <;> omega
  · intro h
    unfold roundHalfEven
    split_ifs with ha hb hc
    · exact Int.cast_le.mp (le_trans h0 h)
    · have : (⌊q⌋ : ℚ) < z := by linarith
      have : ⌊q⌋ < z := Int.cast_lt.mp this
      omega
    · exact Int.cast_le.mp (le_trans h0 h)
    · have he : q - ⌊q⌋ = 1 / 2 := le_antisymm (not_lt.mp hb) (not_lt.mp ha)
      have : (⌊q⌋ : ℚ) < z := by linarith
      have : ⌊q⌋ < z := Int.cast_lt.mp this
      omega

theorem ulp_pos (x : ℚ) : 0 < ulp x := by
  unfold ulp
  positivity

/-- The logarithm of a positive rational is the exponent of its binade. -/
theorem log_two_eq (r : ℚ) (e : ℤ) (h0 : (2 : ℚ) ^ e ≤ r) (h1 : r < (2 : ℚ) ^ (e + 1)) :
    Int.log 2 r = e := by
  have hr : 0 < r := lt_of_lt_of_le (by positivity) h0
  have ha : e ≤ Int.log 2 r := by
    have := (Int.zpow_le_iff_le_log (b := 2) (by norm_num) hr (x := e)).mp (by exact_mod_cast h0)
    exact this
  have hb : Int.log 2 r < e + 1 := by
    have := (Int.lt_zpow_iff_log_lt (b := 2) (by norm_num) hr (x := e + 1)).mp
      (by exact_mod_cast h1)
    exact this
  omega

/-- A non-zero rational lies in the binade of its logarithm. -/
theorem binade_of_ne_zero (x : ℚ) (hx : x ≠ 0) :
    (2 : ℚ) ^ (Int.log 2 |x|) ≤ |x| ∧ |x| < (2 : ℚ) ^ (Int.log 2 |x| + 1) := by
  have hpos : 0 < |x| := abs_pos.mpr hx
  constructor
  · have := Int.zpow_log_le_self (b := 2) (by norm_num) hpos
    exact_mod_cast this
  · have := Int.lt_zpow_succ_log_self (b := 2) (by norm_num) |x|
    exact_mod_cast this

/-- The value of `ulp` on the binade of exponent `e`. -/
theorem ulp_eq (x : ℚ) (e : ℤ) (h0 : (2 : ℚ) ^ e ≤ |x|) (h1 : |x| < (2 : ℚ) ^ (e + 1)) :
    ulp x = (2 : ℚ) ^ (e - 52) := by
  unfold ulp
  rw [log_two_eq |x| e h0 h1]

theorem two_zpow_mul_52 (e : ℤ) : (4503599627370496 : ℚ) * (2 : ℚ) ^ (e - 52) = (2 : ℚ) ^ e := by
  have h : (4503599627370496 : ℚ) = (2 : ℚ) ^ (52 : ℤ) := by norm_num
  rw [h, ← zpow_add₀ (by norm_num : (2 : ℚ) ≠ 0)]
  congr 1
  ring

theorem two_zpow_mul_53 (e : ℤ) :
    (9007199254740992 : ℚ) * (2 : ℚ) ^ (e - 52) = (2 : ℚ) ^ (e + 1) := by
  have h : (9007199254740992 : ℚ) = (2 : ℚ) ^ (53 : ℤ) := by norm_num
  rw [h, ← zpow_add₀ (by norm_num : (2 : ℚ) ≠ 0)]
  congr 1
  ring

/-- The nearest `double` lies within half a unit in the last place. -/
theorem roundDouble_abs_sub_le (x : ℚ) : |roundDouble x - x| ≤ ulp x / 2 := by
  have hs := ulp_pos x
  unfold roundDouble
  split_ifs with hx
  · subst hx
    simp only [sub_self, abs_zero]
    positivity
  · have h := roundHalfEven_abs_sub_le (x / ulp x)
    have e1 : (roundHalfEven (x / ulp x) : ℚ) * ulp x - x
        = ((roundHalfEven (x / ulp x) : ℚ) - x / ulp x) * ulp x := by
      field_simp
    rw [e1, abs_mul, abs_of_pos hs]
    calc |(roundHalfEven (x / ulp x) : ℚ) - x / ulp x| * ulp x ≤ 1 / 2 * ulp x :=
          mul_le_mul_of_nonneg_right h hs.le
      _ = ulp x / 2 := by ring

/-- A number whose significand has 53 bits is a `double`: an integer `M` with
`2^52 ≤ |M| ≤ 2^53` times a power of two is its own rounding. -/
theorem roundDouble_of_significand (M e : ℤ) (h0 : 4503599627370496 ≤ |M|)
    (h1 : |M| ≤ 9007199254740992) :
    roundDouble ((M : ℚ) * (2 : ℚ) ^ (e - 52)) = (M : ℚ) * (2 : ℚ) ^ (e - 52) := by
  have hp : (0 : ℚ) < (2 : ℚ) ^ (e - 52) := by positivity
  have hM0 : (4503599627370496 : ℚ) ≤ |(M : ℚ)| := by exact_mod_cast h0
  have hM1 : |(M : ℚ)| ≤ (9007199254740992 : ℚ) := by exact_mod_cast h1
  have hMne : (M : ℚ) ≠ 0 := by
    intro h
    rw [h, abs_zero] at hM0
    norm_num at hM0
  have hx : (M : ℚ) * (2 : ℚ) ^ (e - 52) ≠ 0 := mul_ne_zero hMne hp.ne'
  have habs : |(M : ℚ) * (2 : ℚ) ^ (e - 52)| = |(M : ℚ)| * (2 : ℚ) ^ (e - 52) := by
    rw [abs_mul, abs_of_pos hp]
  by_cases hlt : |M| < 9007199254740992
  · have hM1' : |(M : ℚ)| < (9007199254740992 : ℚ) := by exact_mod_cast hlt
    have hu : ulp ((M : ℚ) * (2 : ℚ) ^ (e - 52)) = (2 : ℚ) ^ (e - 52) := by
      apply ulp_eq
      · rw [habs, ← two_zpow_mul_52 e]
        exact mul_le_mul_of_nonneg_right hM0 hp.le
      · rw [habs, ← two_zpow_mul_53 e]
        exact mul_lt_mul_of_pos_right hM1' hp
    unfold roundDouble
    rw [if_neg hx, hu, mul_div_assoc, div_self hp.ne', mul_one, roundHalfEven_intCast]
  · have hMeq : |M| = 9007199254740992 := by omega
    have hMq : |(M : ℚ)| = (9007199254740992 : ℚ) := by exact_mod_cast hMeq
    have hu : ulp ((M : ℚ) * (2 : ℚ) ^ (e - 52)) = (2 : ℚ) ^ (e + 1 - 52) := by
      apply ulp_eq
      · rw [habs, hMq, two_zpow_mul_53 e]
      · rw [habs, hMq, two_zpow_mul_53 e]
        exact zpow_lt_zpow_right₀ (by norm_num) (by omega)
    have h2 : (2 : ℚ) ^ (e + 1 - 52) = 2 * (2 : ℚ) ^ (e - 52) := by
      rw [show e + 1 - 52 = 1 + (e - 52) by ring, zpow_add₀ (by norm_num : (2 : ℚ) ≠ 0),
        zpow_one]
    have hhalf : (M : ℚ) = ((M / 2 : ℤ) : ℚ) * 2 := by
      have : M = M / 2 * 2 := by
        rcases abs_cases M with ⟨h, _⟩ | ⟨h, _⟩ <;> omega
      exact_mod_cast this
    unfold roundDouble
    rw [if_neg hx, hu, h2]
    have hq : (M : ℚ) * (2 : ℚ) ^ (e - 52) / (2 * (2 : ℚ) ^ (e - 52)) = ((M / 2 : ℤ) : ℚ) := by
      rw [hhalf]
      field_simp
      ring
    rw [hq, roundHalfEven_intCast]
    conv_rhs => rw [hhalf]
    ring

/-- The nearest `double` of a non-zero number has a significand of 53 bits. -/
theorem roundDouble_significand (x : ℚ) (hx : x ≠ 0) :
    ∃ M : ℤ, 4503599627370496 ≤ |M| ∧ |M| ≤ 9007199254740992
      ∧ roundDouble x = (M : ℚ) * (2 : ℚ) ^ (Int.log 2 |x| - 52) := by
  obtain ⟨hb0, hb1⟩ := binade_of_ne_zero x hx
  have hs : (0 : ℚ) < (2 : ℚ) ^ (Int.log 2 |x| - 52) := by positivity
  have hy0 : (4503599627370496 : ℚ) ≤ |x| / (2 : ℚ) ^ (Int.log 2 |x| - 52) := by
    rw [le_div_iff₀ hs, two_zpow_mul_52]
    exact hb0
  have hy1 : |x| / (2 : ℚ) ^ (Int.log 2 |x| - 52) ≤ (9007199254740992 : ℚ) := by
    rw [div_le_iff₀ hs, two_zpow_mul_53]
    exact hb1.le
  have key : ∀ s : ℚ, 0 < s → (4503599627370496 : ℚ) ≤ |x| / s →
      |x| / s ≤ (9007199254740992 : ℚ) →
      4503599627370496 ≤ |roundHalfEven (x / s)|
        ∧ |roundHalfEven (x / s)| ≤ 9007199254740992 := by
    intro s hs hy0 hy1
    rcases lt_or_gt_of_ne hx with hneg | hpos
    · rw [abs_of_neg hneg, neg_div] at hy0 hy1
      have hy : x / s ≤ ((-4503599627370496 : ℤ) : ℚ) := by
        push_cast
        linarith
      have hy' : ((-9007199254740992 : ℤ) : ℚ) ≤ x / s := by
        push_cast
        linarith
      have h1 := (roundHalfEven_mono_int _ _).2 hy
      have h2 := (roundHalfEven_mono_int _ _).1 hy'
      rw [abs_of_nonpos (by omega)]
      constructor <;> omega
    · rw [abs_of_pos hpos] at hy0 hy1
      have hy : ((4503599627370496 : ℤ) : ℚ) ≤ x / s := by
        push_cast
        exact hy0
      have hy' : x / s ≤ ((9007199254740992 : ℤ) : ℚ) := by
        push_cast
        exact hy1
      have h1 := (roundHalfEven_mono_int _ _).1 hy
      have h2 := (roundHalfEven_mono_int _ _).2 hy'
      rw [abs_of_nonneg (by omega)]
      constructor <;> omega
  obtain ⟨k0, k1⟩ := key _ hs hy0 hy1
  refine ⟨roundHalfEven (x / (2 : ℚ) ^ (Int.log 2 |x| - 52)), k0, k1, ?_⟩
  unfold roundDouble ulp
  rw [if_neg hx]

/-- A `double` is its own rounding. -/
theorem roundDouble_idem (x : ℚ) : roundDouble (roundDouble x) = roundDouble x := by
  by_cases hx : x = 0
  · subst hx
    simp [roundDouble]
  · obtain ⟨M, h0, h1, hM⟩ := roundDouble_significand x hx
    rw [hM]
    exact roundDouble_of_significand M _ h0 h1

/-- The nearest `double` of a number of the binade of exponent `e`. -/
theorem roundDouble_eq (x : ℚ) (e M : ℤ) (h0 : (2 : ℚ) ^ e ≤ |x|)
    (h1 : |x| < (2 : ℚ) ^ (e + 1)) (hM : roundHalfEven (x / (2 : ℚ) ^ (e - 52)) = M) :
    roundDouble x = (M : ℚ) * (2 : ℚ) ^ (e - 52) := by
  have hx : x ≠ 0 := by
    intro h
    rw [h, abs_zero] at h0
    exact absurd h0 (not_le.mpr (by positivity))
  unfold roundDouble
  rw [if_neg hx, ulp_eq x e h0 h1, hM]

/-- A number written with a significand of 53 bits is a `double`. -/
theorem roundDouble_eq_self (x : ℚ) (M e : ℤ) (hx : x = (M : ℚ) * (2 : ℚ) ^ (e - 52))
    (h0 : 4503599627370496 ≤ |M|) (h1 : |M| ≤ 9007199254740992) : roundDouble x = x := by
  rw [hx]
  exact roundDouble_of_significand M e h0 h1

theorem roundHalfEven_eq_floor (q : ℚ) (z : ℤ) (h0 : (z : ℚ) ≤ q) (h1 : q - z < 1 / 2) :
    roundHalfEven q = z := by
  have hf : ⌊q⌋ = z := by
    rw [Int.floor_eq_iff]
    constructor
    · exact h0
    · linarith
  unfold roundHalfEven
  rw [hf, if_pos h1]

theorem roundDouble_zero : roundDouble 0 = 0 := by
  simp [roundDouble]

/-- The products of the four inputs `2^27 + 1`, `2^27 + 1`, `2^27`, `2^27 + 2`
and their nearest `double`s: `c*b = 2^54 + 2^28` is a `double`, and
`a*d = 2^54 + 2^28 + 1` is rounded to it. -/
theorem roundDouble_near_products :
    roundDouble ((134217728 : ℚ) * 134217730) = 18014398777917440
      ∧ roundDouble ((134217729 : ℚ) * 134217729) = 18014398777917440 := by
  constructor
  · have h := roundDouble_eq_self ((134217728 : ℚ) * 134217730) 4503599694479360 54
      (by norm_num) (by decide) (by decide)
    rw [h]
    norm_num
  · have h := roundDouble_eq ((134217729 : ℚ) * 134217729) 54 4503599694479360
      (by norm_num) (by norm_num)
      (roundHalfEven_eq_floor _ _ (by norm_num) (by norm_num))
    rw [h]
    norm_num

/-- C17 as stated fails on the path taken when `FP_FAST_FMA` is not defined.
The inputs `a = d = 2^27 + 1`, `c = 2^27`, `b = 2^27 + 2` are `double`s; the
products `a*d = 2^54 + 2^28 + 1` and `c*b = 2^54 + 2^28` differ by 1, less
than one unit in the last place (4) of either; both are rounded to
`2^54 + 2^28`, so `(a*d) - cb` returns 0 while the exact value is 1: the error
is 1, against a unit in the last place of `2^-52` at the magnitude of the
result.  The compensated path returns 1 on the same inputs. -/
theorem det2Double_fallback_cancels :
    (roundDouble 134217729 = 134217729 ∧ roundDouble 134217728 = 134217728
        ∧ roundDouble 134217730 = 134217730)
      ∧ |(134217729 : ℚ) * 134217729 - 134217728 * 134217730|
          ≤ ulp ((134217729 : ℚ) * 134217729)
      ∧ |(134217729 : ℚ) * 134217729 - 134217728 * 134217730|
          ≤ ulp ((134217728 : ℚ) * 134217730)
      ∧ (134217729 : ℚ) * 134217729 - 134217728 * 134217730 = 1
      ∧ det2Double false 134217729 134217729 134217728 134217730 = 0
      ∧ ulp ((134217729 : ℚ) * 134217729 - 134217728 * 134217730)
          < |det2Double false 134217729 134217729 134217728 134217730
              - ((134217729 : ℚ) * 134217729 - 134217728 * 134217730)|
      ∧ det2Double true 134217729 134217729 134217728 134217730 = 1 := by
  obtain ⟨hcb, had⟩ := roundDouble_near_products
  have h1 : roundDouble (1 : ℚ) = 1 :=
    roundDouble_eq_self 1 4503599627370496 0 (by norm_num) (by decide) (by decide)
  have hu1 : ulp (1 : ℚ) = (2 : ℚ) ^ ((0 : ℤ) - 52) :=
    ulp_eq 1 0 (by norm_num) (by norm_num)
  have hplain : det2Double false 134217729 134217729 134217728 134217730 = 0 := by
    simp only [det2Double, Bool.false_eq_true, if_false, hcb, had, sub_self, roundDouble_zero]
  have hfma : det2Double true 134217729 134217729 134217728 134217730 = 1 := by
    simp only [det2Double, fmaDouble, if_true, hcb]
    norm_num [roundDouble_zero, h1]
  refine ⟨⟨?_, ?_, ?_⟩, ?_, ?_, by norm_num, hplain, ?_, hfma⟩
  · exact roundDouble_eq_self 134217729 4503599660924928 27 (by norm_num) (by decide)
      (by decide)
  · exact roundDouble_eq_self 134217728 4503599627370496 27 (by norm_num) (by decide)
      (by decide)
  · exact roundDouble_eq_self 134217730 4503599694479360 27 (by norm_num) (by decide)
      (by decide)
  · rw [ulp_eq ((134217729 : ℚ) * 134217729) 54 (by norm_num) (by norm_num)]
    norm_num
  · rw [ulp_eq ((134217728 : ℚ) * 134217730) 54 (by norm_num) (by norm_num)]
    norm_num
  · rw [hplain]
    have e : (134217729 : ℚ) * 134217729 - 134217728 * 134217730 = 1 := by norm_num
    rw [e, hu1]
    norm_num

/-- Rounding keeps a number on its grid: the nearest `double` of `n * 2^t` is
`m * 2^t` for an integer `m`, equal to `n` when `|n| < 2^52`, and otherwise a
multiple of `2^J` within `2^J / 2` of `n`, where `2^(52+J) ≤ |n| < 2^(53+J)`. -/
theorem roundDouble_grid (n t : ℤ) :
    ∃ m : ℤ, roundDouble ((n : ℚ) * (2 : ℚ) ^ t) = (m : ℚ) * (2 : ℚ) ^ t
      ∧ ((|n| < 4503599627370496 ∧ m = n)
        ∨ ∃ J : ℕ, 4503599627370496 * 2 ^ J ≤ |n| ∧ |n| < 9007199254740992 * 2 ^ J
            ∧ (2 : ℤ) ^ J ∣ m ∧ 2 * |m - n| ≤ 2 ^ J) := by
  by_cases hn : n = 0
  · subst hn
    exact ⟨0, by simp [roundDouble_zero], Or.inl ⟨by norm_num, rfl⟩⟩
  have hg : (0 : ℚ) < (2 : ℚ) ^ t := by positivity
  have hnq : (n : ℚ) ≠ 0 := by exact_mod_cast hn
  have hy : (n : ℚ) * (2 : ℚ) ^ t ≠ 0 := mul_ne_zero hnq hg.ne'
  obtain ⟨hb0, hb1⟩ := binade_of_ne_zero _ hy
  have hulp := ulp_eq _ _ hb0 hb1
  generalize Int.log 2 |(n : ℚ) * (2 : ℚ) ^ t| = e at hb0 hb1 hulp
  have hu : (0 : ℚ) < (2 : ℚ) ^ (e - 52) := by positivity
  rw [← two_zpow_mul_52 e] at hb0
  rw [← two_zpow_mul_53 e] at hb1
  rw [abs_mul, abs_of_pos hg] at hb0 hb1
  by_cases hj : e - 52 - t < 0
  · obtain ⟨J, hJ⟩ := Int.eq_ofNat_of_zero_le (by omega : 0 ≤ t - (e - 52) - 1)
    have ht : (2 : ℚ) ^ t = 2 * (2 : ℚ) ^ J * (2 : ℚ) ^ (e - 52) := by
      have : t = 1 + (J : ℤ) + (e - 52) := by omega
      rw [this, zpow_add₀ (by norm_num : (2 : ℚ) ≠ 0), zpow_add₀ (by norm_num : (2 : ℚ) ≠ 0),
        zpow_one, zpow_natCast]
    have hM : (n : ℚ) * (2 : ℚ) ^ t = ((n * (2 * 2 ^ J) : ℤ) : ℚ) * (2 : ℚ) ^ (e - 52) := by
      rw [ht]
      push_cast
      ring
    have hpJ : (1 : ℤ) ≤ 2 ^ J := one_le_pow₀ (by norm_num)
    have habsM : |n * (2 * 2 ^ J)| = |n| * (2 * 2 ^ J) := by
      rw [abs_mul, abs_of_pos (by positivity : (0 : ℤ) < 2 * 2 ^ J)]
    have h0 : (4503599627370496 : ℚ) ≤ ((|n * (2 * 2 ^ J)| : ℤ) : ℚ) := by
      rw [habsM]
      push_cast
      rw [ht] at hb0
      have := le_of_mul_le_mul_right (by linarith : (4503599627370496 : ℚ) * 2 ^ (e - 52)
        ≤ (|(n : ℚ)| * (2 * 2 ^ J)) * 2 ^ (e - 52)) hu
      exact this
    have h1 : ((|n * (2 * 2 ^ J)| : ℤ) : ℚ) < (9007199254740992 : ℚ) := by
      rw [habsM]
      push_cast
      rw [ht] at hb1
      have := lt_of_mul_lt_mul_right (by linarith : (|(n : ℚ)| * (2 * 2 ^ J)) * 2 ^ (e - 52)
        < (9007199254740992 : ℚ) * 2 ^ (e - 52)) hu.le
      exact this
    have h0' : 4503599627370496 ≤ |n * (2 * 2 ^ J)| := by exact_mod_cast h0
    have h1' : |n * (2 * 2 ^ J)| < 9007199254740992 := by exact_mod_cast h1
    refine ⟨n, ?_, Or.inl ⟨?_, rfl⟩⟩
    · rw [hM]
      exact roundDouble_of_significand _ e h0' h1'.le
    · rw [habsM] at h1'
      have hnn : 0 ≤ |n| := abs_nonneg n
      nlinarith
  · obtain ⟨J, hJ⟩ := Int.eq_ofNat_of_zero_le (by omega : 0 ≤ e - 52 - t)
    have hue : (2 : ℚ) ^ (e - 52) = (2 : ℚ) ^ J * (2 : ℚ) ^ t := by
      have : e - 52 = (J : ℤ) + t := by omega
      rw [this, zpow_add₀ (by norm_num : (2 : ℚ) ≠ 0), zpow_natCast]
    obtain ⟨M, -, -, hM⟩ := roundDouble_significand _ hy
    have herr := roundDouble_abs_sub_le ((n : ℚ) * (2 : ℚ) ^ t)
    rw [hulp] at herr
    have hlog : Int.log 2 |(n : ℚ) * (2 : ℚ) ^ t| = e := by
      apply log_two_eq
      · rw [← two_zpow_mul_52 e, abs_mul, abs_of_pos hg]
        exact hb0
      · rw [← two_zpow_mul_53 e, abs_mul, abs_of_pos hg]
        exact hb1
    rw [hlog] at hM
    rw [hM, hue] at herr
    rw [hue] at hb0 hb1 hM
    have hpJ : (0 : ℚ) < (2 : ℚ) ^ J := by positivity
    refine ⟨M * 2 ^ J, ?_, Or.inr ⟨J, ?_, ?_, Dvd.intro_left M rfl, ?_⟩⟩
    · rw [hM]
      push_cast
      ring
    · have := le_of_mul_le_mul_right (by linarith : (4503599627370496 * (2 : ℚ) ^ J) * 2 ^ t
        ≤ |(n : ℚ)| * 2 ^ t) hg
      exact_mod_cast this
    · have := lt_of_mul_lt_mul_right (by linarith : |(n : ℚ)| * 2 ^ t
        < (9007199254740992 * (2 : ℚ) ^ J) * 2 ^ t) hg.le
      exact_mod_cast this
    · have e1 : (M : ℚ) * ((2 : ℚ) ^ J * (2 : ℚ) ^ t) - (n : ℚ) * (2 : ℚ) ^ t
          = (((M * 2 ^ J - n : ℤ)) : ℚ) * (2 : ℚ) ^ t := by
        push_cast
        ring
      rw [e1, abs_mul, abs_of_pos hg] at herr
      have := le_of_mul_le_mul_right (by linarith : (2 * |((M * 2 ^ J - n : ℤ) : ℚ)|) * 2 ^ t
        ≤ ((2 : ℚ) ^ J) * 2 ^ t) hg
      exact_mod_cast this

/-- Rounding of `n * 2^t` for an integer `n` by the size of `n`: exact below
`2^53`, to an even integer within 1 below `2^54`, to a multiple of 4 within 2
below `2^55`. -/
theorem roundDouble_grid_small (n t : ℤ) :
    ∃ m : ℤ, roundDouble ((n : ℚ) * (2 : ℚ) ^ t) = (m : ℚ) * (2 : ℚ) ^ t
      ∧ (((-9007199254740992 < n ∧ n < 9007199254740992) ∧ m = n)
        ∨ ((n ≤ -9007199254740992 ∨ 9007199254740992 ≤ n)
            ∧ (-18014398509481984 < n ∧ n < 18014398509481984)
            ∧ m % 2 = 0 ∧ (-1 ≤ m - n ∧ m - n ≤ 1))
        ∨ ((n ≤ -18014398509481984 ∨ 18014398509481984 ≤ n)
            ∧ (-36028797018963968 < n ∧ n < 36028797018963968)
            ∧ m % 4 = 0 ∧ (-2 ≤ m - n ∧ m - n ≤ 2))
        ∨ (n ≤ -36028797018963968 ∨ 36028797018963968 ≤ n)) := by
  obtain ⟨m, hm, h⟩ := roundDouble_grid n t
  refine ⟨m, hm, ?_⟩
  rcases h with ⟨h1, h2⟩ | ⟨J, h1, h2, h3, h4⟩
  · rw [abs_lt] at h1
    left
    exact ⟨⟨by omega, by omega⟩, h2⟩
  · rcases J with _ | _ | _ | J
    · norm_num at h1 h2 h3 h4
      rw [abs_lt] at h2
      have h5 : |m - n| ≤ 0 := by omega
      have h6 : m - n = 0 := abs_nonpos_iff.mp h5
      left
      exact ⟨⟨by omega, by omega⟩, by omega⟩
    · norm_num at h1 h2 h3 h4
      rw [le_abs'] at h1
      rw [abs_lt] at h2
      have h5 : |m - n| ≤ 1 := by omega
      rw [abs_le] at h5
      right; left
      exact ⟨by omega, by omega, by omega, by omega⟩
    · norm_num at h1 h2 h3 h4
      rw [le_abs'] at h1
      rw [abs_lt] at h2
      have h5 : |m - n| ≤ 2 := by omega
      rw [abs_le] at h5
      right; right; left
      exact ⟨by omega, by omega, by omega, by omega⟩
    · have hp : (1 : ℤ) ≤ 2 ^ J := one_le_pow₀ (by norm_num)
      have h5 : 36028797018963968 ≤ |n| := by
        have : (4503599627370496 : ℤ) * 2 ^ (J + 1 + 1 + 1) = 36028797018963968 * 2 ^ J := by
          ring
        rw [this] at h1
        omega
      rw [le_abs'] at h5
      right; right; right
      exact h5

/-- Rounding of `n * 2^t` for an integer `n` with `2^105 ≤ |n| < 2^107`: to a
multiple of `2^53` within `2^52` below `2^106`, and to a multiple of `2^54`
within `2^53` from `2^106` on. -/
theorem roundDouble_grid_product (n t : ℤ)
    (h0 : n ≤ -40564819207303340847894502572032 ∨ 40564819207303340847894502572032 ≤ n)
    (h1 : -162259276829213363391578010288128 < n ∧ n < 162259276829213363391578010288128) :
    ∃ m : ℤ, roundDouble ((n : ℚ) * (2 : ℚ) ^ t) = (m : ℚ) * (2 : ℚ) ^ t
      ∧ (((-81129638414606681695789005144064 < n ∧ n < 81129638414606681695789005144064)
            ∧ m % 9007199254740992 = 0
            ∧ (-4503599627370496 ≤ m - n ∧ m - n ≤ 4503599627370496))
        ∨ ((n ≤ -81129638414606681695789005144064 ∨ 81129638414606681695789005144064 ≤ n)
            ∧ m % 18014398509481984 = 0
            ∧ (-9007199254740992 ≤ m - n ∧ m - n ≤ 9007199254740992))) := by
  obtain ⟨m, hm, h⟩ := roundDouble_grid n t
  refine ⟨m, hm, ?_⟩
  have hn0 : 40564819207303340847894502572032 ≤ |n| := by
    rw [le_abs']
    exact h0
  have hn1 : |n| < 162259276829213363391578010288128 := by
    rw [abs_lt]
    exact h1
  rcases h with ⟨h2, -⟩ | ⟨J, h2, h3, h4, h5⟩
  · omega
  · have hJ0 : 52 < J := by
      by_contra hc
      have : (2 : ℤ) ^ J ≤ 2 ^ 52 := pow_le_pow_right₀ (by norm_num) (by omega)
      norm_num at this
      omega
    have hJ1 : J < 55 := by
      by_contra hc
      have : (2 : ℤ) ^ 55 ≤ 2 ^ J := pow_le_pow_right₀ (by norm_num) (by omega)
      norm_num at this
      omega
    interval_cases J
    · norm_num at h2 h3 h4 h5
      rw [abs_lt] at h3
      have h6 : |m - n| ≤ 4503599627370496 := by omega
      rw [abs_le] at h6
      left
      exact ⟨h3, by omega, h6⟩
    · norm_num at h2 h3 h4 h5
      rw [le_abs'] at h2
      have h6 : |m - n| ≤ 9007199254740992 := by omega
      rw [abs_le] at h6
      right
      exact ⟨h2, by omega, h6⟩

/-- The integer core of the error analysis of the compensated `det2`.  On the
grid whose unit is `2^-106` times the larger binade of the two products, `p`
and `q` are the products, `w` the rounded `q`, `z = p - w` the exact value of
`dop`, `f` its rounding, `s = f + (w - q)` the exact value of the final sum
and `x` its rounding.  The result `x` differs from `p - q` by at most 1, 2 or
4 units according to the size of `p - q`, and not at all below `2^52`. -/
theorem det2_grid_error (p q w z f s x : ℤ)
    (hp : (p ≤ -40564819207303340847894502572032 ∨ 40564819207303340847894502572032 ≤ p)
      ∧ (-162259276829213363391578010288128 < p ∧ p < 162259276829213363391578010288128))
    (hq : (q ≤ -40564819207303340847894502572032 ∨ 40564819207303340847894502572032 ≤ q)
      ∧ (-162259276829213363391578010288128 < q ∧ q < 162259276829213363391578010288128))
    (hp2 : p % 2 = 0 ∨ p = 81129638414606663681390495662081
      ∨ p = -81129638414606663681390495662081
      ∨ (-81129638414606663681390495662080 < p ∧ p < 81129638414606663681390495662080))
    (hq2 : q % 2 = 0 ∨ q = 81129638414606663681390495662081
      ∨ q = -81129638414606663681390495662081
      ∨ (-81129638414606663681390495662080 < q ∧ q < 81129638414606663681390495662080))
    (hE : (p ≤ -81129638414606681695789005144064 ∨ 81129638414606681695789005144064 ≤ p)
      ∨ (q ≤ -81129638414606681695789005144064 ∨ 81129638414606681695789005144064 ≤ q))
    (hH : (-18014398509481984 ≤ p - q ∧ p - q ≤ 18014398509481984))
    (hw : ((-81129638414606681695789005144064 < q ∧ q < 81129638414606681695789005144064)
          ∧ w % 9007199254740992 = 0
          ∧ (-4503599627370496 ≤ w - q ∧ w - q ≤ 4503599627370496))
      ∨ ((q ≤ -81129638414606681695789005144064 ∨ 81129638414606681695789005144064 ≤ q)
          ∧ w % 18014398509481984 = 0
          ∧ (-9007199254740992 ≤ w - q ∧ w - q ≤ 9007199254740992)))
    (hz : z = p - w)
    (hf : ((-9007199254740992 < z ∧ z < 9007199254740992) ∧ f = z)
      ∨ ((z ≤ -9007199254740992 ∨ 9007199254740992 ≤ z)
          ∧ (-18014398509481984 < z ∧ z < 18014398509481984)
          ∧ f % 2 = 0 ∧ (-1 ≤ f - z ∧ f - z ≤ 1))
      ∨ ((z ≤ -18014398509481984 ∨ 18014398509481984 ≤ z)
          ∧ (-36028797018963968 < z ∧ z < 36028797018963968)
          ∧ f % 4 = 0 ∧ (-2 ≤ f - z ∧ f - z ≤ 2))
      ∨ (z ≤ -36028797018963968 ∨ 36028797018963968 ≤ z))
    (hs : s = f + (w - q))
    (hx : ((-9007199254740992 < s ∧ s < 9007199254740992) ∧ x = s)
      ∨ ((s ≤ -9007199254740992 ∨ 9007199254740992 ≤ s)
          ∧ (-18014398509481984 < s ∧ s < 18014398509481984)
          ∧ x % 2 = 0 ∧ (-1 ≤ x - s ∧ x - s ≤ 1))
      ∨ ((s ≤ -18014398509481984 ∨ 18014398509481984 ≤ s)
          ∧ (-36028797018963968 < s ∧ s < 36028797018963968)
          ∧ x % 4 = 0 ∧ (-2 ≤ x - s ∧ x - s ≤ 2))
      ∨ (s ≤ -36028797018963968 ∨ 36028797018963968 ≤ s)) :
    ((-4503599627370496 < p - q ∧ p - q < 4503599627370496) → x = p - q)
      ∧ ((-9007199254740992 < p - q ∧ p - q < 9007199254740992)
        → (-1 ≤ x - (p - q) ∧ x - (p - q) ≤ 1))
      ∧ ((-18014398509481984 < p - q ∧ p - q < 18014398509481984)
        → (-2 ≤ x - (p - q) ∧ x - (p - q) ≤ 2))
      ∧ (-4 ≤ x - (p - q) ∧ x - (p - q) ≤ 4) := by
  subst hz hs
  rcases hw with hw | hw <;> rcases hf with hf | hf | hf | hf <;>
    rcases hx with hx | hx | hx | hx <;> omega

/-- A non-zero `double` is a significand of exactly 53 bits times a power of
two. -/
theorem double_significand (x : ℚ) (hx : x ≠ 0) (hd : roundDouble x = x) :
    ∃ M e : ℤ, (4503599627370496 ≤ |M| ∧ |M| < 9007199254740992)
      ∧ x = (M : ℚ) * (2 : ℚ) ^ (e - 52) := by
  obtain ⟨M, h0, -, hM⟩ := roundDouble_significand x hx
  obtain ⟨-, hb1⟩ := binade_of_ne_zero x hx
  rw [hd] at hM
  refine ⟨M, Int.log 2 |x|, ⟨h0, ?_⟩, hM⟩
  generalize Int.log 2 |x| = e at hb1 hM
  have hu : (0 : ℚ) < (2 : ℚ) ^ (e - 52) := by positivity
  rw [← two_zpow_mul_53 e, hM, abs_mul, abs_of_pos hu] at hb1
  have := lt_of_mul_lt_mul_right hb1 hu.le
  exact_mod_cast this

/-- The product of two significands of 53 bits has between 105 and 106 bits,
and it reaches `2^106 - 2^54` only as `(2^53 - 1)^2`. -/
theorem significand_product (M₁ M₂ : ℤ)
    (h₁ : 4503599627370496 ≤ |M₁| ∧ |M₁| < 9007199254740992)
    (h₂ : 4503599627370496 ≤ |M₂| ∧ |M₂| < 9007199254740992) :
    (20282409603651670423947251286016 ≤ |M₁ * M₂|
        ∧ |M₁ * M₂| < 81129638414606681695789005144064)
      ∧ (|M₁ * M₂| = 81129638414606663681390495662081
          ∨ |M₁ * M₂| < 81129638414606663681390495662080) := by
  rw [abs_mul]
  obtain ⟨a0, a1⟩ := h₁
  obtain ⟨b0, b1⟩ := h₂
  generalize |M₁| = u at a0 a1
  generalize |M₂| = v at b0 b1
  refine ⟨⟨by nlinarith, by nlinarith⟩, ?_⟩
  by_cases hu : u = 9007199254740991
  · by_cases hv : v = 9007199254740991
    · left
      rw [hu, hv]
      norm_num
    · right
      have : v ≤ 9007199254740990 := by omega
      nlinarith
  · right
    have : u ≤ 9007199254740990 := by omega
    nlinarith

/-- A number close to another one lies at most one binade below it. -/
theorem binade_near (X Y : ℚ) (e : ℤ) (hY : (2 : ℚ) ^ e ≤ |Y|)
    (hXY : |X - Y| ≤ (2 : ℚ) ^ (e - 52)) : (2 : ℚ) ^ (e - 1) ≤ |X| := by
  have h1 : (2 : ℚ) ^ e = 2 * (2 : ℚ) ^ (e - 1) := by
    rw [show e = 1 + (e - 1) by ring, zpow_add₀ (by norm_num : (2 : ℚ) ≠ 0), zpow_one]
    congr 2
    ring
  have h2 : (2 : ℚ) ^ (e - 52) ≤ (2 : ℚ) ^ (e - 1) :=
    zpow_le_zpow_right₀ (by norm_num) (by omega)
  have h3 : |Y| ≤ |X| + |X - Y| := by
    have := abs_sub_abs_le_abs_sub Y X
    rw [abs_sub_comm Y X] at this
    linarith
  linarith

/-- Two non-zero numbers that agree to within one unit in the last place of
the larger lie in the same binade or in adjacent ones. -/
theorem near_binades (P Q : ℚ) (hP : P ≠ 0) (hQ : Q ≠ 0)
    (hH : |P - Q| ≤ max (ulp P) (ulp Q)) :
    ∃ E : ℤ, ((2 : ℚ) ^ (E - 1) ≤ |P| ∧ |P| < (2 : ℚ) ^ (E + 1))
      ∧ ((2 : ℚ) ^ (E - 1) ≤ |Q| ∧ |Q| < (2 : ℚ) ^ (E + 1))
      ∧ ((2 : ℚ) ^ E ≤ |P| ∨ (2 : ℚ) ^ E ≤ |Q|)
      ∧ |P - Q| ≤ (2 : ℚ) ^ (E - 52) := by
  obtain ⟨p0, p1⟩ := binade_of_ne_zero P hP
  obtain ⟨q0, q1⟩ := binade_of_ne_zero Q hQ
  have uP := ulp_eq P _ p0 p1
  have uQ := ulp_eq Q _ q0 q1
  rw [uP, uQ] at hH
  generalize Int.log 2 |P| = eP at p0 p1 hH
  generalize Int.log 2 |Q| = eQ at q0 q1 hH
  have hmono : ∀ i j : ℤ, i ≤ j → (2 : ℚ) ^ i ≤ (2 : ℚ) ^ j :=
    fun i j h => zpow_le_zpow_right₀ (by norm_num) h
  rcases le_total eP eQ with h | h
  · have hH' : |P - Q| ≤ (2 : ℚ) ^ (eQ - 52) :=
      le_trans hH (max_le (hmono _ _ (by omega)) le_rfl)
    refine ⟨eQ, ⟨binade_near P Q eQ q0 hH', lt_of_lt_of_le p1 (hmono _ _ (by omega))⟩,
      ⟨le_trans (hmono _ _ (by omega)) q0, q1⟩, Or.inr q0, hH'⟩
  · have hH' : |P - Q| ≤ (2 : ℚ) ^ (eP - 52) :=
      le_trans hH (max_le le_rfl (hmono _ _ (by omega)))
    have hH'' : |Q - P| ≤ (2 : ℚ) ^ (eP - 52) := by
      rw [abs_sub_comm]
      exact hH'
    refine ⟨eP, ⟨le_trans (hmono _ _ (by omega)) p0, p1⟩,
      ⟨binade_near Q P eP p0 hH'', lt_of_lt_of_le q1 (hmono _ _ (by omega))⟩, Or.inl p0, hH'⟩

/-- The unit in the last place of `n * 2^t` is at least `2^k * 2^t` when
`2^(52+k) ≤ |n|`. -/
theorem ulp_grid_ge (n t : ℤ) (k : ℕ) (h : 4503599627370496 * 2 ^ k ≤ |n|) :
    (2 : ℚ) ^ k * (2 : ℚ) ^ t ≤ ulp ((n : ℚ) * (2 : ℚ) ^ t) := by
  have hg : (0 : ℚ) < (2 : ℚ) ^ t := by positivity
  have hq : (4503599627370496 : ℚ) * 2 ^ k ≤ |(n : ℚ)| := by exact_mod_cast h
  have hpos : (0 : ℚ) < |(n : ℚ) * (2 : ℚ) ^ t| := by
    rw [abs_mul, abs_of_pos hg]
    have : (0 : ℚ) < 4503599627370496 * 2 ^ k := by positivity
    exact mul_pos (lt_of_lt_of_le this hq) hg
  have hle : (2 : ℚ) ^ ((52 : ℤ) + k + t) ≤ |(n : ℚ) * (2 : ℚ) ^ t| := by
    rw [abs_mul, abs_of_pos hg, zpow_add₀ (by norm_num : (2 : ℚ) ≠ 0),
      zpow_add₀ (by norm_num : (2 : ℚ) ≠ 0), zpow_natCast]
    have : (2 : ℚ) ^ (52 : ℤ) = 4503599627370496 := by norm_num
    rw [this]
    exact mul_le_mul_of_nonneg_right hq hg.le
  have hlog : (52 : ℤ) + k + t ≤ Int.log 2 |(n : ℚ) * (2 : ℚ) ^ t| :=
    (Int.zpow_le_iff_le_log (b := 2) (by norm_num) hpos (x := (52 : ℤ) + k + t)).mp
      (by exact_mod_cast hle)
  unfold ulp
  rw [← zpow_natCast, ← zpow_add₀ (by norm_num : (2 : ℚ) ≠ 0)]
  exact zpow_le_zpow_right₀ (by norm_num) (by omega)

/-- The negative of a `double` is a `double`. -/
theorem roundDouble_neg_round (x : ℚ) : roundDouble (-roundDouble x) = -roundDouble x := by
  by_cases hx : x = 0
  · subst hx
    simp [roundDouble_zero]
  · obtain ⟨M, h0, h1, hM⟩ := roundDouble_significand x hx
    rw [hM, ← neg_mul]
    have := roundDouble_of_significand (-M) (Int.log 2 |x|) (by rwa [abs_neg]) (by rwa [abs_neg])
    push_cast at this
    exact this

/-- The product of two `double`s on the grid of unit `2^(E-106)`, where the
product lies in the binade of exponent `E` or in the one below: it is an
integer `p` of 106 or 107 bits, even unless it is `± (2^53 - 1)^2` or lies
more than `2^54` below `2^106`. -/
theorem product_on_grid (Ma Mb ea eb E : ℤ)
    (ha : 4503599627370496 ≤ |Ma| ∧ |Ma| < 9007199254740992)
    (hb : 4503599627370496 ≤ |Mb| ∧ |Mb| < 9007199254740992)
    (hlo : (2 : ℚ) ^ (E - 1)
      ≤ |(Ma : ℚ) * (2 : ℚ) ^ (ea - 52) * ((Mb : ℚ) * (2 : ℚ) ^ (eb - 52))|)
    (hhi : |(Ma : ℚ) * (2 : ℚ) ^ (ea - 52) * ((Mb : ℚ) * (2 : ℚ) ^ (eb - 52))|
      < (2 : ℚ) ^ (E + 1)) :
    ∃ p : ℤ, (Ma : ℚ) * (2 : ℚ) ^ (ea - 52) * ((Mb : ℚ) * (2 : ℚ) ^ (eb - 52))
        = (p : ℚ) * (2 : ℚ) ^ (E - 106)
      ∧ ((p ≤ -40564819207303340847894502572032 ∨ 40564819207303340847894502572032 ≤ p)
        ∧ (-162259276829213363391578010288128 < p ∧ p < 162259276829213363391578010288128))
      ∧ (p % 2 = 0 ∨ p = 81129638414606663681390495662081
        ∨ p = -81129638414606663681390495662081
        ∨ (-81129638414606663681390495662080 < p ∧ p < 81129638414606663681390495662080))
      ∧ ((2 : ℚ) ^ E
          ≤ |(Ma : ℚ) * (2 : ℚ) ^ (ea - 52) * ((Mb : ℚ) * (2 : ℚ) ^ (eb - 52))|
        → (p ≤ -81129638414606681695789005144064 ∨ 81129638414606681695789005144064 ≤ p)) := by
  obtain ⟨⟨n0, n1⟩, n2⟩ := significand_product Ma Mb ha hb
  have two : (2 : ℚ) ≠ 0 := by norm_num
  have hX : (Ma : ℚ) * (2 : ℚ) ^ (ea - 52) * ((Mb : ℚ) * (2 : ℚ) ^ (eb - 52))
      = ((Ma * Mb : ℤ) : ℚ) * (2 : ℚ) ^ (ea + eb - 104) := by
    rw [show ea + eb - 104 = (ea - 52) + (eb - 52) by ring, zpow_add₀ two]
    push_cast
    ring
  rw [hX] at hlo hhi ⊢
  generalize Ma * Mb = N at n0 n1 n2 hlo hhi ⊢
  generalize ea + eb - 104 = t at hlo hhi ⊢
  have ht : (0 : ℚ) < (2 : ℚ) ^ t := by positivity
  have hg : (0 : ℚ) < (2 : ℚ) ^ (E - 106) := by positivity
  rw [abs_mul, abs_of_pos ht] at hlo hhi
  have key : ∀ j : ℕ, (2 : ℚ) ^ (E - 106 + (j : ℤ)) = (2 : ℚ) ^ j * (2 : ℚ) ^ (E - 106) := by
    intro j
    rw [zpow_add₀ two, zpow_natCast]
    ring
  have n1q : |(N : ℚ)| < 81129638414606681695789005144064 := by exact_mod_cast n1
  have hK : 0 ≤ t - (E - 106) := by
    by_contra hc
    have h1 : |(N : ℚ)| * (2 : ℚ) ^ t < 81129638414606681695789005144064 * (2 : ℚ) ^ t :=
      mul_lt_mul_of_pos_right n1q ht
    have h2 : (81129638414606681695789005144064 : ℚ) * (2 : ℚ) ^ t = (2 : ℚ) ^ (t + 106) := by
      rw [zpow_add₀ two]
      norm_num
      ring
    have h3 : (2 : ℚ) ^ (t + 106) ≤ (2 : ℚ) ^ (E - 1) :=
      zpow_le_zpow_right₀ (by norm_num) (by omega)
    linarith
  obtain ⟨K, hKe⟩ := Int.eq_ofNat_of_zero_le hK
  have htK : (2 : ℚ) ^ t = (2 : ℚ) ^ K * (2 : ℚ) ^ (E - 106) := by
    rw [← key K]
    congr 1
    omega
  have e105 : (2 : ℚ) ^ (E - 1) = 40564819207303340847894502572032 * (2 : ℚ) ^ (E - 106) := by
    rw [show E - 1 = E - 106 + ((105 : ℕ) : ℤ) by push_cast; ring, key 105]
    norm_num
  have e106 : (2 : ℚ) ^ E = 81129638414606681695789005144064 * (2 : ℚ) ^ (E - 106) := by
    rw [show E = E - 106 + ((106 : ℕ) : ℤ) by push_cast; ring, key 106]
    norm_num
  have e107 : (2 : ℚ) ^ (E + 1)
      = 162259276829213363391578010288128 * (2 : ℚ) ^ (E - 106) := by
    rw [show E + 1 = E - 106 + ((107 : ℕ) : ℤ) by push_cast; ring, key 107]
    norm_num
  have habs : |(N : ℚ)| * (2 : ℚ) ^ t = ((|N * 2 ^ K| : ℤ) : ℚ) * (2 : ℚ) ^ (E - 106) := by
    rw [htK, abs_mul, abs_of_pos (by positivity : (0 : ℤ) < 2 ^ K)]
    push_cast
    ring
  rw [habs] at hlo hhi
  rw [e105] at hlo
  rw [e107] at hhi
  have p0 : 40564819207303340847894502572032 ≤ |N * 2 ^ K| := by
    have := le_of_mul_le_mul_right hlo hg
    exact_mod_cast this
  have p1 : |N * 2 ^ K| < 162259276829213363391578010288128 := by
    have := lt_of_mul_lt_mul_right hhi hg.le
    exact_mod_cast this
  refine ⟨N * 2 ^ K, ?_, ⟨le_abs'.mp p0, abs_lt.mp p1⟩, ?_, ?_⟩
  · rw [htK]
    push_cast
    ring
  · rcases K with _ | K
    · rw [pow_zero, mul_one]
      rcases n2 with h | h
      · rcases abs_cases N with ⟨h', -⟩ | ⟨h', -⟩
        · right; left
          omega
        · right; right; left
          omega
      · right; right; right
        exact abs_lt.mp h
    · left
      have h2 : N * 2 ^ (K + 1) = 2 * (N * 2 ^ K) := by ring
      rw [h2]
      exact Int.mul_emod_right 2 (N * 2 ^ K)
  · intro hE
    rw [abs_mul, abs_of_pos ht, habs, e106] at hE
    have := le_of_mul_le_mul_right hE hg
    have p2 : 81129638414606681695789005144064 ≤ |N * 2 ^ K| := by exact_mod_cast this
    exact le_abs'.mp p2

/-- The rounding error of a product of two `double`s is a `double`: the `fma`
that computes `err` in `det2` is exact. -/
theorem roundDouble_product_error (c b : ℚ) (hc : roundDouble c = c)
    (hb : roundDouble b = b) :
    roundDouble (-c * b + roundDouble (c * b)) = -c * b + roundDouble (c * b) := by
  by_cases hc0 : c = 0
  · subst hc0
    simp [roundDouble_zero]
  by_cases hb0 : b = 0
  · subst hb0
    simp [roundDouble_zero]
  obtain ⟨Mc, ec, hMc, hce⟩ := double_significand c hc0 hc
  obtain ⟨Mb, eb, hMb, hbe⟩ := double_significand b hb0 hb
  obtain ⟨⟨n0, n1⟩, -⟩ := significand_product Mc Mb hMc hMb
  have two : (2 : ℚ) ≠ 0 := by norm_num
  have hX : c * b = ((Mc * Mb : ℤ) : ℚ) * (2 : ℚ) ^ (ec + eb - 104) := by
    rw [hce, hbe, show ec + eb - 104 = (ec - 52) + (eb - 52) by ring, zpow_add₀ two]
    push_cast
    ring
  generalize Mc * Mb = N at n0 n1 hX
  generalize ec + eb - 104 = t at hX
  obtain ⟨m, hm, h⟩ := roundDouble_grid N t
  have hmN : |m - N| ≤ 4503599627370496 := by
    rcases h with ⟨h1, h2⟩ | ⟨J, h1, h2, h3, h4⟩
    · rw [h2, sub_self, abs_zero]
      norm_num
    · have hJ : J < 54 := by
        by_contra hcon
        have : (2 : ℤ) ^ 54 ≤ 2 ^ J := pow_le_pow_right₀ (by norm_num) (by omega)
        norm_num at this
        omega
      have : (2 : ℤ) ^ J ≤ 2 ^ 53 := pow_le_pow_right₀ (by norm_num) (by omega)
      norm_num at this
      omega
  rw [abs_le] at hmN
  have hsum : -c * b + roundDouble (c * b) = ((m - N : ℤ) : ℚ) * (2 : ℚ) ^ t := by
    rw [neg_mul, hX, hm]
    push_cast
    ring
  rw [hsum]
  obtain ⟨m', hm', h'⟩ := roundDouble_grid_small (m - N) t
  rw [hm']
  have : m' = m - N := by omega
  rw [this]

/-- The compensated evaluation on a grid: for two products `p * 2^t` and
`q * 2^t` of 106 or 107 bits that differ by at most `2^54` grid units, the
value computed from the rounded `q * 2^t`, its exact error and the rounded
`dop` lies within one unit in the last place of `p * 2^t - q * 2^t`. -/
theorem compensated_on_grid (p q t : ℤ)
    (hp : (p ≤ -40564819207303340847894502572032 ∨ 40564819207303340847894502572032 ≤ p)
      ∧ (-162259276829213363391578010288128 < p ∧ p < 162259276829213363391578010288128))
    (hq : (q ≤ -40564819207303340847894502572032 ∨ 40564819207303340847894502572032 ≤ q)
      ∧ (-162259276829213363391578010288128 < q ∧ q < 162259276829213363391578010288128))
    (hp2 : p % 2 = 0 ∨ p = 81129638414606663681390495662081
      ∨ p = -81129638414606663681390495662081
      ∨ (-81129638414606663681390495662080 < p ∧ p < 81129638414606663681390495662080))
    (hq2 : q % 2 = 0 ∨ q = 81129638414606663681390495662081
      ∨ q = -81129638414606663681390495662081
      ∨ (-81129638414606663681390495662080 < q ∧ q < 81129638414606663681390495662080))
    (hE : (p ≤ -81129638414606681695789005144064 ∨ 81129638414606681695789005144064 ≤ p)
      ∨ (q ≤ -81129638414606681695789005144064 ∨ 81129638414606681695789005144064 ≤ q))
    (hH : (-18014398509481984 ≤ p - q ∧ p - q ≤ 18014398509481984)) :
    |roundDouble (roundDouble ((p : ℚ) * (2 : ℚ) ^ t + -roundDouble ((q : ℚ) * (2 : ℚ) ^ t))
          + (-((q : ℚ) * (2 : ℚ) ^ t) + roundDouble ((q : ℚ) * (2 : ℚ) ^ t)))
        - ((p : ℚ) * (2 : ℚ) ^ t - (q : ℚ) * (2 : ℚ) ^ t)|
      ≤ ulp ((p : ℚ) * (2 : ℚ) ^ t - (q : ℚ) * (2 : ℚ) ^ t)
    ∧ (p = q →
      roundDouble (roundDouble ((p : ℚ) * (2 : ℚ) ^ t + -roundDouble ((q : ℚ) * (2 : ℚ) ^ t))
          + (-((q : ℚ) * (2 : ℚ) ^ t) + roundDouble ((q : ℚ) * (2 : ℚ) ^ t))) = 0) := by
  have hg : (0 : ℚ) < (2 : ℚ) ^ t := by positivity
  obtain ⟨w, hw, hwB⟩ := roundDouble_grid_product q t hq.1 hq.2
  rw [hw]
  have e1 : (p : ℚ) * (2 : ℚ) ^ t + -((w : ℚ) * (2 : ℚ) ^ t)
      = ((p - w : ℤ) : ℚ) * (2 : ℚ) ^ t := by
    push_cast
    ring
  rw [e1]
  obtain ⟨f, hf, hfB⟩ := roundDouble_grid_small (p - w) t
  rw [hf]
  have e2 : (f : ℚ) * (2 : ℚ) ^ t + (-((q : ℚ) * (2 : ℚ) ^ t) + (w : ℚ) * (2 : ℚ) ^ t)
      = ((f + (w - q) : ℤ) : ℚ) * (2 : ℚ) ^ t := by
    push_cast
    ring
  rw [e2]
  obtain ⟨x, hx, hxB⟩ := roundDouble_grid_small (f + (w - q)) t
  rw [hx]
  obtain ⟨c1, c2, c3, c4⟩ := det2_grid_error p q w (p - w) f (f + (w - q)) x hp hq hp2 hq2
    hE hH hwB rfl hfB rfl hxB
  have e3 : (x : ℚ) * (2 : ℚ) ^ t - ((p : ℚ) * (2 : ℚ) ^ t - (q : ℚ) * (2 : ℚ) ^ t)
      = ((x - (p - q) : ℤ) : ℚ) * (2 : ℚ) ^ t := by
    push_cast
    ring
  have e4 : (p : ℚ) * (2 : ℚ) ^ t - (q : ℚ) * (2 : ℚ) ^ t
      = ((p - q : ℤ) : ℚ) * (2 : ℚ) ^ t := by
    push_cast
    ring
  refine ⟨?_, fun hpq => ?_⟩
  swap
  · have hx0 : x = p - q := c1 (by omega)
    rw [hx0, hpq, sub_self, Int.cast_zero, zero_mul]
  rw [e3, e4, abs_mul, abs_of_pos hg]
  have step : ∀ k : ℕ, 4503599627370496 * 2 ^ k ≤ |p - q| → |x - (p - q)| ≤ 2 ^ k →
      |((x - (p - q) : ℤ) : ℚ)| * (2 : ℚ) ^ t ≤ ulp (((p - q : ℤ) : ℚ) * (2 : ℚ) ^ t) := by
    intro k h1 h2
    have h3 : |((x - (p - q) : ℤ) : ℚ)| ≤ (2 : ℚ) ^ k := by
      rw [← Int.cast_abs]
      exact_mod_cast h2
    exact le_trans (mul_le_mul_of_nonneg_right h3 hg.le) (ulp_grid_ge (p - q) t k h1)
  by_cases h52 : -4503599627370496 < p - q ∧ p - q < 4503599627370496
  · rw [c1 h52, sub_self, Int.cast_zero, abs_zero, zero_mul]
    exact (ulp_pos _).le
  by_cases h53 : -9007199254740992 < p - q ∧ p - q < 9007199254740992
  · apply step 0
    · rw [pow_zero, mul_one, le_abs']
      omega
    · rw [pow_zero, abs_le]
      exact c2 h53
  by_cases h54 : -18014398509481984 < p - q ∧ p - q < 18014398509481984
  · apply step 1
    · rw [pow_one, le_abs']
      omega
    · rw [pow_one, abs_le]
      exact c3 h54
  · apply step 2
    · have e : (4503599627370496 : ℤ) * 2 ^ 2 = 18014398509481984 := by norm_num
      rw [e, le_abs']
      omega
    · have e : ((2 : ℤ) ^ 2) = 4 := by norm_num
      rw [e, abs_le]
      exact c4

/-- C17, amended: in `double` arithmetic without overflow or underflow, on the
path compiled when `FP_FAST_FMA` is defined, for all `double` inputs whose
products `a*d` and `c*b` agree to within one unit in the last place of the
larger of the two, the value returned by `det2` differs from the exact
`a*d - c*b` by at most one unit in the last place at the magnitude of that
exact value, and it is 0 when the exact value is 0. -/
theorem det2Double_compensated_within_ulp (a d c b : ℚ)
    (ha : roundDouble a = a) (hd : roundDouble d = d)
    (hc : roundDouble c = c) (hb : roundDouble b = b)
    (hH : |a * d - c * b| ≤ max (ulp (a * d)) (ulp (c * b))) :
    |det2Double true a d c b - (a * d - c * b)| ≤ ulp (a * d - c * b)
      ∧ (a * d - c * b = 0 → det2Double true a d c b = 0) := by
  have hhalf : ∀ y : ℚ, |roundDouble y - y| ≤ ulp y := fun y =>
    le_trans (roundDouble_abs_sub_le y) (by linarith [ulp_pos y])
  simp only [det2Double, fmaDouble, if_true]
  rw [roundDouble_product_error c b hc hb, neg_mul]
  by_cases hQ : c * b = 0
  · rw [hQ, roundDouble_zero, neg_zero, add_zero, add_zero, add_zero, roundDouble_idem, sub_zero]
    refine ⟨hhalf _, fun h0 => ?_⟩
    rw [h0, roundDouble_zero]
  by_cases hP : a * d = 0
  · rw [hP, zero_add, roundDouble_neg_round, zero_sub]
    have : -roundDouble (c * b) + (-(c * b) + roundDouble (c * b)) = -(c * b) := by ring
    rw [this]
    refine ⟨hhalf _, fun h0 => ?_⟩
    rw [h0, roundDouble_zero]
  obtain ⟨Ma, ea, hMa, hae⟩ := double_significand a (left_ne_zero_of_mul hP) ha
  obtain ⟨Md, ed, hMd, hde⟩ := double_significand d (right_ne_zero_of_mul hP) hd
  obtain ⟨Mc, ec, hMc, hce⟩ := double_significand c (left_ne_zero_of_mul hQ) hc
  obtain ⟨Mb, eb, hMb, hbe⟩ := double_significand b (right_ne_zero_of_mul hQ) hb
  obtain ⟨E, ⟨P0, P1⟩, ⟨Q0, Q1⟩, hE, hH'⟩ := near_binades (a * d) (c * b) hP hQ hH
  have hPe : a * d = (Ma : ℚ) * (2 : ℚ) ^ (ea - 52) * ((Md : ℚ) * (2 : ℚ) ^ (ed - 52)) := by
    rw [← hae, ← hde]
  have hQe : c * b = (Mc : ℚ) * (2 : ℚ) ^ (ec - 52) * ((Mb : ℚ) * (2 : ℚ) ^ (eb - 52)) := by
    rw [← hce, ← hbe]
  rw [hPe] at P0 P1
  rw [hQe] at Q0 Q1
  rw [hPe, hQe] at hE
  obtain ⟨p, hp, hpB, hp2, hpE⟩ := product_on_grid Ma Md ea ed E hMa hMd P0 P1
  obtain ⟨q, hq, hqB, hq2, hqE⟩ := product_on_grid Mc Mb ec eb E hMc hMb Q0 Q1
  have hE' := Or.imp hpE hqE hE
  rw [hPe, hQe, hp, hq] at hH' ⊢
  have hg : (0 : ℚ) < (2 : ℚ) ^ (E - 106) := by positivity
  have hHi : |p - q| ≤ 18014398509481984 := by
    have e4 : (p : ℚ) * (2 : ℚ) ^ (E - 106) - (q : ℚ) * (2 : ℚ) ^ (E - 106)
        = ((p - q : ℤ) : ℚ) * (2 : ℚ) ^ (E - 106) := by
      push_cast
      ring
    have e5 : (2 : ℚ) ^ (E - 52) = 18014398509481984 * (2 : ℚ) ^ (E - 106) := by
      rw [show E - 52 = (54 : ℤ) + (E - 106) by ring, zpow_add₀ (by norm_num : (2 : ℚ) ≠ 0)]
      norm_num
    rw [e4, e5, abs_mul, abs_of_pos hg] at hH'
    have := le_of_mul_le_mul_right hH' hg
    rw [← Int.cast_abs] at this
    exact_mod_cast this
  obtain ⟨k1, k2⟩ := compensated_on_grid p q (E - 106) hpB hqB hp2 hq2 hE' (abs_le.mp hHi)
  refine ⟨k1, fun h0 => k2 ?_⟩
  have h1 : (p : ℚ) * (2 : ℚ) ^ (E - 106) = (q : ℚ) * (2 : ℚ) ^ (E - 106) := by linarith
  have h2 := mul_right_cancel₀ hg.ne' h1
  exact_mod_cast h2

/-- C17 (amended), at the inputs `2^27 + 1`, `2^27 + 1`, `2^27`, `2^27 + 2`:
they are `double`s, their products differ by 1, less than the unit in the last
place of either product, and the compensated path returns a value within one
unit in the last place of the exact difference. -/
theorem det2Double_compensated_within_ulp_witness :
    (roundDouble 134217729 = 134217729 ∧ roundDouble 134217728 = 134217728
        ∧ roundDouble 134217730 = 134217730)
      ∧ |(134217729 : ℚ) * 134217729 - 134217728 * 134217730|
          ≤ max (ulp ((134217729 : ℚ) * 134217729)) (ulp ((134217728 : ℚ) * 134217730))
      ∧ (|det2Double true 134217729 134217729 134217728 134217730
            - ((134217729 : ℚ) * 134217729 - 134217728 * 134217730)|
          ≤ ulp ((134217729 : ℚ) * 134217729 - 134217728 * 134217730)
        ∧ ((134217729 : ℚ) * 134217729 - 134217728 * 134217730 = 0 →
          det2Double true 134217729 134217729 134217728 134217730 = 0)) :=
  have ha : roundDouble (134217729 : ℚ) = 134217729 :=
    roundDouble_eq_self 134217729 4503599660924928 27 (by norm_num) (by decide) (by decide)
  have hc : roundDouble (134217728 : ℚ) = 134217728 :=
    roundDouble_eq_self 134217728 4503599627370496 27 (by norm_num) (by decide) (by decide)
  have hb : roundDouble (134217730 : ℚ) = 134217730 :=
    roundDouble_eq_self 134217730 4503599694479360 27 (by norm_num) (by decide) (by decide)
  have hH : |(134217729 : ℚ) * 134217729 - 134217728 * 134217730|
      ≤ max (ulp ((134217729 : ℚ) * 134217729)) (ulp ((134217728 : ℚ) * 134217730)) := by
    apply le_max_of_le_left
    rw [ulp_eq ((134217729 : ℚ) * 134217729) 54 (by norm_num) (by norm_num)]
    norm_num
  ⟨⟨ha, hc, hb⟩, hH,
    det2Double_compensated_within_ulp 134217729 134217729 134217728 134217730 ha ha hc hb hH⟩

end mathFunctionsWENO

end Foam
